import Mathlib

/-!
# go-hde: a length disassembler for x86 / x86-64

Shallow embedding of `pfx.go`, `literal.go`, `insn.go` and `decode.go`.

Conventions of the embedding:

* a Go `byte`/`uint8` read from the input or from a table is a `Byte`
  (`Fin 256`); once read it is a `Nat`, and every operation that can leave the
  machine width carries an explicit `% 2 ^ w`;
* `PrefixSet` (`uint16`), `PrefixID` (`uint8`) and `Flag` (`uint32`) are `Nat`;
* a Go slice of bytes is a `List Byte`; `s[a:]` and `s[i]` can fail at run time
  (index out of range), which the embedding renders as `none`;
* `Mode` (its table and its offsets) and the `cf…` classification constants
  are declared in a file that is not part of the sources at hand, so they are
  parameters of the embedding.
-/

namespace Hde

/-- A byte of the input or of a classification table. -/
abbrev Byte := Fin 256

/-! ## pfx.go -/

def PRE_SEG_CS : Nat := 0x2e
def PRE_SEG_SS : Nat := 0x36
def PRE_SEG_DS : Nat := 0x3e
def PRE_SEG_ES : Nat := 0x26
def PRE_SEG_FS : Nat := 0x64
def PRE_SEG_GS : Nat := 0x65
def PRE_LOCK : Nat := 0xf0
def PRE_REPNZ : Nat := 0xf2
def PRE_REPX : Nat := 0xf3
def PRE_OP_SIZE : Nat := 0x66
def PRE_ADDR_SIZE : Nat := 0x67

def SegNone : Nat := 0
def SegDS : Nat := 1
def SegCS : Nat := 2
def SegSS : Nat := 3
def SegES : Nat := 4
def SegFS : Nat := 5
def SegGS : Nat := 6

def PreNone : Nat := 0
def PreRepNZ : Nat := 1
def PreRep : Nat := 2
def PreOpSize : Nat := 3
def PreAddrSize : Nat := 4
def PreLock : Nat := 5
def PreREX : Nat := 6
def PreSegDS : Nat := 7
def PreSegCS : Nat := 8
def PreSegSS : Nat := 9
def PreSegES : Nat := 10
def PreSegFS : Nat := 11
def PreSegGS : Nat := 12

/-- The array `segToPfxTable`: seven entries, entry `SegNone` is zero. -/
def segToPfxTable : List Nat :=
  [0, PRE_SEG_DS, PRE_SEG_CS, PRE_SEG_SS, PRE_SEG_ES, PRE_SEG_FS, PRE_SEG_GS]

/-- Method `Segment.Prefix`. -/
def Segment.Prefix (p : Nat) : Nat :=
  if p ≥ segToPfxTable.length then 0 else segToPfxTable.getD p 0

/-- The value `PrefixSet(1) << pfx` on `uint16`: a shift count of 16 or more gives zero. -/
def psetBit (pfx : Nat) : Nat := (1 <<< pfx) % 2 ^ 16

def psetSegMask : Nat :=
  psetBit PreSegDS ||| psetBit PreSegCS ||| psetBit PreSegSS |||
    psetBit PreSegES ||| psetBit PreSegFS ||| psetBit PreSegGS

def psetRepMask : Nat := psetBit PreRep ||| psetBit PreRepNZ

/-- The Go operator `p &^ m` on `uint16`. -/
def andNot16 (p m : Nat) : Nat := p &&& (m ^^^ 0xffff)

/-- Method `PrefixSet.Add`. -/
def PrefixSet.Add (p pfx : Nat) : Nat :=
  let p := if PreSegDS ≤ pfx ∧ pfx ≤ PreSegGS then andNot16 p psetSegMask else p
  let p := if PreRepNZ ≤ pfx ∧ pfx ≤ PreRep then andNot16 p psetRepMask else p
  p ||| psetBit pfx

/-- Method `PrefixSet.Remove`. -/
def PrefixSet.Remove (p pfx : Nat) : Nat := andNot16 p (psetBit pfx)

/-- Method `PrefixSet.Has`. -/
def PrefixSet.Has (p pfx : Nat) : Bool := p &&& psetBit pfx != 0

/-- Library function `bits.TrailingZeros16`: the index of the lowest set bit, 16 for zero. -/
def trailingZeros16 (p : Nat) : Nat :=
  ((List.range 16).find? (fun i => p.testBit i)).getD 16

/-- Method `PrefixSet.FirstPrefix`. -/
def PrefixSet.FirstPrefix (p : Nat) : Nat :=
  if p = 0 then PreNone else trailingZeros16 p

/-- Method `PrefixID.Segment`; the sum is a `byte`. -/
def PrefixID.Segment (p : Nat) : Nat :=
  if PreSegDS ≤ p ∧ p ≤ PreSegGS then ((p - PreSegDS) + SegDS) % 256 else SegNone

/-- Method `PrefixSet.Segment`. -/
def PrefixSet.Segment (p : Nat) : Nat :=
  PrefixID.Segment (PrefixSet.FirstPrefix (p &&& psetSegMask))

/-- Function `PrefixToID`, the lookup in the 256-entry `prefixTable`; entries that the
array literal does not name are zero, which is `PreNone`. -/
def PrefixToID (op : Nat) : Nat :=
  if op = PRE_REPX then PreRep
  else if op = PRE_REPNZ then PreRepNZ
  else if op = PRE_LOCK then PreLock
  else if op = PRE_SEG_CS then PreSegCS
  else if op = PRE_SEG_SS then PreSegSS
  else if op = PRE_SEG_DS then PreSegDS
  else if op = PRE_SEG_ES then PreSegES
  else if op = PRE_SEG_FS then PreSegFS
  else if op = PRE_SEG_GS then PreSegGS
  else if op = PRE_OP_SIZE then PreOpSize
  else if op = PRE_ADDR_SIZE then PreAddrSize
  else PreNone

/-- Method `SIB.Scale`. -/
def SIB.Scale (b : Nat) : Nat := b >>> 6
/-- Method `SIB.Index`. -/
def SIB.Index (b : Nat) : Nat := (b &&& 0x3f) >>> 3
/-- Method `SIB.Base`. -/
def SIB.Base (b : Nat) : Nat := b &&& 7

/-- Method `ModRM.Mod`. -/
def ModRM.Mod (b : Nat) : Nat := b >>> 6
/-- Method `ModRM.Reg`. -/
def ModRM.Reg (b : Nat) : Nat := (b &&& 0x3f) >>> 3
/-- Method `ModRM.RM`. -/
def ModRM.RM (b : Nat) : Nat := b &&& 7

/-- Method `REX.W`. -/
def REX.W (b : Nat) : Nat := (b &&& 0xf) >>> 3
/-- Method `REX.R`. -/
def REX.R (b : Nat) : Nat := (b &&& 7) >>> 2
/-- Method `REX.X`. -/
def REX.X (b : Nat) : Nat := (b &&& 3) >>> 1
/-- Method `REX.B`. -/
def REX.B (b : Nat) : Nat := b &&& 1

/-! ## literal.go -/

/-- Type `Literal`: a value and the number of bits that represent it. -/
structure Literal where
  Value : Nat
  Bits : Nat
  deriving DecidableEq, Repr

/-- The zero value of `Literal`. -/
def Literal.zero : Literal := ⟨0, 0⟩

/-- Little-endian value of a byte sequence (`binary.LittleEndian`). -/
def littleEndian : List Byte → Nat
  | [] => 0
  | b :: bs => b.val + 256 * littleEndian bs

/-- Method `Literal.Valid`. -/
def Literal.Valid (lit : Literal) : Bool := lit.Bits != 0

/-- Method `Literal.Uint`. -/
def Literal.Uint (lit : Literal) : Nat × Bool := (lit.Value, decide (lit.Bits > 0))

/-- Conversion `int64(u)` of a `uint64`. -/
def toInt64 (u : Nat) : Int :=
  if u % 2 ^ 64 < 2 ^ 63 then ((u % 2 ^ 64 : Nat) : Int) else ((u % 2 ^ 64 : Nat) : Int) - 2 ^ 64

/-- Method `Literal.Int`: `shift` is a `uint8`, `u << shift` a `uint64`, and `>>` on
an `int64` is the arithmetic shift (floor division by a power of two). -/
def Literal.Int (lit : Literal) : Int × Bool :=
  if lit.Bits = 0 then (0, false)
  else
    let u := lit.Value
    if lit.Bits = 64 then (toInt64 u, true)
    else
      let shift := (64 + 256 - lit.Bits % 256) % 256
      (toInt64 ((u <<< shift) % 2 ^ 64) / 2 ^ shift, true)

/-- Method `Literal.read64`: the returned triple is the `bool` result, the literal
after the call and the cursor `*bb` after the call. -/
def Literal.read64 (lit : Literal) (bb : List Byte) : Bool × Literal × List Byte :=
  let buf := bb
  if buf.length < 8 then (false, lit, bb)
  else (true, { Value := littleEndian (buf.take 8) % 2 ^ 64, Bits := 64 }, buf.drop 8)

/-- Method `Literal.read32`. -/
def Literal.read32 (lit : Literal) (bb : List Byte) : Bool × Literal × List Byte :=
  let buf := bb
  if buf.length < 4 then (false, lit, bb)
  else (true, { Value := littleEndian (buf.take 4) % 2 ^ 32, Bits := 32 }, buf.drop 4)

/-- Method `Literal.read16`. -/
def Literal.read16 (lit : Literal) (bb : List Byte) : Bool × Literal × List Byte :=
  let buf := bb
  if buf.length < 2 then (false, lit, bb)
  else (true, { Value := littleEndian (buf.take 2) % 2 ^ 16, Bits := 16 }, buf.drop 2)

/-- Method `Literal.read8`. -/
def Literal.read8 (lit : Literal) (bb : List Byte) : Bool × Literal × List Byte :=
  match bb with
  | [] => (false, lit, bb)
  | b :: rest => (true, { Value := b.val, Bits := 8 }, rest)

/-! ## insn.go -/

def IsModRM : Nat := 0x00000001
def IsSIB : Nat := 0x00000002
def HasImm8 : Nat := 0x00000004
def HasImm16 : Nat := 0x00000008
def HasImm32 : Nat := 0x00000010
def HasImm64 : Nat := 0x00000020
def Has2Imm16 : Nat := 0x00000020
def HasDisp8 : Nat := 0x00000040
def HasDisp16 : Nat := 0x00000080
def HasDisp32 : Nat := 0x00000100
def IsRelative : Nat := 0x00000200

def prefixSetShift : Nat := 10

/-- The value `Flag(1) << (prefixSetShift + pfx)` on `uint32`. -/
def flagBit (pfx : Nat) : Nat := (1 <<< (prefixSetShift + pfx)) % 2 ^ 32

def NotPrefixed : Nat := flagBit PreNone
def HasRepNZ : Nat := flagBit PreRepNZ
def HasRep : Nat := flagBit PreRep
def HasOpSize : Nat := flagBit PreOpSize
def HasAddrSize : Nat := flagBit PreAddrSize
def HasLock : Nat := flagBit PreLock
def HasREX : Nat := flagBit PreREX
def HasSegCS : Nat := flagBit PreSegCS
def HasSegSS : Nat := flagBit PreSegSS
def HasSegDS : Nat := flagBit PreSegDS
def HasSegES : Nat := flagBit PreSegES
def HasSegFS : Nat := flagBit PreSegFS
def HasSegGS : Nat := flagBit PreSegGS

/-- Method `Flag.Prefixes`: the conversion to `PrefixSet` keeps sixteen bits. -/
def Flag.Prefixes (f : Nat) : Nat := (f >>> prefixSetShift) % 2 ^ 16

/-- Method `Flag.AddPrefixes`. -/
def Flag.AddPrefixes (f ps : Nat) : Nat := f ||| ((ps <<< prefixSetShift) % 2 ^ 32)

/-- Method `Flag.WithPrefixes`. -/
def Flag.WithPrefixes (f ps : Nat) : Nat :=
  Flag.AddPrefixes (f &&& ((1 <<< prefixSetShift) - 1)) ps

/-- Method `Flag.Segment`. -/
def Flag.Segment (f : Nat) : Nat := PrefixSet.Segment (Flag.Prefixes f)

/-- Type `Insn`, the decoded instruction. -/
structure Insn where
  Flags : Nat
  Length : Nat
  Opcode : Nat
  Opcode2 : Nat
  REX : Nat
  ModRM : Nat
  SIB : Nat
  Imm : Literal
  Disp : Literal
  deriving DecidableEq, Repr

/-- The zero value of `Insn`, which the named result `hs` starts from. -/
def Insn.zero : Insn :=
  { Flags := 0, Length := 0, Opcode := 0, Opcode2 := 0, REX := 0, ModRM := 0, SIB := 0,
    Imm := Literal.zero, Disp := Literal.zero }

/-- Method `Insn.Len`. -/
def Insn.Len (insn : Insn) : Nat := insn.Length

/-- Method `Insn.SegmentPrefix`. -/
def Insn.SegmentPrefix (insn : Insn) : Nat := Segment.Prefix (Flag.Segment insn.Flags)

/-- Method `Insn.RepPrefix`. -/
def Insn.RepPrefix (insn : Insn) : Nat :=
  if insn.Flags &&& HasRep ≠ 0 then PRE_REPX
  else if insn.Flags &&& HasRepNZ ≠ 0 then PRE_REPNZ
  else 0

/-- Method `Insn.LockPrefix`. -/
def Insn.LockPrefix (insn : Insn) : Nat :=
  if insn.Flags &&& HasLock ≠ 0 then PRE_LOCK else 0

/-- Method `Insn.OpSizePrefix`. -/
def Insn.OpSizePrefix (insn : Insn) : Nat :=
  if insn.Flags &&& HasOpSize ≠ 0 then PRE_OP_SIZE else 0

/-- Method `Insn.AddrSizePrefix`. -/
def Insn.AddrSizePrefix (insn : Insn) : Nat :=
  if insn.Flags &&& HasAddrSize ≠ 0 then PRE_ADDR_SIZE else 0

/-! ## decode.go -/

/-- The four decoder errors (`ErrLength`, `ErrUnknownOpcode`, `ErrInvalidLock`,
`ErrBadOperand`). -/
inductive DecoderError where
  | ErrLength
  | ErrUnknownOpcode
  | ErrInvalidLock
  | ErrBadOperand
  deriving DecidableEq, Repr

def MaxInsnLen : Nat := 15

/-- Type `Mode`: the operating width and the classification table with its named
offsets. The declaration is not in the sources at hand; the fields are those
that `Decode` reads. Offsets are `int` in the source and are taken
non-negative here. -/
structure Mode where
  long : Bool
  table : List Byte
  dtOpcodes : Nat
  dtPrefixes : Nat
  dtFPUModRM : Nat
  dtFPUReg : Nat
  dtOpLockOk : Nat
  dtOp2LockOk : Nat
  dtOpOnlyMem : Nat
  dtOp2OnlyMem : Nat

/-- The `cf…` constants of type `cflag` (an alias of `uint8`) that `Decode`
tests; their declaration is not in the sources at hand. -/
structure CFlags where
  cfError : Byte
  cfGroup : Byte
  cfModRM : Byte
  cfImm8 : Byte
  cfImm16 : Byte
  cfImmP66 : Byte
  cfRel8 : Byte
  cfRel32 : Byte

/-- The local variables of `Decode` (the cursor `p` is kept apart). -/
structure St where
  hs : Insn
  x : Nat
  c : Nat
  opcode : Nat
  cflags : Nat
  pref : Nat
  mod : Nat
  reg : Nat
  rm : Nat
  op64 : Bool
  tbl : List Byte
  dispSize : Nat

/-- The locals at function entry: everything is zero. -/
def St.init : St :=
  { hs := Insn.zero, x := 0, c := 0, opcode := 0, cflags := 0, pref := 0, mod := 0,
    reg := 0, rm := 0, op64 := false, tbl := [], dispSize := 0 }

/-- Outcome of a stretch of `Decode` that does not touch the cursor: control
goes on, `return hs, err`, or a run-time panic (index out of range). -/
inductive Pure where
  | cont (st : St)
  | fail (hs : Insn) (err : DecoderError)
  | panic

/-- Outcome of a stretch of `Decode` on a cursor: control goes on with the
cursor `p`; the success exit `hs.Length = uint8(len(code) - len(p)); return`
is taken with the cursor `p`; `return hs, err`; or a run-time panic. -/
inductive Step where
  | next (st : St) (p : List Byte)
  | done (hs : Insn) (p : List Byte)
  | fail (hs : Insn) (err : DecoderError)
  | panic

/-- Sequencing of two stretches that do not touch the cursor. -/
def Pure.andThen (r : Pure) (f : St → Pure) : Pure :=
  match r with
  | .cont st => f st
  | .fail hs err => .fail hs err
  | .panic => .panic

/-- A stretch that does not touch the cursor, run at cursor `p`. -/
def Pure.run (r : Pure) (p : List Byte) : Step :=
  match r with
  | .cont st => .next st p
  | .fail hs err => .fail hs err
  | .panic => .panic

/-- Sequencing of two stretches. -/
def Step.andThen (s : Step) (f : St → List Byte → Step) : Step :=
  match s with
  | .next st p => f st p
  | .done hs p => .done hs p
  | .fail hs err => .fail hs err
  | .panic => .panic

/-- The slice expression `s[a:]`. -/
def sliceFrom (s : List Byte) (a : Nat) : Option (List Byte) :=
  if a ≤ s.length then some (s.drop a) else none

/-- The index expression `s[i]`. -/
def byteAt (s : List Byte) (i : Nat) : Option Nat :=
  (s.get? i).map Fin.val

/-- The two-level lookup `tbl[tbl[opcode>>2]+(opcode&3)]`; the inner sum is a
`uint8`. -/
def lookup2 (tbl : List Byte) (opcode : Nat) : Option Nat :=
  match byteAt tbl (opcode >>> 2) with
  | none => none
  | some a => byteAt tbl ((a + (opcode &&& 3)) % 256)

/-- The statements `if len(p) == 0 { return hs, ErrLength }` and
`c, p = p[0], p[1:]`; `k` is the code that follows, given `c` and the cursor. -/
def nextByte (hs : Insn) (k : Nat → List Byte → Step) (p : List Byte) : Step :=
  match p with
  | [] => .fail hs .ErrLength
  | b :: p' => k b.val p'

/-- The statement `if !dst.readN(&p) { return hs, ErrLength }`, where `dst` is
the field `hs.Imm` or `hs.Disp`: `rd` is the read method, `lit` the literal
before the call, `put` gives `hs` with the literal after the call in that
field, and `k` is the code that follows, given `hs` and the cursor. -/
def readLit (rd : Literal → List Byte → Bool × Literal × List Byte) (lit : Literal)
    (put : Literal → Insn) (k : Insn → List Byte → Step) (p : List Byte) : Step :=
  let r := rd lit p
  if r.1 = false then .fail (put r.2.1) .ErrLength else k (put r.2.1) r.2.2

/-- The prefix loop `for x = 16; x > 0; x--`. -/
def prefixLoop : Nat → St → List Byte → Step
  | 0, st, p => .next st p
  | x + 1, st, p =>
    nextByte st.hs (fun c p' =>
      let st := { st with c := c }
      let pi := PrefixToID st.c
      if pi = PreNone then .next st p'
      else prefixLoop x { st with pref := PrefixSet.Add st.pref pi } p') p

/-- Lines 69–73: the prefix set goes into the flags, then the local set
receives `PreNone` if it is empty. -/
def afterPrefixes (st : St) : St :=
  let hs := { st.hs with Flags := Flag.AddPrefixes st.hs.Flags st.pref }
  let pref := if st.pref = 0 then PrefixSet.Add st.pref PreNone else st.pref
  { st with hs := hs, pref := pref }

/-- Lines 75–90: the REX byte in long mode. -/
def rexPhase (mode : Mode) (st : St) (p : List Byte) : Step :=
  if mode.long then
    if st.c &&& 0xf0 = 0x40 then
      let hs := { st.hs with Flags := st.hs.Flags ||| HasREX, REX := st.c }
      let peek : Bool :=
        match p with
        | [] => false
        | b :: _ => decide (b.val &&& 0xf8 = 0xb8)
      let op64 := if REX.W hs.REX ≠ 0 ∧ peek = true then true else st.op64
      match p with
      | [] => .fail hs .ErrLength
      | b :: p' =>
        if b.val &&& 0xf0 = 0x40 then .fail hs .ErrUnknownOpcode
        else .next { st with hs := hs, op64 := op64, c := b.val } p'
    else .next st p
  else .next st p

/-- Lines 92–108: the opcode byte or bytes. -/
def opcodePhase (mode : Mode) (st : St) (p : List Byte) : Step :=
  let hs := { st.hs with Opcode := st.c }
  let st := { st with hs := hs, tbl := mode.table }
  if st.c = 0x0f then
    nextByte hs (fun c p' =>
      let hs := { hs with Opcode2 := c }
      Pure.run
        (match sliceFrom st.tbl mode.dtOpcodes with
         | none => .panic
         | some tbl => .cont { st with hs := hs, c := c, tbl := tbl }) p') p
  else if st.c ≥ 0xa0 ∧ st.c ≤ 0xa3 then
    let pref :=
      if PrefixSet.Has st.pref PreAddrSize then PrefixSet.Add st.pref PreOpSize
      else PrefixSet.Remove st.pref PreOpSize
    .next { st with op64 := true, pref := pref } p
  else .next st p

/-- Lines 110–115: the classification word of the opcode. -/
def classify (cf : CFlags) (st : St) : Pure :=
  let st := { st with opcode := st.c }
  match lookup2 st.tbl st.opcode with
  | none => .panic
  | some cflags =>
    let st := { st with cflags := cflags }
    if st.cflags = cf.cfError.val then .fail st.hs .ErrUnknownOpcode
    else .cont st

/-- Lines 117–122: group resolution. -/
def groupPhase (cf : CFlags) (st : St) : Pure :=
  let st := { st with x := 0 }
  if st.cflags &&& cf.cfGroup.val ≠ 0 then
    match byteAt st.tbl (st.cflags &&& 0x7f), byteAt st.tbl ((st.cflags &&& 0x7f) + 1) with
    | some lo, some hi =>
      let t := lo ||| ((hi <<< 8) % 2 ^ 16)
      .cont { st with cflags := t % 256, x := (t >>> 8) % 256 }
    | _, _ => .panic
  else .cont st

/-- Lines 124–129: prefixes that a two-byte opcode does not admit. -/
def prefixLegality (mode : Mode) (st : St) : Pure :=
  if st.hs.Opcode2 ≠ 0 then
    match sliceFrom mode.table mode.dtPrefixes with
    | none => .panic
    | some tbl =>
      let st := { st with tbl := tbl }
      match lookup2 st.tbl st.opcode with
      | none => .panic
      | some v =>
        if v &&& (st.pref % 256) ≠ 0 then .fail st.hs .ErrUnknownOpcode
        else .cont st
  else .cont st

/-- Lines 135–141: the ModRM byte is read and split. -/
def readModRM (st : St) (p : List Byte) : Step :=
  nextByte st.hs (fun c p' =>
    let hs := { st.hs with Flags := st.hs.Flags ||| IsModRM, ModRM := c }
    .next { st with c := c, hs := hs, mod := ModRM.Mod hs.ModRM, rm := ModRM.RM hs.ModRM,
                    reg := ModRM.Reg hs.ModRM } p') p

/-- Lines 143–145: the illegal-reg mask of a group. -/
def groupRegCheck (st : St) : Pure :=
  if st.x ≠ 0 ∧ ((st.x <<< st.reg) % 256) &&& 0x80 ≠ 0 then .fail st.hs .ErrUnknownOpcode
  else .cont st

/-- Lines 147–159: legality of the FPU opcodes `0xd9`–`0xdf`. -/
def fpuCheck (mode : Mode) (st : St) : Pure :=
  if st.hs.Opcode2 = 0 ∧ st.opcode ≥ 0xd9 ∧ st.opcode ≤ 0xdf then
    let t := (st.opcode - 0xd9) % 256
    if st.mod = 3 then
      match sliceFrom mode.table (mode.dtFPUModRM + t * 8) with
      | none => .panic
      | some tbl =>
        match byteAt tbl st.reg with
        | none => .panic
        | some v =>
          let t := (v <<< st.rm) % 256
          if t &&& 0x80 ≠ 0 then .fail st.hs .ErrUnknownOpcode
          else .cont { st with tbl := tbl }
    else
      match sliceFrom mode.table mode.dtFPUReg with
      | none => .panic
      | some tbl =>
        match byteAt tbl t with
        | none => .panic
        | some v =>
          let t := (v <<< st.reg) % 256
          if t &&& 0x80 ≠ 0 then .fail st.hs .ErrUnknownOpcode
          else .cont { st with tbl := tbl }
  else .cont st

/-- Lines 175–183: the loop `for i := 0; i < len(end); i += 2` over the lock
table; the result is the value of `err` after the loop, `none` at a panic. The
first argument bounds the number of iterations; `len(end)` is enough. -/
def lockLoop (tbl : List Byte) (lenEnd op reg : Nat) :
    Nat → Nat → Option (Option DecoderError)
  | 0, _ => some (some .ErrInvalidLock)
  | fuel + 1, i =>
    if i < lenEnd then
      match byteAt tbl i with
      | none => none
      | some v =>
        if v = op then
          match byteAt tbl (i + 1) with
          | none => none
          | some w =>
            if ((w <<< reg) % 256) &&& 0x80 = 0 then some none
            else some (some .ErrInvalidLock)
        else lockLoop tbl lenEnd op reg fuel (i + 2)
    else some (some .ErrInvalidLock)

/-- Lines 165–174: the lock table `tbl`, the slice `end` and the opcode `op`
to look for, by the kind of the opcode; `none` at a slice out of range. -/
def lockTables (mode : Mode) (st : St) : Option (List Byte × List Byte × Nat) :=
  let op := st.opcode
  if st.hs.Opcode2 ≠ 0 then
    match sliceFrom mode.table mode.dtOp2LockOk with
    | none => none
    | some tbl =>
      if mode.dtOp2LockOk ≤ mode.dtOpOnlyMem then
        (sliceFrom tbl (mode.dtOpOnlyMem - mode.dtOp2LockOk)).map (fun e => (tbl, e, op))
      else none
  else
    match sliceFrom mode.table mode.dtOpLockOk with
    | none => none
    | some tbl =>
      if mode.dtOpLockOk ≤ mode.dtOp2LockOk then
        (sliceFrom tbl (mode.dtOp2LockOk - mode.dtOpLockOk)).map
          (fun e => (tbl, e, op &&& 0xFE))
      else none

/-- Lines 161–188: the LOCK prefix needs a memory operand and an opcode of the
lock table. -/
def lockCheck (mode : Mode) (st : St) : Pure :=
  if PrefixSet.Has st.pref PreLock then
    if st.mod = 3 then .fail st.hs .ErrInvalidLock
    else
      match lockTables mode st with
      | none => .panic
      | some (tbl, e, op) =>
        match lockLoop tbl e.length op st.reg e.length 0 with
        | none => .panic
        | some (some err) => .fail st.hs err
        | some none => .cont { st with tbl := tbl }
  else .cont st

/-- Lines 190–214: register ranges of the moves to and from control, debug and
segment registers. -/
def regRangeCheck (st : St) : Pure :=
  if st.hs.Opcode2 ≠ 0 then
    if st.opcode = 0x20 ∨ st.opcode = 0x22 then
      let st := { st with mod := 3 }
      if st.reg > 4 ∨ st.reg = 1 then .fail st.hs .ErrBadOperand else .cont st
    else if st.opcode = 0x21 ∨ st.opcode = 0x23 then
      let st := { st with mod := 3 }
      if st.reg = 4 ∨ st.reg = 5 then .fail st.hs .ErrBadOperand else .cont st
    else .cont st
  else
    if st.opcode = 0x8c then
      if st.reg > 5 then .fail st.hs .ErrBadOperand else .cont st
    else if st.opcode = 0x8e then
      if st.reg = 1 ∨ st.reg > 5 then .fail st.hs .ErrBadOperand else .cont st
    else .cont st

/-- Lines 225–235: the loop `for ; it < end; it += 2`; `some true` is the
`return hs, ErrBadOperand` inside the loop, `some false` the exit of the loop
(by its condition or by `break`), `none` a panic. The first argument bounds the
number of iterations; `end` is enough. -/
def onlyMemLoop (tbl : List Byte) (opcode pref reg : Nat) (endv : Int) :
    Nat → Nat → Option Bool
  | 0, _ => some false
  | fuel + 1, it =>
    if (it : Int) < endv then
      match byteAt tbl it with
      | none => none
      | some v =>
        if v = opcode then
          let it := it + 1
          match byteAt tbl (it - 1) with
          | none => none
          | some w =>
            if w &&& (pref % 256) ≠ 0 then
              match byteAt tbl it with
              | none => none
              | some u =>
                if ((u <<< reg) % 256) &&& 0x80 = 0 then some true else some false
            else onlyMemLoop tbl opcode pref reg endv fuel (it + 2)
        else onlyMemLoop tbl opcode pref reg endv fuel (it + 2)
    else some false

/-- Lines 216–249: the restriction table for `mod == 3`, else the inline cases
of the two-byte opcodes. -/
def operandCheck (mode : Mode) (st : St) : Pure :=
  if st.mod = 3 then
    let it : Nat := if st.hs.Opcode2 ≠ 0 then mode.dtOp2OnlyMem else mode.dtOpOnlyMem
    let endv : Int :=
      if st.hs.Opcode2 ≠ 0 then (mode.table.length : Int) - (mode.dtOp2OnlyMem : Int)
      else (mode.dtOp2OnlyMem : Int) - (mode.dtOpOnlyMem : Int)
    match onlyMemLoop st.tbl st.opcode st.pref st.reg endv endv.toNat it with
    | none => .panic
    | some true => .fail st.hs .ErrBadOperand
    | some false => .cont st
  else if st.hs.Opcode2 ≠ 0 then
    if st.opcode = 0x50 ∨ st.opcode = 0xd7 ∨ st.opcode = 0xf7 then
      if PrefixSet.Has st.pref PreNone ∨ PrefixSet.Has st.pref PreOpSize then
        .fail st.hs .ErrBadOperand
      else .cont st
    else if st.opcode = 0xd6 then
      if PrefixSet.Has st.pref PreRepNZ ∨ PrefixSet.Has st.pref PreRep then
        .fail st.hs .ErrBadOperand
      else .cont st
    else if st.opcode = 0xc5 then .fail st.hs .ErrBadOperand
    else .cont st
  else .cont st

/-- Lines 251–257: opcodes `0xf6` and `0xf7` with `reg ≤ 1` take an immediate. -/
def immPromote (cf : CFlags) (st : St) : St :=
  if st.reg ≤ 1 then
    if st.opcode = 0xf6 then { st with cflags := st.cflags ||| cf.cfImm8.val }
    else if st.opcode = 0xf7 then { st with cflags := st.cflags ||| cf.cfImmP66.val }
    else st
  else st

/-- Lines 259–278: the displacement size from `mod`, `rm` and the address-size
prefix. -/
def dispSizeOf (st : St) : St :=
  let st := { st with dispSize := 0 }
  if st.mod = 0 then
    if PrefixSet.Has st.pref PreAddrSize then
      if st.rm = 6 then { st with dispSize := 2 } else st
    else
      if st.rm = 5 then { st with dispSize := 4 } else st
  else if st.mod = 1 then { st with dispSize := 1 }
  else if st.mod = 2 then
    let st := { st with dispSize := 2 }
    if ¬ PrefixSet.Has st.pref PreAddrSize then { st with dispSize := (st.dispSize <<< 1) % 256 }
    else st
  else st

/-- Lines 280–292: the SIB byte. -/
def sibPhase (mode : Mode) (st : St) (p : List Byte) : Step :=
  if st.mod ≠ 3 ∧ st.rm = 4 then
    if mode.long = true ∨ ¬ PrefixSet.Has st.pref PreAddrSize then
      let hs := { st.hs with Flags := st.hs.Flags ||| IsSIB }
      nextByte hs (fun c p' =>
        let hs := { hs with SIB := c }
        let dispSize := if SIB.Base hs.SIB = 5 ∧ st.mod &&& 1 = 0 then 4 else st.dispSize
        .next { st with c := c, hs := hs, dispSize := dispSize } p') p
    else .next st p
  else .next st p

/-- Lines 294–310: the displacement. -/
def dispPhase (st : St) (p : List Byte) : Step :=
  if st.dispSize = 1 then
    let hs := { st.hs with Flags := st.hs.Flags ||| HasDisp8 }
    readLit Literal.read8 hs.Disp (fun l => { hs with Disp := l })
      (fun hs p => .next { st with hs := hs } p) p
  else if st.dispSize = 2 then
    let hs := { st.hs with Flags := st.hs.Flags ||| HasDisp16 }
    readLit Literal.read16 hs.Disp (fun l => { hs with Disp := l })
      (fun hs p => .next { st with hs := hs } p) p
  else if st.dispSize = 4 then
    let hs := { st.hs with Flags := st.hs.Flags ||| HasDisp32 }
    readLit Literal.read32 hs.Disp (fun l => { hs with Disp := l })
      (fun hs p => .next { st with hs := hs } p) p
  else .next st p

/-- Lines 143–278: the checks between the ModRM byte and the SIB byte. -/
def modrmChecks (cf : CFlags) (mode : Mode) (st : St) : Pure :=
  ((((groupRegCheck st).andThen (fpuCheck mode)).andThen (lockCheck mode)).andThen
    regRangeCheck).andThen (fun st =>
      (operandCheck mode st).andThen (fun st => .cont (dispSizeOf (immPromote cf st))))

/-- Lines 131–313: the ModRM block, or the rejection of LOCK on an opcode
without ModRM. -/
def modrmBlock (cf : CFlags) (mode : Mode) (st : St) (p : List Byte) : Step :=
  if st.cflags &&& cf.cfModRM.val ≠ 0 then
    (((readModRM st p).andThen (fun st p => (modrmChecks cf mode st).run p)).andThen
      (sibPhase mode)).andThen dispPhase
  else if PrefixSet.Has st.pref PreLock then .fail st.hs .ErrInvalidLock
  else .next st p

/-- Lines 315–358: the operand-size dependent immediate, or the 16-bit
relative operand with its own success exit. -/
def immP66Phase (cf : CFlags) (mode : Mode) (st : St) (p : List Byte) : Step :=
  if st.cflags &&& cf.cfImmP66.val ≠ 0 then
    if st.cflags &&& cf.cfRel32.val ≠ 0 then
      if PrefixSet.Has st.pref PreOpSize then
        let hs := { st.hs with Flags := st.hs.Flags ||| (IsRelative ||| HasImm16) }
        readLit Literal.read16 hs.Imm (fun l => { hs with Imm := l })
          (fun hs p => .done hs p) p
      else
        let cflags := st.cflags ||| cf.cfRel32.val
        let cflags := cflags &&& ((cf.cfImm16.val ||| cf.cfImm8.val) ^^^ 0xff)
        .next { st with cflags := cflags } p
    else
      if mode.long then
        if st.op64 then
          let hs := { st.hs with Flags := st.hs.Flags ||| HasImm64 }
          readLit Literal.read64 hs.Imm (fun l => { hs with Imm := l })
            (fun hs p => .next { st with hs := hs } p) p
        else if ¬ PrefixSet.Has st.pref PreOpSize then
          let hs := { st.hs with Flags := st.hs.Flags ||| HasImm32 }
          readLit Literal.read32 hs.Imm (fun l => { hs with Imm := l })
            (fun hs p => .next { st with hs := hs } p) p
        else .next { st with cflags := st.cflags ||| cf.cfImm16.val } p
      else
        if PrefixSet.Has st.pref PreOpSize then
          let hs := { st.hs with Flags := st.hs.Flags ||| HasImm16 }
          readLit Literal.read16 hs.Imm (fun l => { hs with Imm := l })
            (fun hs p => .next { st with hs := hs } p) p
        else
          let hs := { st.hs with Flags := st.hs.Flags ||| HasImm32 }
          readLit Literal.read32 hs.Imm (fun l => { hs with Imm := l })
            (fun hs p => .next { st with hs := hs } p) p
  else .next st p

/-- Lines 360–380: the 16-bit immediate; `dst` points at `hs.Imm` or at
`hs.Disp`, and the read that follows the choice of `dst` is written in each
branch. -/
def imm16Phase (cf : CFlags) (mode : Mode) (st : St) (p : List Byte) : Step :=
  if st.cflags &&& cf.cfImm16.val ≠ 0 then
    if mode.long then
      let hs := { st.hs with Flags := st.hs.Flags ||| HasImm16 }
      readLit Literal.read16 hs.Imm (fun l => { hs with Imm := l })
        (fun hs p => .next { st with hs := hs } p) p
    else if st.hs.Flags &&& HasImm32 ≠ 0 then
      let hs := { st.hs with Flags := st.hs.Flags ||| HasImm16 }
      readLit Literal.read16 hs.Disp (fun l => { hs with Disp := l })
        (fun hs p => .next { st with hs := hs } p) p
    else if st.hs.Flags &&& HasImm16 ≠ 0 then
      let hs := { st.hs with Flags := st.hs.Flags ||| Has2Imm16 }
      readLit Literal.read16 hs.Disp (fun l => { hs with Disp := l })
        (fun hs p => .next { st with hs := hs } p) p
    else
      let hs := { st.hs with Flags := st.hs.Flags ||| HasImm16 }
      readLit Literal.read16 hs.Imm (fun l => { hs with Imm := l })
        (fun hs p => .next { st with hs := hs } p) p
  else .next st p

/-- Lines 381–386: the 8-bit immediate. -/
def imm8Phase (cf : CFlags) (st : St) (p : List Byte) : Step :=
  if st.cflags &&& cf.cfImm8.val ≠ 0 then
    let hs := { st.hs with Flags := st.hs.Flags ||| HasImm8 }
    readLit Literal.read8 hs.Imm (fun l => { hs with Imm := l })
      (fun hs p => .next { st with hs := hs } p) p
  else .next st p

/-- Lines 388–399: the relative operand. -/
def relPhase (cf : CFlags) (st : St) (p : List Byte) : Step :=
  if st.cflags &&& cf.cfRel32.val ≠ 0 then
    let hs := { st.hs with Flags := st.hs.Flags ||| (IsRelative ||| HasImm32) }
    readLit Literal.read32 hs.Imm (fun l => { hs with Imm := l })
      (fun hs p => .next { st with hs := hs } p) p
  else if st.cflags &&& cf.cfRel8.val ≠ 0 then
    let hs := { st.hs with Flags := st.hs.Flags ||| (IsRelative ||| HasImm8) }
    readLit Literal.read8 hs.Imm (fun l => { hs with Imm := l })
      (fun hs p => .next { st with hs := hs } p) p
  else .next st p

/-- Lines 110–129 in one stretch. -/
def classifyPhase (cf : CFlags) (mode : Mode) (st : St) (p : List Byte) : Step :=
  (((classify cf st).andThen (groupPhase cf)).andThen (prefixLegality mode)).run p

/-- Lines 55–399 of `Decode`, run on the clamped input. -/
def decodeBody (cf : CFlags) (mode : Mode) (code : List Byte) : Step :=
  ((((((((prefixLoop 16 St.init code).andThen
    (fun st p => rexPhase mode (afterPrefixes st) p)).andThen
    (opcodePhase mode)).andThen
    (classifyPhase cf mode)).andThen
    (modrmBlock cf mode)).andThen
    (immP66Phase cf mode)).andThen
    (imm16Phase cf mode)).andThen
    (imm8Phase cf)).andThen
    (relPhase cf)

/-- Method `Mode.Decode`. The result is the pair `(hs, err)` of the source, with
`err = none` for `nil`; the outer `none` is a run-time panic on a table index
out of range. -/
def Mode.Decode (cf : CFlags) (mode : Mode) (code : List Byte) :
    Option (Insn × Option DecoderError) :=
  if code.length = 0 then some (Insn.zero, some .ErrLength)
  else
    let code := if code.length > MaxInsnLen then code.take MaxInsnLen else code
    match decodeBody cf mode code with
    | .next st p => some ({ st.hs with Length := (code.length - p.length) % 256 }, none)
    | .done hs p => some ({ hs with Length := (code.length - p.length) % 256 }, none)
    | .fail hs err => some (hs, some err)
    | .panic => none

/-! ## tests/hdeutil/flags.go -/

def F_MODRM : Nat := 0x00000001
def F_SIB : Nat := 0x00000002
def F_IMM8 : Nat := 0x00000004
def F_IMM16 : Nat := 0x00000008
def F_IMM32 : Nat := 0x00000010
def F_IMM64 : Nat := 0x00000020
def F_2IMM16 : Nat := 0x00000020
def F_DISP8 : Nat := 0x00000040
def F_DISP16 : Nat := 0x00000080
def F_DISP32 : Nat := 0x00000100
def F_RELATIVE : Nat := 0x00000200
def F_ERROR : Nat := 0x00001000
def F_ERROR_OPCODE : Nat := 0x00002000
def F_ERROR_LENGTH : Nat := 0x00004000
def F_ERROR_LOCK : Nat := 0x00008000
def F_ERROR_OPERAND : Nat := 0x00010000
def F_PREFIX_NONE : Nat := 0x00800000
def F_PREFIX_REPNZ : Nat := 0x01000000
def F_PREFIX_REPX : Nat := 0x02000000
def F_PREFIX_66 : Nat := 0x04000000
def F_PREFIX_67 : Nat := 0x08000000
def F_PREFIX_LOCK : Nat := 0x10000000
def F_PREFIX_SEG : Nat := 0x20000000
def F_PREFIX_REX : Nat := 0x40000000
def F_PREFIX_ANY : Nat := 0x7f000000

/-- Function `ToCgoFlags` of the test helpers: the pair `(fl, seg)`. -/
def ToCgoFlags (f : Nat) : Nat × Nat :=
  let fl : Nat := 0
  let fl := fl ||| ((f % 2 ^ 32) &&& 0x3ff)
  let s : Nat × Nat :=
    if f &&& HasSegCS ≠ 0 then (fl ||| F_PREFIX_SEG, PRE_SEG_CS)
    else if f &&& HasSegSS ≠ 0 then (fl ||| F_PREFIX_SEG, PRE_SEG_SS)
    else if f &&& HasSegDS ≠ 0 then (fl ||| F_PREFIX_SEG, PRE_SEG_DS)
    else if f &&& HasSegES ≠ 0 then (fl ||| F_PREFIX_SEG, PRE_SEG_ES)
    else if f &&& HasSegFS ≠ 0 then (fl ||| F_PREFIX_SEG, PRE_SEG_FS)
    else if f &&& HasSegGS ≠ 0 then (fl ||| F_PREFIX_SEG, PRE_SEG_GS)
    else (fl, 0)
  let fl := s.1
  let seg := s.2
  let fl := if f &&& NotPrefixed ≠ 0 then fl ||| F_PREFIX_NONE else fl
  let fl := if f &&& HasRepNZ ≠ 0 then fl ||| F_PREFIX_REPNZ else fl
  let fl := if f &&& HasRep ≠ 0 then fl ||| F_PREFIX_REPX else fl
  let fl := if f &&& HasOpSize ≠ 0 then fl ||| F_PREFIX_66 else fl
  let fl := if f &&& HasAddrSize ≠ 0 then fl ||| F_PREFIX_67 else fl
  let fl := if f &&& HasLock ≠ 0 then fl ||| F_PREFIX_LOCK else fl
  let fl := if f &&& HasREX ≠ 0 then fl ||| F_PREFIX_REX else fl
  (fl, seg)

/-! ## Definitions that the statements and proofs use -/

/-- A stretch is framed when its outcome is a function of the bytes it
consumes: a stretch that goes on or takes the success exit with cursor `r` has
consumed `c` with input `c ++ r`, and does the same on `c` followed by anything;
an error other than `ErrLength`, or a panic, stays when bytes are appended. -/
structure Framed (g : List Byte → Step) : Prop where
  next : ∀ xs st r, g xs = .next st r → ∃ c, xs = c ++ r ∧ ∀ r', g (c ++ r') = .next st r'
  done : ∀ xs hs r, g xs = .done hs r → ∃ c, xs = c ++ r ∧ ∀ r', g (c ++ r') = .done hs r'
  fail : ∀ xs hs e, g xs = .fail hs e → e ≠ .ErrLength → ∀ ext, g (xs ++ ext) = .fail hs e
  panic : ∀ xs, g xs = .panic → ∀ ext, g (xs ++ ext) = .panic


/-- What framing needs of a read method of `Literal`. -/
def IsRead (rd : Literal → List Byte → Bool × Literal × List Byte) : Prop :=
  ∀ lit xs, (rd lit xs).1 = false ∨
    ((rd lit xs).1 = true ∧ ∃ c, xs = c ++ (rd lit xs).2.2 ∧
      ∀ r', rd lit (c ++ r') = (true, (rd lit xs).2.1, r'))


/-- The instruction and the cursor of a stretch that ends `Decode` with
success, before `hs.Length` is written. -/
def Step.result? : Step → Option (Insn × List Byte)
  | .next st p => some (st.hs, p)
  | .done hs p => some (hs, p)
  | .fail _ _ => none
  | .panic => none


/-- Sample values for the `cf…` constants, one bit per shape. They instantiate
the parameter `cf` at the concrete inputs below; the theorems hold for every
choice. -/
def sampleCF : CFlags :=
  { cfError := 0xff, cfGroup := 0x80, cfModRM := 0x01, cfImm8 := 0x02, cfImm16 := 0x04,
    cfImmP66 := 0x10, cfRel8 := 0x20, cfRel32 := 0x40 }

/-- A small classification table with the layout that `Decode` expects, used
to run `Decode` at concrete inputs. It is not the table of the repository, which
is not in the sources at hand. One-byte opcodes `0x00`–`0x03` take a ModRM
byte, `0xe8`/`0xe9` a 32-bit relative operand, `0xeb` an 8-bit one, `0xea` is
unknown and every other one-byte opcode has no operand; the two-byte opcodes
`0x0f 0xb0`–`0xb3` take a ModRM byte and every other two-byte opcode is
unknown; LOCK is legal on the one-byte opcodes `0x00`/`0x01` and on `0x0f 0xb0`. -/
def sampleTable : List Byte :=
  -- offset 0: first level for one-byte opcodes; offset 64: their shapes
  ((List.replicate 64 (64 : Byte)).set 0 68).set 58 72 ++
  [0, 0, 0, 0] ++ [1, 1, 1, 1] ++ [0x40, 0x40, 0xff, 0x20] ++
  -- offset 76: first level for two-byte opcodes; offset 140: their shapes
  (List.replicate 64 (64 : Byte)).set 0x2c 68 ++
  [0xff, 0xff, 0xff, 0xff] ++ [1, 1, 1, 1] ++
  -- offset 148: prefixes that two-byte opcodes do not admit (none)
  List.replicate 64 (64 : Byte) ++ [0, 0, 0, 0] ++
  -- offset 216: FPU legality by opcode; offset 223: by opcode and reg
  List.replicate 7 0 ++ List.replicate 56 0 ++
  -- offsets 279, 281: lock tables; offsets 283, 286: restriction tables
  [0x00, 0x00] ++ [0xb0, 0x00] ++ [0xc4, 0xff, 0x00] ++ [0xc5, 0xff, 0x00]

/-- A mode over `sampleTable`, 64-bit for `true`. -/
def sampleMode (wide : Bool) : Mode :=
  { long := wide, table := sampleTable, dtOpcodes := 76, dtPrefixes := 148, dtFPUReg := 216,
    dtFPUModRM := 223, dtOpLockOk := 279, dtOp2LockOk := 281, dtOpOnlyMem := 283,
    dtOp2OnlyMem := 286 }

/-- A stretch satisfies `Q` on the locals when control goes on, `R` on the
instruction at the success exit and `E` on the instruction and the error at an
error return. -/
def Step.Sat (Q : St → Prop) (R : Insn → Prop) (E : Insn → DecoderError → Prop) : Step → Prop
  | .next st _ => Q st
  | .done hs _ => R hs
  | .fail hs err => E hs err
  | .panic => True

/-- The same for a stretch that does not touch the cursor. -/
def Pure.Sat (Q : St → Prop) (E : Insn → DecoderError → Prop) : Pure → Prop
  | .cont st => Q st
  | .fail hs err => E hs err
  | .panic => True

/-- What every stretch after the prefix loop leaves alone in the instruction:
`Length`, and the flag bits of the prefix sub-field other than `HasREX`. -/
def Grows (a b : Insn) : Prop :=
  b.Length = a.Length ∧ ∀ i, 10 ≤ i → i ≠ 16 → b.Flags.testBit i = a.Flags.testBit i

/-- What the stretches after the ModRM byte leave alone in the instruction:
everything but `SIB`, `Imm`, `Disp` and the flag bits 1 to 9. -/
def Keeps (a b : Insn) : Prop :=
  b.Length = a.Length ∧ b.Opcode = a.Opcode ∧ b.Opcode2 = a.Opcode2 ∧ b.REX = a.REX ∧
    b.ModRM = a.ModRM ∧ ∀ i, (i = 0 ∨ 10 ≤ i) → b.Flags.testBit i = a.Flags.testBit i

/-- The instruction `hs` of an input `code` past line 69: some identifiers
`ids` of prefixes went into the flags (none if the first byte of `code` is not a
prefix byte), and nothing since has touched `Length` or a prefix bit of the
flags other than `HasREX`. -/
def PastPrefixes (code : List Byte) (hs : Insn) : Prop :=
  ∃ ids : List Nat, (∀ i ∈ ids, i ≠ PreNone ∧ i ≤ 12) ∧
    (∀ b rest, code = b :: rest → PrefixToID b.val = PreNone → ids = []) ∧
    Grows { Insn.zero with Flags := Flag.AddPrefixes 0 (ids.foldl PrefixSet.Add 0) } hs

/-- Before the ModRM block: the LOCK bit of the flags (bit 15) mirrors the
local prefix set, and `IsModRM` (bit 0) is not set yet. -/
def LockPending (st : St) : Prop :=
  st.hs.Flags.testBit 15 = PrefixSet.Has st.pref PreLock ∧ st.hs.Flags.testBit 0 = false

/-- Past the LOCK check: an instruction with the LOCK bit has the ModRM bit and
a ModRM byte with `mod ≠ 3`. -/
def LockMem (hs : Insn) : Prop :=
  hs.Flags.testBit 15 = true → hs.Flags.testBit 0 = true ∧ ModRM.Mod hs.ModRM ≠ 3

/-- The errors of an instruction with the LOCK bit and without a memory form:
never `ErrBadOperand`, and `ErrLength` only while the ModRM bit is not set. -/
def LockErr (hs : Insn) (e : DecoderError) : Prop :=
  hs.Flags.testBit 15 = true → (hs.Flags.testBit 0 = false ∨ ModRM.Mod hs.ModRM = 3) →
    e ≠ .ErrBadOperand ∧ (hs.Flags.testBit 0 = true → e ≠ .ErrLength)

/-- The six segment prefix identifiers. -/
def segmentIDs : List Nat := [PreSegDS, PreSegCS, PreSegSS, PreSegES, PreSegFS, PreSegGS]

/-- The two repeat prefix identifiers. -/
def repeatIDs : List Nat := [PreRep, PreRepNZ]

/-- Mutual exclusion in a `PrefixSet`: at most one segment identifier and at
most one of `PreRep`, `PreRepNZ` is in the set, membership being `Has`. -/
def MutuallyExclusive (p : Nat) : Prop :=
  segmentIDs.countP (PrefixSet.Has p) ≤ 1 ∧ repeatIDs.countP (PrefixSet.Has p) ≤ 1

instance (p : Nat) : Decidable (MutuallyExclusive p) := by
  unfold MutuallyExclusive
  exact inferInstance

/-- The `w`-bit two's-complement reading of `v`, in the words of the
specification: `v` itself below `2 ^ (w - 1)`, else `v - 2 ^ w`. -/
def twosComplement (w v : Nat) : Int :=
  if v < 2 ^ (w - 1) then (v : Int) else (v : Int) - 2 ^ w

/-- At most one of the six segment flags is set in `f`. -/
def AtMostOneSegment (f : Nat) : Prop :=
  segmentIDs.countP (fun s => decide (f &&& flagBit s ≠ 0)) ≤ 1

instance (f : Nat) : Decidable (AtMostOneSegment f) := by
  unfold AtMostOneSegment
  exact inferInstance

/-- The eleven prefix bytes. -/
def prefixBytes : List Nat := [0x26, 0x2e, 0x36, 0x3e, 0x64, 0x65, 0x66, 0x67, 0xf0, 0xf2, 0xf3]

/-- What the five prefix accessors return for an instruction whose flags are `f`. -/
def prefixAccessors (f : Nat) : Nat × Nat × Nat × Nat × Nat :=
  let insn : Insn := { Insn.zero with Flags := f }
  (insn.SegmentPrefix, insn.RepPrefix, insn.LockPrefix, insn.OpSizePrefix, insn.AddrSizePrefix)

/-- What the accessors are to return for the prefix byte `b`: `b` from the
accessor of its class and zero from the other four. -/
def expectedAccessors (b : Nat) : Nat × Nat × Nat × Nat × Nat :=
  (if b ∈ [0x26, 0x2e, 0x36, 0x3e, 0x64, 0x65] then b else 0,
   if b ∈ [0xf2, 0xf3] then b else 0,
   if b = 0xf0 then b else 0,
   if b = 0x66 then b else 0,
   if b = 0x67 then b else 0)

/-- The leading prefix bytes of an input. -/
def leadingPrefixBytes (code : List Byte) : List Byte :=
  code.takeWhile (fun b => PrefixToID b.val != PreNone)

/-- The identifiers of the leading prefix bytes of an input, in order. -/
def leadingPrefixes (code : List Byte) : List Nat :=
  (leadingPrefixBytes code).map (fun b => PrefixToID b.val)

/-- The value of `mod` that the rules on SIB and displacement go by: `ModRM.Mod()`,
counted as 3 for the two-byte opcodes `0x20`–`0x23`. -/
def effMod (hs : Insn) : Nat :=
  if hs.Opcode = 0x0f ∧ 0x20 ≤ hs.Opcode2 ∧ hs.Opcode2 ≤ 0x23 then 3 else ModRM.Mod hs.ModRM

/-- The displacement size in the words of the specification, from `mod`, `rm`,
the address-size override `A` and whether a SIB byte with base 5 is present. -/
def dispSizeRule (mod rm : Nat) (A sib5 : Bool) : Nat :=
  if sib5 = true ∧ (mod = 0 ∨ mod = 2) then 4
  else if mod = 0 then
    if A = true ∧ rm = 6 then 2 else if A = false ∧ rm = 5 then 4 else 0
  else if mod = 1 then 1
  else if mod = 2 then (if A = true then 2 else 4)
  else 0

/-- The register ranges of the moves to and from segment, control and debug
registers, on a decoded instruction. -/
def RegRangeOk (hs : Insn) : Prop :=
  (hs.Opcode = 0x8c → ModRM.Reg hs.ModRM ≤ 5) ∧
  (hs.Opcode = 0x8e → ModRM.Reg hs.ModRM ∈ [0, 2, 3, 4, 5]) ∧
  (hs.Opcode = 0x0f → hs.Opcode2 = 0x20 ∨ hs.Opcode2 = 0x22 →
    ModRM.Reg hs.ModRM ∈ [0, 2, 3, 4]) ∧
  (hs.Opcode = 0x0f → hs.Opcode2 = 0x21 ∨ hs.Opcode2 = 0x23 →
    ModRM.Reg hs.ModRM ≠ 4 ∧ ModRM.Reg hs.ModRM ≠ 5)

instance (hs : Insn) : Decidable (RegRangeOk hs) := by
  unfold RegRangeOk
  exact inferInstance

/-- The REX byte and its flag go together, and in long mode only. -/
def RexOk (long : Bool) (hs : Insn) : Prop :=
  (hs.Flags.testBit 16 = true → long = true ∧ hs.REX &&& 0xf0 = 0x40) ∧
  (hs.Flags.testBit 16 = false → hs.REX = 0)

/-- The locals between the prefix loop and the ModRM block, for an input whose
leading prefixes fold to the set `P`: the flags hold the prefix bits of `P` and
possibly `HasREX`, nothing else of the instruction is written but `Opcode` and
`Opcode2`, and the local prefix set differs from `P` at most in the bits of
`PreNone` and `PreOpSize`. -/
structure Early (long : Bool) (P : Nat) (st : St) : Prop where
  pfx : ∀ i, 10 ≤ i → i ≠ 16 → st.hs.Flags.testBit i = (Flag.AddPrefixes 0 P).testBit i
  low : ∀ i, i < 10 → st.hs.Flags.testBit i = false
  rex : RexOk long st.hs
  len : st.hs.Length = 0
  modrm : st.hs.ModRM = 0
  sib : st.hs.SIB = 0
  imm : st.hs.Imm = Literal.zero
  disp : st.hs.Disp = Literal.zero
  pref : ∀ i, i < 16 → i ≠ 0 → i ≠ 3 → st.pref.testBit i = P.testBit i

/-- The opcode that the classification goes by: the second byte after the
escape `0x0F`, else the first. -/
def effOpcode (hs : Insn) : Nat := if hs.Opcode = 0x0f then hs.Opcode2 else hs.Opcode

/-- The locals inside the ModRM block, past the read of the ModRM byte. -/
structure Mid (long : Bool) (P : Nat) (st : St) : Prop where
  pfx : ∀ i, 10 ≤ i → i ≠ 16 → st.hs.Flags.testBit i = (Flag.AddPrefixes 0 P).testBit i
  bit0 : st.hs.Flags.testBit 0 = true
  low : ∀ i, 1 ≤ i → i < 10 → st.hs.Flags.testBit i = false
  rex : RexOk long st.hs
  len : st.hs.Length = 0
  opc : st.hs.Opcode ≠ 0x0f → st.hs.Opcode2 = 0
  modrm : st.hs.ModRM < 256
  sib : st.hs.SIB = 0
  imm : st.hs.Imm = Literal.zero
  disp : st.hs.Disp = Literal.zero
  addr : PrefixSet.Has st.pref PreAddrSize = st.hs.Flags.testBit 14
  opcode : st.opcode = effOpcode st.hs
  rm : st.rm = ModRM.RM st.hs.ModRM
  reg : st.reg = ModRM.Reg st.hs.ModRM

/-- The instruction past the ModRM block: the facts on prefixes, REX, opcode,
ModRM, SIB and displacement that the immediates leave alone. -/
structure Late (long : Bool) (P : Nat) (hs : Insn) : Prop where
  pfx : ∀ i, 10 ≤ i → i ≠ 16 → hs.Flags.testBit i = (Flag.AddPrefixes 0 P).testBit i
  rex : RexOk long hs
  len : hs.Length = 0
  opc : hs.Opcode ≠ 0x0f → hs.Opcode2 = 0
  modrm : hs.ModRM < 256
  noModRM : hs.Flags.testBit 0 = false →
    hs.Flags.testBit 1 = false ∧ hs.Flags.testBit 6 = false ∧ hs.Flags.testBit 7 = false ∧
    hs.Flags.testBit 8 = false ∧ hs.ModRM = 0 ∧ (long = true → hs.Disp = Literal.zero)
  noSib : hs.Flags.testBit 1 = false → hs.SIB = 0
  sibBit : hs.Flags.testBit 0 = true →
    hs.Flags.testBit 1 = decide (effMod hs ≠ 3 ∧ ModRM.RM hs.ModRM = 4 ∧
      (long = true ∨ hs.Flags.testBit 14 = false))
  d8 : hs.Flags.testBit 0 = true →
    hs.Flags.testBit 6 = decide (dispSizeRule (effMod hs) (ModRM.RM hs.ModRM)
      (hs.Flags.testBit 14) (hs.Flags.testBit 1 && decide (SIB.Base hs.SIB = 5)) = 1)
  d16 : hs.Flags.testBit 0 = true →
    hs.Flags.testBit 7 = decide (dispSizeRule (effMod hs) (ModRM.RM hs.ModRM)
      (hs.Flags.testBit 14) (hs.Flags.testBit 1 && decide (SIB.Base hs.SIB = 5)) = 2)
  d32 : hs.Flags.testBit 0 = true →
    hs.Flags.testBit 8 = decide (dispSizeRule (effMod hs) (ModRM.RM hs.ModRM)
      (hs.Flags.testBit 14) (hs.Flags.testBit 1 && decide (SIB.Base hs.SIB = 5)) = 4)
  dbits : hs.Flags.testBit 0 = true → long = true →
    hs.Disp.Bits = 8 * dispSizeRule (effMod hs) (ModRM.RM hs.ModRM)
      (hs.Flags.testBit 14) (hs.Flags.testBit 1 && decide (SIB.Base hs.SIB = 5))
  reg : hs.Flags.testBit 0 = true → RegRangeOk hs

/-- The errors that go with an instruction past the ModRM byte that breaks a
register range: `ErrBadOperand`, or the answer of an earlier check. -/
def RegErr (hs : Insn) (e : DecoderError) : Prop :=
  hs.Flags.testBit 0 = true → ¬ RegRangeOk hs →
    e = .ErrBadOperand ∨ e = .ErrUnknownOpcode ∨ e = .ErrInvalidLock

/-- What the immediates change in the instruction: `Imm`, the flag bits 2 to 5
and 9, and `Disp` in 32-bit mode only. -/
def ImmOnly (long : Bool) (a b : Insn) : Prop :=
  b.Length = a.Length ∧ b.Opcode = a.Opcode ∧ b.Opcode2 = a.Opcode2 ∧ b.REX = a.REX ∧
    b.ModRM = a.ModRM ∧ b.SIB = a.SIB ∧ (long = true → b.Disp = a.Disp) ∧
    ∀ i, i ≠ 2 → i ≠ 3 → i ≠ 4 → i ≠ 5 → i ≠ 9 → b.Flags.testBit i = a.Flags.testBit i

/-- The locals past the checks on the ModRM byte (line 278): `mod` is the
effective one, the displacement size follows the rule without SIB, and the
register ranges hold. -/
structure Checked (long : Bool) (P : Nat) (st : St) : Prop where
  mid : Mid long P st
  mod : st.mod = effMod st.hs
  size : st.dispSize =
    dispSizeRule (effMod st.hs) (ModRM.RM st.hs.ModRM) (st.hs.Flags.testBit 14) false
  reg : RegRangeOk st.hs

/-- The locals past the SIB byte (line 292). -/
structure Sibbed (long : Bool) (P : Nat) (st : St) : Prop where
  pfx : ∀ i, 10 ≤ i → i ≠ 16 → st.hs.Flags.testBit i = (Flag.AddPrefixes 0 P).testBit i
  bit0 : st.hs.Flags.testBit 0 = true
  low : ∀ i, 2 ≤ i → i < 10 → st.hs.Flags.testBit i = false
  rex : RexOk long st.hs
  len : st.hs.Length = 0
  opc : st.hs.Opcode ≠ 0x0f → st.hs.Opcode2 = 0
  modrm : st.hs.ModRM < 256
  disp : st.hs.Disp = Literal.zero
  sibBit : st.hs.Flags.testBit 1 = decide (effMod st.hs ≠ 3 ∧ ModRM.RM st.hs.ModRM = 4 ∧
    (long = true ∨ st.hs.Flags.testBit 14 = false))
  noSib : st.hs.Flags.testBit 1 = false → st.hs.SIB = 0
  size : st.dispSize = dispSizeRule (effMod st.hs) (ModRM.RM st.hs.ModRM)
    (st.hs.Flags.testBit 14) (st.hs.Flags.testBit 1 && decide (SIB.Base st.hs.SIB = 5))
  reg : RegRangeOk st.hs

/-- The displacement size that the rule of the specification gives for a decoded
instruction, with `A` read off `HasAddrSize` and the SIB override off `IsSIB`
and `SIB.Base()`. -/
def ruleDispSize (hs : Insn) : Nat :=
  dispSizeRule (effMod hs) (ModRM.RM hs.ModRM) (decide (hs.Flags &&& HasAddrSize ≠ 0))
    (decide (hs.Flags &&& IsSIB ≠ 0) && decide (SIB.Base hs.SIB = 5))

/-- A second small table, in which every one-byte and every two-byte opcode
takes a ModRM byte and nothing else, no prefix is refused and the lock and
restriction tables are empty. Like `sampleTable` it only serves to run `Decode`
at concrete inputs. -/
def regTable : List Byte :=
  List.replicate 64 (64 : Byte) ++ [1, 1, 1, 1] ++ List.replicate 64 (64 : Byte) ++ [0, 0, 0, 0]

/-- A mode over `regTable`, 64-bit for `true`. -/
def regMode (wide : Bool) : Mode :=
  { long := wide, table := regTable, dtOpcodes := 0, dtPrefixes := 68, dtFPUReg := 0,
    dtFPUModRM := 0, dtOpLockOk := 136, dtOp2LockOk := 136, dtOpOnlyMem := 136,
    dtOp2OnlyMem := 136 }

/-- Lines 55–129 of `Decode`: everything before the test for a ModRM byte. -/
def beforeModRM (cf : CFlags) (mode : Mode) (code : List Byte) : Step :=
  (((prefixLoop 16 St.init code).andThen
    (fun st p => rexPhase mode (afterPrefixes st) p)).andThen
    (opcodePhase mode)).andThen
    (classifyPhase cf mode)

/-- Lines 143–214: the checks on the ModRM byte that come before the
restriction checks of line 216. -/
def earlyChecks (mode : Mode) (st : St) : Pure :=
  (((groupRegCheck st).andThen (fpuCheck mode)).andThen (lockCheck mode)).andThen regRangeCheck

/-- The locals and the cursor with which an input reaches the restriction
checks of line 216; `none` if `Decode` returns or panics before, or if the
opcode takes no ModRM byte. -/
def atOperandCheck (cf : CFlags) (mode : Mode) (code : List Byte) : Option (St × List Byte) :=
  match beforeModRM cf mode code with
  | .next st p =>
    if st.cflags &&& cf.cfModRM.val ≠ 0 then
      match readModRM st p with
      | .next st1 p1 =>
        match earlyChecks mode st1 with
        | .cont st2 => some (st2, p1)
        | _ => none
      | _ => none
    else none
  | _ => none

/-- Lines 216–399 of `Decode`, from the locals `st` and the cursor `p` at line 216. -/
def fromOperandCheck (cf : CFlags) (mode : Mode) (st : St) (p : List Byte) : Step :=
  ((((((((operandCheck mode st).andThen
    (fun st => .cont (dispSizeOf (immPromote cf st)))).run p).andThen
    (sibPhase mode)).andThen dispPhase).andThen
    (immP66Phase cf mode)).andThen
    (imm16Phase cf mode)).andThen
    (imm8Phase cf)).andThen
    (relPhase cf)

/-- A third small table: `regTable` followed by a one-byte lock table with the
pair `(0x00, 0x00)`, a two-byte lock table with the pairs `(0xb0, 0x00)` and
`(0xc0, 0x00)`, a one-byte restriction table with the entry
`(0xc4, 0xff, 0xff)` and a two-byte restriction table with the entry
`(0xc5, 0xff, 0xff)`, each sub-table right after the one before. -/
def tailTable : List Byte :=
  regTable ++ [0x00, 0x00] ++ [0xb0, 0x00, 0xc0, 0x00] ++ [0xc4, 0xff, 0xff] ++
    [0xc5, 0xff, 0xff]

/-- A mode over `tailTable`, 64-bit for `true`. -/
def tailMode (wide : Bool) : Mode :=
  { long := wide, table := tailTable, dtOpcodes := 0, dtPrefixes := 68, dtFPUReg := 0,
    dtFPUModRM := 0, dtOpLockOk := 136, dtOp2LockOk := 138, dtOpOnlyMem := 142,
    dtOp2OnlyMem := 145 }

/-- A fourth small table, whose one-byte restriction table is its first three
bytes, the entry `(0xc4, 0xbf, 0xbf)`: opcode `0xc4`, and the mask `0xbf` in
both mask bytes, which has the bit for `reg = 0` set and the bit for `reg = 1`
clear. With the offsets `dtOpOnlyMem = 0` and `dtOp2OnlyMem = 3` the loop of
lines 225–235 does visit that entry. Every one-byte opcode from `0x0c` on takes
a ModRM byte. -/
def scanTable : List Byte :=
  [0xc4, 0xbf, 0xbf] ++ List.replicate 61 (64 : Byte) ++ [1, 1, 1, 1]

/-- A mode over `scanTable`, 64-bit for `true`. -/
def scanMode (wide : Bool) : Mode :=
  { long := wide, table := scanTable, dtOpcodes := 0, dtPrefixes := 0, dtFPUReg := 0,
    dtFPUModRM := 0, dtOpLockOk := 68, dtOp2LockOk := 68, dtOpOnlyMem := 0,
    dtOp2OnlyMem := 3 }

/-- A stretch run on a cursor that is what is left of the input `code`: when
control goes on or the success exit is taken, the bytes `c` consumed so far
make up `code` with the cursor, and `Q` or `R` holds of them. -/
def Step.SatC (code : List Byte) (Q : St → List Byte → Prop) (R : Insn → List Byte → Prop) :
    Step → Prop
  | .next st p => ∃ c, code = c ++ p ∧ Q st c
  | .done hs p => ∃ c, code = c ++ p ∧ R hs c
  | .fail _ _ => True
  | .panic => True

/-- No immediate has been read yet: `Imm` is absent and the flag bits 2 to 5
and 9 are clear. -/
def NoImm (hs : Insn) : Prop :=
  hs.Imm = Literal.zero ∧ ∀ i, (2 ≤ i ∧ i ≤ 5) ∨ i = 9 → hs.Flags.testBit i = false

/-- What a read method of `Literal` does in terms of the cursor: on success the
literal is the little-endian value of the first `n` bytes with `w` bits, and
the cursor loses these bytes. -/
def ReadsLE (rd : Literal → List Byte → Bool × Literal × List Byte) (n w : Nat) : Prop :=
  ∀ lit p, (rd lit p).1 = true →
    n ≤ p.length ∧ (rd lit p).2.1 = ⟨littleEndian (p.take n), w⟩ ∧ (rd lit p).2.2 = p.drop n

/-- The aliased flag bit `0x20` along the immediates, with the bytes `c`
consumed so far: in 64-bit mode the bit goes with at least nine bytes consumed;
in 32-bit mode `Imm` never has 64 bits, and the bit goes with `HasImm16` and a
16-bit `Disp` read off two consecutive bytes of `c`. -/
structure ImmSoFar (long : Bool) (hs : Insn) (c : List Byte) : Prop where
  one : 1 ≤ c.length
  wide : long = true → hs.Flags.testBit 5 = true → 9 ≤ c.length
  bits : long = false → hs.Imm.Bits ≠ 64
  two : long = false → hs.Flags.testBit 5 = true →
    hs.Flags.testBit 3 = true ∧ hs.Disp.Bits = 16 ∧
      ∃ pre bs post, c = pre ++ bs ++ post ∧ bs.length = 2 ∧ hs.Disp.Value = littleEndian bs

/-- A relative operand is the last thing read: with `IsRelative` set, `Imm` is
the little-endian value of the last 1, 2 or 4 bytes of the bytes `c` consumed,
with 8 bits each and the flag of that width. -/
def RelLast (hs : Insn) (c : List Byte) : Prop :=
  hs.Flags.testBit 9 = true →
    ∃ pre bs, c = pre ++ bs ∧ hs.Imm.Value = littleEndian bs ∧ hs.Imm.Bits = 8 * bs.length ∧
      ((bs.length = 1 ∧ hs.Flags.testBit 2 = true) ∨
       (bs.length = 2 ∧ hs.Flags.testBit 3 = true) ∨
       (bs.length = 4 ∧ hs.Flags.testBit 4 = true))

/-- A further small table, for the immediates: a one-byte opcode takes, by its two
low bits, an operand-size dependent immediate followed by a 16-bit one (`0`), an
operand-size dependent immediate (`1`), an operand-size dependent relative
operand (`2`) or an 8-bit relative operand (`3`). Like `sampleTable` it only
serves to run `Decode` at concrete inputs. -/
def immTable : List Byte :=
  List.replicate 64 (64 : Byte) ++ [0x14, 0x10, 0x50, 0x20]

/-- A mode over `immTable`, 64-bit for `true`. -/
def immMode (wide : Bool) : Mode :=
  { long := wide, table := immTable, dtOpcodes := 0, dtPrefixes := 0, dtFPUReg := 0,
    dtFPUModRM := 0, dtOpLockOk := 68, dtOp2LockOk := 68, dtOpOnlyMem := 68,
    dtOp2OnlyMem := 68 }

/-- Lines 55–160 of `Decode`: the locals and the cursor at the LOCK check of
line 161, for an input whose opcode takes a ModRM byte, whose ModRM byte is
there, and that passes the opcode classification, the group check and the FPU
check; `none` for every other input. -/
def atLockCheck (cf : CFlags) (mode : Mode) (code : List Byte) : Option (St × List Byte) :=
  match beforeModRM cf mode code with
  | .next st p =>
    if st.cflags &&& cf.cfModRM.val ≠ 0 then
      match readModRM st p with
      | .next st1 p1 =>
        match (groupRegCheck st1).andThen (fpuCheck mode) with
        | .cont st2 => some (st2, p1)
        | _ => none
      | _ => none
    else none
  | _ => none

/-- Lines 55–189 of `Decode`: the locals and the cursor at the register-range
checks of line 190, for an input that passes every check before them (the
opcode classification, the group check, the FPU check and the LOCK check);
`none` for every other input. -/
def atRegRangeCheck (cf : CFlags) (mode : Mode) (code : List Byte) :
    Option (St × List Byte) :=
  match beforeModRM cf mode code with
  | .next st p =>
    if st.cflags &&& cf.cfModRM.val ≠ 0 then
      match readModRM st p with
      | .next st1 p1 =>
        match ((groupRegCheck st1).andThen (fpuCheck mode)).andThen (lockCheck mode) with
        | .cont st2 => some (st2, p1)
        | _ => none
      | _ => none
    else none
  | _ => none

/-- A small table with the restriction tables where `Decode` expects them, at
the end: `regTable` followed by the one-byte restriction entry
`(0xc4, 0xff, 0xbf)` and the two-byte restriction entry `(0xc5, 0xff, 0xbf)`;
the mask `0xbf` has the bit for `reg = 0` set and the bit for `reg = 1` clear.
The lock tables are empty. -/
def maskTable : List Byte :=
  regTable ++ [0xc4, 0xff, 0xbf] ++ [0xc5, 0xff, 0xbf]

/-- A mode over `maskTable`, 64-bit for `true`. -/
def maskMode (wide : Bool) : Mode :=
  { long := wide, table := maskTable, dtOpcodes := 0, dtPrefixes := 68, dtFPUReg := 0,
    dtFPUModRM := 0, dtOpLockOk := 136, dtOp2LockOk := 136, dtOpOnlyMem := 136,
    dtOp2OnlyMem := 139 }

set_option maxRecDepth 100000

/-! ## Framing: the outcome of `Decode` is a function of the bytes it consumes -/

theorem framed_next (st : St) : Framed (fun p => Step.next st p) :=
  ⟨fun xs st' r h => (by cases h; exact ⟨[], rfl, fun _ => rfl⟩),
   fun _ _ _ h => (by cases h), fun _ _ _ h => (by cases h), fun _ h => (by cases h)⟩

theorem framed_done (hs : Insn) : Framed (fun p => Step.done hs p) :=
  ⟨fun _ _ _ h => (by cases h), fun xs hs' r h => (by cases h; exact ⟨[], rfl, fun _ => rfl⟩),
   fun _ _ _ h => (by cases h), fun _ h => (by cases h)⟩

theorem framed_fail (hs : Insn) (e : DecoderError) : Framed (fun _ => Step.fail hs e) :=
  ⟨fun _ _ _ h => (by cases h), fun _ _ _ h => (by cases h),
   fun _ _ _ h _ _ => h, fun _ h => (by cases h)⟩

theorem framed_run (r : Pure) : Framed (fun p => r.run p) := by
  cases r with
  | cont st => exact framed_next st
  | fail hs e => exact framed_fail hs e
  | panic => exact ⟨fun _ _ _ h => (by cases h), fun _ _ _ h => (by cases h),
      fun _ _ _ h => (by cases h), fun _ _ _ => rfl⟩

theorem framed_ite (c : Prop) [Decidable c] {f g : List Byte → Step}
    (hf : Framed f) (hg : Framed g) : Framed (fun p => if c then f p else g p) := by
  by_cases h : c
  · simpa [h] using hf
  · simpa [h] using hg

theorem framed_nextByte (hs : Insn) {k : Nat → List Byte → Step}
    (hk : ∀ c, Framed (k c)) : Framed (fun p => nextByte hs k p) := by
  constructor
  · intro xs st r h
    cases xs with
    | nil => cases h
    | cons b rest =>
      obtain ⟨c, hc, hr⟩ := (hk b.val).next rest st r h
      exact ⟨b :: c, by rw [hc]; rfl, fun r' => hr r'⟩
  · intro xs hs' r h
    cases xs with
    | nil => cases h
    | cons b rest =>
      obtain ⟨c, hc, hr⟩ := (hk b.val).done rest hs' r h
      exact ⟨b :: c, by rw [hc]; rfl, fun r' => hr r'⟩
  · intro xs hs' e h he ext
    cases xs with
    | nil => cases h; exact absurd rfl he
    | cons b rest => exact (hk b.val).fail rest hs' e h he ext
  · intro xs h ext
    cases xs with
    | nil => cases h
    | cons b rest => exact (hk b.val).panic rest h ext

theorem isRead_read8 : IsRead Literal.read8 := by
  intro lit xs
  cases xs with
  | nil => left; rfl
  | cons b rest => right; exact ⟨rfl, [b], rfl, fun r' => rfl⟩

theorem isRead_read16 : IsRead Literal.read16 := by
  intro lit xs
  rcases xs with _ | ⟨a, _ | ⟨b, rest⟩⟩
  · left; rfl
  · left; rfl
  · right; exact ⟨rfl, [a, b], rfl, fun r' => rfl⟩

theorem isRead_read32 : IsRead Literal.read32 := by
  intro lit xs
  rcases xs with _ | ⟨a, _ | ⟨b, _ | ⟨c, _ | ⟨d, rest⟩⟩⟩⟩
  · left; rfl
  · left; rfl
  · left; rfl
  · left; rfl
  · right; exact ⟨rfl, [a, b, c, d], rfl, fun r' => rfl⟩

theorem isRead_read64 : IsRead Literal.read64 := by
  intro lit xs
  rcases xs with _ | ⟨a, _ | ⟨b, _ | ⟨c, _ | ⟨d, _ | ⟨e, _ | ⟨f, _ | ⟨g, _ | ⟨h, rest⟩⟩⟩⟩⟩⟩⟩⟩
  · left; rfl
  · left; rfl
  · left; rfl
  · left; rfl
  · left; rfl
  · left; rfl
  · left; rfl
  · left; rfl
  · right; exact ⟨rfl, [a, b, c, d, e, f, g, h], rfl, fun r' => rfl⟩

theorem framed_readLit {rd : Literal → List Byte → Bool × Literal × List Byte}
    (hrd : IsRead rd) (lit : Literal) (put : Literal → Insn) {k : Insn → List Byte → Step}
    (hk : ∀ hs, Framed (k hs)) : Framed (fun p => readLit rd lit put k p) := by
  constructor
  · intro xs st r h
    rcases hrd lit xs with hf | ⟨ht, c, hc, hr⟩
    · simp [readLit, hf] at h
    · simp only [readLit, ht, Bool.true_eq_false, if_false] at h
      obtain ⟨c', hc', hr'⟩ := (hk _).next _ st r h
      refine ⟨c ++ c', by rw [List.append_assoc, ← hc', ← hc], fun r' => ?_⟩
      simp only [readLit, List.append_assoc, hr, Bool.true_eq_false, if_false]
      exact hr' r'
  · intro xs hs r h
    rcases hrd lit xs with hf | ⟨ht, c, hc, hr⟩
    · simp [readLit, hf] at h
    · simp only [readLit, ht, Bool.true_eq_false, if_false] at h
      obtain ⟨c', hc', hr'⟩ := (hk _).done _ hs r h
      refine ⟨c ++ c', by rw [List.append_assoc, ← hc', ← hc], fun r' => ?_⟩
      simp only [readLit, List.append_assoc, hr, Bool.true_eq_false, if_false]
      exact hr' r'
  · intro xs hs e h he ext
    rcases hrd lit xs with hf | ⟨ht, c, hc, hr⟩
    · simp only [readLit, hf, if_true] at h
      cases h; exact absurd rfl he
    · simp only [readLit, ht, Bool.true_eq_false, if_false] at h
      have h2 := (hk _).fail _ hs e h he ext
      have e1 : xs ++ ext = c ++ ((rd lit xs).2.2 ++ ext) := by
        rw [← List.append_assoc, ← hc]
      rw [e1]
      simp only [readLit, hr, Bool.true_eq_false, if_false]
      exact h2
  · intro xs h ext
    rcases hrd lit xs with hf | ⟨ht, c, hc, hr⟩
    · simp [readLit, hf] at h
    · simp only [readLit, ht, Bool.true_eq_false, if_false] at h
      have h2 := (hk _).panic _ h ext
      have e1 : xs ++ ext = c ++ ((rd lit xs).2.2 ++ ext) := by
        rw [← List.append_assoc, ← hc]
      rw [e1]
      simp only [readLit, hr, Bool.true_eq_false, if_false]
      exact h2

theorem framed_andThen {f : List Byte → Step} {g : St → List Byte → Step}
    (hf : Framed f) (hg : ∀ st, Framed (g st)) : Framed (fun p => (f p).andThen g) := by
  constructor
  · intro xs st r h
    cases hfx : f xs with
    | next st1 r1 =>
      simp only [hfx, Step.andThen] at h
      obtain ⟨c, hc, hr⟩ := hf.next xs st1 r1 hfx
      obtain ⟨c', hc', hr'⟩ := (hg st1).next r1 st r h
      refine ⟨c ++ c', by rw [List.append_assoc, ← hc', ← hc], fun r' => ?_⟩
      simp only [List.append_assoc, hr, Step.andThen]
      exact hr' r'
    | done hs r1 => simp [hfx, Step.andThen] at h
    | fail hs e => simp [hfx, Step.andThen] at h
    | panic => simp [hfx, Step.andThen] at h
  · intro xs hs r h
    cases hfx : f xs with
    | next st1 r1 =>
      simp only [hfx, Step.andThen] at h
      obtain ⟨c, hc, hr⟩ := hf.next xs st1 r1 hfx
      obtain ⟨c', hc', hr'⟩ := (hg st1).done r1 hs r h
      refine ⟨c ++ c', by rw [List.append_assoc, ← hc', ← hc], fun r' => ?_⟩
      simp only [List.append_assoc, hr, Step.andThen]
      exact hr' r'
    | done hs1 r1 =>
      simp only [hfx, Step.andThen, Step.done.injEq] at h
      obtain ⟨rfl, rfl⟩ := h
      obtain ⟨c, hc, hr⟩ := hf.done xs hs1 r1 hfx
      exact ⟨c, hc, fun r' => by simp only [hr, Step.andThen]⟩
    | fail hs e => simp [hfx, Step.andThen] at h
    | panic => simp [hfx, Step.andThen] at h
  · intro xs hs e h he ext
    cases hfx : f xs with
    | next st1 r1 =>
      simp only [hfx, Step.andThen] at h
      obtain ⟨c, hc, hr⟩ := hf.next xs st1 r1 hfx
      have h2 := (hg st1).fail r1 hs e h he ext
      have e1 : xs ++ ext = c ++ (r1 ++ ext) := by rw [← List.append_assoc, ← hc]
      simp only [e1, hr, Step.andThen]
      exact h2
    | done hs1 r1 => simp [hfx, Step.andThen] at h
    | fail hs1 e1 =>
      simp only [hfx, Step.andThen, Step.fail.injEq] at h
      obtain ⟨rfl, rfl⟩ := h
      simp only [hf.fail xs hs1 e1 hfx he ext, Step.andThen]
    | panic => simp [hfx, Step.andThen] at h
  · intro xs h ext
    cases hfx : f xs with
    | next st1 r1 =>
      simp only [hfx, Step.andThen] at h
      obtain ⟨c, hc, hr⟩ := hf.next xs st1 r1 hfx
      have h2 := (hg st1).panic r1 h ext
      have e1 : xs ++ ext = c ++ (r1 ++ ext) := by rw [← List.append_assoc, ← hc]
      simp only [e1, hr, Step.andThen]
      exact h2
    | done hs1 r1 => simp [hfx, Step.andThen] at h
    | fail hs1 e1 => simp [hfx, Step.andThen] at h
    | panic => simp only [hf.panic xs hfx ext, Step.andThen]


theorem framed_prefixLoop (x : Nat) : ∀ st, Framed (fun p => prefixLoop x st p) := by
  induction x with
  | zero => intro st; exact framed_next st
  | succ x ih =>
    intro st
    simp only [prefixLoop]
    exact framed_nextByte _ (fun c => framed_ite _ (framed_next _) (ih _))

theorem framed_rexPhase (mode : Mode) (st : St) : Framed (fun p => rexPhase mode st p) := by
  by_cases h1 : mode.long = true
  · by_cases h2 : st.c &&& 0xf0 = 0x40
    · constructor
      · intro xs st' r h
        cases xs with
        | nil => simp [rexPhase, h1, h2] at h
        | cons b rest =>
          by_cases h3 : b.val &&& 0xf0 = 0x40
          · simp [rexPhase, h1, h2, h3] at h
          · simp only [rexPhase, h1, h2, h3, if_true, if_false, Step.next.injEq] at h
            obtain ⟨rfl, rfl⟩ := h
            exact ⟨[b], rfl, fun r' => by simp [rexPhase, h1, h2, h3]⟩
      · intro xs hs r h
        cases xs with
        | nil => simp [rexPhase, h1, h2] at h
        | cons b rest =>
          by_cases h3 : b.val &&& 0xf0 = 0x40 <;> simp [rexPhase, h1, h2, h3] at h
      · intro xs hs e h he ext
        cases xs with
        | nil =>
          simp only [rexPhase, h1, h2, if_true, Step.fail.injEq] at h
          exact absurd h.2.symm he
        | cons b rest =>
          by_cases h3 : b.val &&& 0xf0 = 0x40
          · simp only [rexPhase, h1, h2, h3, if_true, Step.fail.injEq] at h
            obtain ⟨rfl, rfl⟩ := h
            simp [rexPhase, h1, h2, h3]
          · simp [rexPhase, h1, h2, h3] at h
      · intro xs h ext
        cases xs with
        | nil => simp [rexPhase, h1, h2] at h
        | cons b rest =>
          by_cases h3 : b.val &&& 0xf0 = 0x40 <;> simp [rexPhase, h1, h2, h3] at h
    · simpa [rexPhase, h1, h2] using framed_next st
  · simpa [rexPhase, h1] using framed_next st

theorem framed_opcodePhase (mode : Mode) (st : St) :
    Framed (fun p => opcodePhase mode st p) := by
  simp only [opcodePhase]
  exact framed_ite _ (framed_nextByte _ (fun c => framed_run _))
    (framed_ite _ (framed_next _) (framed_next _))

theorem framed_classifyPhase (cf : CFlags) (mode : Mode) (st : St) :
    Framed (fun p => classifyPhase cf mode st p) := by
  simp only [classifyPhase]
  exact framed_run _

theorem framed_sibPhase (mode : Mode) (st : St) : Framed (fun p => sibPhase mode st p) := by
  simp only [sibPhase]
  exact framed_ite _ (framed_ite _ (framed_nextByte _ (fun c => framed_next _)) (framed_next _))
    (framed_next _)

theorem framed_dispPhase (st : St) : Framed (fun p => dispPhase st p) := by
  simp only [dispPhase]
  exact framed_ite _ (framed_readLit isRead_read8 _ _ (fun _ => framed_next _))
    (framed_ite _ (framed_readLit isRead_read16 _ _ (fun _ => framed_next _))
      (framed_ite _ (framed_readLit isRead_read32 _ _ (fun _ => framed_next _))
        (framed_next _)))

theorem framed_modrmBlock (cf : CFlags) (mode : Mode) (st : St) :
    Framed (fun p => modrmBlock cf mode st p) := by
  simp only [modrmBlock, readModRM]
  refine framed_ite _ ?_ (framed_ite _ (framed_fail _ _) (framed_next _))
  exact framed_andThen (framed_andThen (framed_andThen
    (framed_nextByte _ (fun c => framed_next _)) (fun st => framed_run _))
    (framed_sibPhase mode)) framed_dispPhase

theorem framed_immP66Phase (cf : CFlags) (mode : Mode) (st : St) :
    Framed (fun p => immP66Phase cf mode st p) := by
  simp only [immP66Phase]
  refine framed_ite _ (framed_ite _ (framed_ite _ ?_ (framed_next _)) (framed_ite _
    (framed_ite _ ?_ (framed_ite _ ?_ (framed_next _))) (framed_ite _ ?_ ?_))) (framed_next _)
  · exact framed_readLit isRead_read16 _ _ (fun _ => framed_done _)
  · exact framed_readLit isRead_read64 _ _ (fun _ => framed_next _)
  · exact framed_readLit isRead_read32 _ _ (fun _ => framed_next _)
  · exact framed_readLit isRead_read16 _ _ (fun _ => framed_next _)
  · exact framed_readLit isRead_read32 _ _ (fun _ => framed_next _)

theorem framed_imm16Phase (cf : CFlags) (mode : Mode) (st : St) :
    Framed (fun p => imm16Phase cf mode st p) := by
  simp only [imm16Phase]
  exact framed_ite _ (framed_ite _ (framed_readLit isRead_read16 _ _ (fun _ => framed_next _))
    (framed_ite _ (framed_readLit isRead_read16 _ _ (fun _ => framed_next _))
      (framed_ite _ (framed_readLit isRead_read16 _ _ (fun _ => framed_next _))
        (framed_readLit isRead_read16 _ _ (fun _ => framed_next _))))) (framed_next _)

theorem framed_imm8Phase (cf : CFlags) (st : St) : Framed (fun p => imm8Phase cf st p) := by
  simp only [imm8Phase]
  exact framed_ite _ (framed_readLit isRead_read8 _ _ (fun _ => framed_next _)) (framed_next _)

theorem framed_relPhase (cf : CFlags) (st : St) : Framed (fun p => relPhase cf st p) := by
  simp only [relPhase]
  exact framed_ite _ (framed_readLit isRead_read32 _ _ (fun _ => framed_next _))
    (framed_ite _ (framed_readLit isRead_read8 _ _ (fun _ => framed_next _)) (framed_next _))

theorem framed_decodeBody (cf : CFlags) (mode : Mode) :
    Framed (fun p => decodeBody cf mode p) := by
  simp only [decodeBody]
  exact framed_andThen (framed_andThen (framed_andThen (framed_andThen (framed_andThen
    (framed_andThen (framed_andThen (framed_andThen (framed_prefixLoop 16 St.init)
      (fun st => framed_rexPhase mode _)) (framed_opcodePhase mode))
      (framed_classifyPhase cf mode)) (framed_modrmBlock cf mode))
      (framed_immP66Phase cf mode)) (framed_imm16Phase cf mode)) (framed_imm8Phase cf))
      (framed_relPhase cf)


theorem framed_result {g : List Byte → Step} (hg : Framed g) (xs : List Byte) (hs0 : Insn)
    (r : List Byte) (h : (g xs).result? = some (hs0, r)) :
    ∃ c, xs = c ++ r ∧ ∀ r', (g (c ++ r')).result? = some (hs0, r') := by
  cases hgx : g xs with
  | next st r1 =>
    simp only [hgx, Step.result?, Option.some.injEq, Prod.mk.injEq] at h
    obtain ⟨rfl, rfl⟩ := h
    obtain ⟨c, hc, hr⟩ := hg.next xs st r1 hgx
    exact ⟨c, hc, fun r' => by simp only [hr, Step.result?]⟩
  | done hs r1 =>
    simp only [hgx, Step.result?, Option.some.injEq, Prod.mk.injEq] at h
    obtain ⟨rfl, rfl⟩ := h
    obtain ⟨c, hc, hr⟩ := hg.done xs hs r1 hgx
    exact ⟨c, hc, fun r' => by simp only [hr, Step.result?]⟩
  | fail hs e => simp [hgx, Step.result?] at h
  | panic => simp [hgx, Step.result?] at h

theorem clamp_eq (code : List Byte) :
    (if code.length > MaxInsnLen then code.take MaxInsnLen else code) = code.take 15 := by
  unfold MaxInsnLen
  split_ifs with h
  · rfl
  · exact (List.take_of_length_le (by omega)).symm

theorem decode_eq (cf : CFlags) (mode : Mode) (code : List Byte) (hne : code ≠ []) :
    Mode.Decode cf mode code =
      match decodeBody cf mode (code.take 15) with
      | .next st p => some ({ st.hs with Length := ((code.take 15).length - p.length) % 256 }, none)
      | .done hs p => some ({ hs with Length := ((code.take 15).length - p.length) % 256 }, none)
      | .fail hs err => some (hs, some err)
      | .panic => none := by
  have h0 : code.length ≠ 0 := by
    intro h; exact hne (List.length_eq_zero.mp h)
  unfold Mode.Decode
  simp only [h0, if_false, clamp_eq]

theorem decodeBody_nil (cf : CFlags) (mode : Mode) :
    decodeBody cf mode [] = .fail Insn.zero .ErrLength := rfl

theorem decode_ok_inv (cf : CFlags) (mode : Mode) (code : List Byte) (hs : Insn)
    (h : Mode.Decode cf mode code = some (hs, none)) :
    ∃ c p hs0, code.take 15 = c ++ p ∧ c ≠ [] ∧ hs = { hs0 with Length := c.length } ∧
      ∀ r', (decodeBody cf mode (c ++ r')).result? = some (hs0, r') := by
  have hne : code ≠ [] := by
    rintro rfl
    simp [Mode.Decode] at h
  rw [decode_eq cf mode code hne] at h
  have key : ∃ hs0 p, (decodeBody cf mode (code.take 15)).result? = some (hs0, p) ∧
      hs = { hs0 with Length := ((code.take 15).length - p.length) % 256 } := by
    cases hb : decodeBody cf mode (code.take 15) with
    | next st p =>
      simp only [hb, Option.some.injEq, Prod.mk.injEq, and_true] at h
      exact ⟨st.hs, p, rfl, h.symm⟩
    | done hs1 p =>
      simp only [hb, Option.some.injEq, Prod.mk.injEq, and_true] at h
      exact ⟨hs1, p, rfl, h.symm⟩
    | fail hs1 e => simp [hb] at h
    | panic => simp [hb] at h
  obtain ⟨hs0, p, hres, hhs⟩ := key
  obtain ⟨c, hc, hr⟩ := framed_result (framed_decodeBody cf mode) _ hs0 p hres
  have hcne : c ≠ [] := by
    rintro rfl
    have := hr []
    simp [decodeBody_nil, Step.result?] at this
  have hlen : (code.take 15).length ≤ 15 := by
    simp only [List.length_take]; omega
  have hcl : c.length ≤ 15 := by
    have := congrArg List.length hc
    simp only [List.length_append] at this
    omega
  refine ⟨c, p, hs0, hc, hcne, ?_, hr⟩
  rw [hhs, hc, List.length_append, Nat.add_sub_cancel, Nat.mod_eq_of_lt (by omega)]

theorem decode_of_result (cf : CFlags) (mode : Mode) (c r' : List Byte) (hs0 : Insn)
    (hc : c ≠ []) (hlen : (c ++ r').length ≤ 15)
    (h : (decodeBody cf mode (c ++ r')).result? = some (hs0, r')) :
    Mode.Decode cf mode (c ++ r') = some ({ hs0 with Length := c.length }, none) := by
  have hne : c ++ r' ≠ [] := by simp [hc]
  rw [decode_eq cf mode _ hne, List.take_of_length_le hlen]
  have hl : ((c ++ r').length - r'.length) % 256 = c.length := by
    rw [List.length_append, Nat.add_sub_cancel]
    rw [List.length_append] at hlen
    exact Nat.mod_eq_of_lt (by omega)
  cases hb : decodeBody cf mode (c ++ r') with
  | next st p =>
    simp only [hb, Step.result?, Option.some.injEq, Prod.mk.injEq] at h
    obtain ⟨rfl, rfl⟩ := h
    simp only [hl]
  | done hs1 p =>
    simp only [hb, Step.result?, Option.some.injEq, Prod.mk.injEq] at h
    obtain ⟨rfl, rfl⟩ := h
    simp only [hl]
  | fail hs1 e => simp [hb, Step.result?] at h
  | panic => simp [hb, Step.result?] at h

theorem decode_take15 (cf : CFlags) (mode : Mode) (code : List Byte) :
    Mode.Decode cf mode code = Mode.Decode cf mode (code.take 15) := by
  by_cases hne : code = []
  · subst hne; rfl
  · have hne' : code.take 15 ≠ [] := by
      cases code with
      | nil => exact absurd rfl hne
      | cons b rest => simp
    rw [decode_eq cf mode code hne, decode_eq cf mode _ hne', List.take_take]
    simp

/-! ## Reasoning along the stretches of `Decode` -/

theorem Step.Sat.mono {Q Q' : St → Prop} {R R' : Insn → Prop}
    {E E' : Insn → DecoderError → Prop} {s : Step} (h : Step.Sat Q R E s)
    (hQ : ∀ st, Q st → Q' st) (hR : ∀ hs, R hs → R' hs) (hE : ∀ hs e, E hs e → E' hs e) :
    Step.Sat Q' R' E' s := by
  cases s with
  | next st p => exact hQ _ h
  | done hs p => exact hR _ h
  | fail hs e => exact hE _ _ h
  | panic => trivial

theorem Pure.Sat.weaken {Q Q' : St → Prop} {E E' : Insn → DecoderError → Prop} {r : Pure}
    (h : Pure.Sat Q E r) (hQ : ∀ st, Q st → Q' st) (hE : ∀ hs e, E hs e → E' hs e) :
    Pure.Sat Q' E' r := by
  cases r with
  | cont st => exact hQ _ h
  | fail hs e => exact hE _ _ h
  | panic => trivial

theorem sat_andThen {Q Q' : St → Prop} {R : Insn → Prop} {E : Insn → DecoderError → Prop}
    {s : Step} {f : St → List Byte → Step} (h : Step.Sat Q R E s)
    (hf : ∀ st p, Q st → Step.Sat Q' R E (f st p)) : Step.Sat Q' R E (s.andThen f) := by
  cases s with
  | next st p => exact hf st p h
  | done hs p => exact h
  | fail hs e => exact h
  | panic => trivial

theorem pure_sat_andThen {Q Q' : St → Prop} {E : Insn → DecoderError → Prop}
    {r : Pure} {f : St → Pure} (h : Pure.Sat Q E r)
    (hf : ∀ st, Q st → Pure.Sat Q' E (f st)) : Pure.Sat Q' E (r.andThen f) := by
  cases r with
  | cont st => exact hf st h
  | fail hs e => exact h
  | panic => trivial

theorem sat_run {Q : St → Prop} {R : Insn → Prop} {E : Insn → DecoderError → Prop}
    {r : Pure} (h : Pure.Sat Q E r) (p : List Byte) : Step.Sat Q R E (r.run p) := by
  cases r with
  | cont st => exact h
  | fail hs e => exact h
  | panic => trivial

theorem sat_nextByte {Q : St → Prop} {R : Insn → Prop} {E : Insn → DecoderError → Prop}
    {hs : Insn} {k : Nat → List Byte → Step} (p : List Byte)
    (he : E hs .ErrLength) (hk : ∀ c p', c < 256 → Step.Sat Q R E (k c p')) :
    Step.Sat Q R E (nextByte hs k p) := by
  cases p with
  | nil => exact he
  | cons b rest => exact hk b.val rest b.isLt

theorem sat_readLit {Q : St → Prop} {R : Insn → Prop} {E : Insn → DecoderError → Prop}
    {rd : Literal → List Byte → Bool × Literal × List Byte} {lit : Literal}
    {put : Literal → Insn} {k : Insn → List Byte → Step} (p : List Byte)
    (he : ∀ l, E (put l) .ErrLength) (hk : ∀ l p', Step.Sat Q R E (k (put l) p')) :
    Step.Sat Q R E (readLit rd lit put k p) := by
  unfold readLit
  by_cases h : (rd lit p).1 = false
  · simp only [h, if_true]; exact he _
  · simp only [h, if_false]; exact hk _ _

theorem grows_refl (a : Insn) : Grows a a := ⟨rfl, fun _ _ _ => rfl⟩

theorem grows_trans {a b c : Insn} (h1 : Grows a b) (h2 : Grows b c) : Grows a c :=
  ⟨h2.1.trans h1.1, fun i hi h16 => (h2.2 i hi h16).trans (h1.2 i hi h16)⟩

theorem keeps_refl (a : Insn) : Keeps a a := ⟨rfl, rfl, rfl, rfl, rfl, fun _ _ => rfl⟩

theorem keeps_trans {a b c : Insn} (h1 : Keeps a b) (h2 : Keeps b c) : Keeps a c :=
  ⟨h2.1.trans h1.1, h2.2.1.trans h1.2.1, h2.2.2.1.trans h1.2.2.1,
    h2.2.2.2.1.trans h1.2.2.2.1, h2.2.2.2.2.1.trans h1.2.2.2.2.1,
    fun i hi => (h2.2.2.2.2.2 i hi).trans (h1.2.2.2.2.2 i hi)⟩

theorem keeps_grows {a b : Insn} (h : Keeps a b) : Grows a b :=
  ⟨h.1, fun i hi _ => h.2.2.2.2.2 i (Or.inr hi)⟩

/-- A flag mask below `2 ^ 10` without bit 0 leaves bit 0 and the bits from 10 on. -/
theorem testBit_or_low {f m i : Nat} (hm : m < 2 ^ 10) (hm0 : m.testBit 0 = false)
    (hi : i = 0 ∨ 10 ≤ i) : (f ||| m).testBit i = f.testBit i := by
  rw [Nat.testBit_or]
  rcases hi with rfl | hi
  · rw [hm0, Bool.or_false]
  · have : m.testBit i = false :=
      Nat.testBit_lt_two_pow (Nat.lt_of_lt_of_le hm (Nat.pow_le_pow_right (by decide) hi))
    rw [this, Bool.or_false]

theorem keeps_flags {a : Insn} {m : Nat} (hm : m < 2 ^ 10) (hm0 : m.testBit 0 = false) :
    Keeps a { a with Flags := a.Flags ||| m } :=
  ⟨rfl, rfl, rfl, rfl, rfl, fun _ hi => testBit_or_low hm hm0 hi⟩

theorem and_two_pow_ne_zero_iff (f k : Nat) : f &&& 2 ^ k ≠ 0 ↔ f.testBit k = true := by
  constructor
  · intro h
    by_contra hb
    apply h
    apply Nat.eq_of_testBit_eq
    intro i
    rw [Nat.testBit_and, Nat.testBit_two_pow, Nat.zero_testBit]
    by_cases hki : k = i
    · subst hki; simp [hb]
    · simp [hki]
  · intro h h0
    have := congrArg (fun n => n.testBit k) h0
    simp [Nat.testBit_and, Nat.testBit_two_pow, h] at this

/-! ### What each stretch does to the instruction -/

theorem keeps_sibPhase (mode : Mode) (st : St) (p : List Byte) :
    Step.Sat (fun st' => Keeps st.hs st'.hs) (Keeps st.hs) (fun hs _ => Keeps st.hs hs)
      (sibPhase mode st p) := by
  unfold sibPhase
  split_ifs
  · apply sat_nextByte
    · exact keeps_flags (by decide) (by decide)
    · intro c p' _
      exact ⟨rfl, rfl, rfl, rfl, rfl, fun _ hi => testBit_or_low (by decide) (by decide) hi⟩
  · exact keeps_refl _
  · exact keeps_refl _

theorem keeps_dispPhase (st : St) (p : List Byte) :
    Step.Sat (fun st' => Keeps st.hs st'.hs) (Keeps st.hs) (fun hs _ => Keeps st.hs hs)
      (dispPhase st p) := by
  unfold dispPhase
  split_ifs
  all_goals first
    | exact keeps_refl _
    | (apply sat_readLit
       · intro l
         exact ⟨rfl, rfl, rfl, rfl, rfl, fun _ hi => testBit_or_low (by decide) (by decide) hi⟩
       · intro l p'
         exact ⟨rfl, rfl, rfl, rfl, rfl, fun _ hi => testBit_or_low (by decide) (by decide) hi⟩)

theorem keeps_immP66Phase (cf : CFlags) (mode : Mode) (st : St) (p : List Byte) :
    Step.Sat (fun st' => Keeps st.hs st'.hs) (Keeps st.hs) (fun hs _ => Keeps st.hs hs)
      (immP66Phase cf mode st p) := by
  unfold immP66Phase
  split_ifs
  all_goals first
    | exact keeps_refl _
    | (apply sat_readLit
       · intro l
         exact ⟨rfl, rfl, rfl, rfl, rfl, fun _ hi => testBit_or_low (by decide) (by decide) hi⟩
       · intro l p'
         exact ⟨rfl, rfl, rfl, rfl, rfl, fun _ hi => testBit_or_low (by decide) (by decide) hi⟩)

theorem keeps_imm16Phase (cf : CFlags) (mode : Mode) (st : St) (p : List Byte) :
    Step.Sat (fun st' => Keeps st.hs st'.hs) (Keeps st.hs) (fun hs _ => Keeps st.hs hs)
      (imm16Phase cf mode st p) := by
  unfold imm16Phase
  split_ifs
  all_goals first
    | exact keeps_refl _
    | (apply sat_readLit
       · intro l
         exact ⟨rfl, rfl, rfl, rfl, rfl, fun _ hi => testBit_or_low (by decide) (by decide) hi⟩
       · intro l p'
         exact ⟨rfl, rfl, rfl, rfl, rfl, fun _ hi => testBit_or_low (by decide) (by decide) hi⟩)

theorem keeps_imm8Phase (cf : CFlags) (st : St) (p : List Byte) :
    Step.Sat (fun st' => Keeps st.hs st'.hs) (Keeps st.hs) (fun hs _ => Keeps st.hs hs)
      (imm8Phase cf st p) := by
  unfold imm8Phase
  split_ifs
  all_goals first
    | exact keeps_refl _
    | (apply sat_readLit
       · intro l
         exact ⟨rfl, rfl, rfl, rfl, rfl, fun _ hi => testBit_or_low (by decide) (by decide) hi⟩
       · intro l p'
         exact ⟨rfl, rfl, rfl, rfl, rfl, fun _ hi => testBit_or_low (by decide) (by decide) hi⟩)

theorem keeps_relPhase (cf : CFlags) (st : St) (p : List Byte) :
    Step.Sat (fun st' => Keeps st.hs st'.hs) (Keeps st.hs) (fun hs _ => Keeps st.hs hs)
      (relPhase cf st p) := by
  unfold relPhase
  split_ifs
  all_goals first
    | exact keeps_refl _
    | (apply sat_readLit
       · intro l
         exact ⟨rfl, rfl, rfl, rfl, rfl, fun _ hi => testBit_or_low (by decide) (by decide) hi⟩
       · intro l p'
         exact ⟨rfl, rfl, rfl, rfl, rfl, fun _ hi => testBit_or_low (by decide) (by decide) hi⟩)

/-! ## Bits of a `PrefixSet` and of the flags -/

theorem psetBit_lt {k : Nat} (hk : k < 16) : psetBit k = 2 ^ k := by
  unfold psetBit
  rw [Nat.one_shiftLeft]
  exact Nat.mod_eq_of_lt (Nat.pow_lt_pow_right (by decide) hk)

theorem psetBit_ge {k : Nat} (hk : 16 ≤ k) : psetBit k = 0 := by
  unfold psetBit
  rw [Nat.one_shiftLeft]
  exact Nat.mod_eq_zero_of_dvd (Nat.pow_dvd_pow 2 hk)

theorem testBit_psetBit (k i : Nat) :
    (psetBit k).testBit i = decide (k = i ∧ k < 16) := by
  by_cases hk : k < 16
  · rw [psetBit_lt hk, Nat.testBit_two_pow]
    simp [hk]
  · rw [psetBit_ge (by omega), Nat.zero_testBit]
    simp [hk]

theorem has_eq_testBit (p : Nat) {k : Nat} (hk : k < 16) :
    PrefixSet.Has p k = p.testBit k := by
  unfold PrefixSet.Has
  rw [psetBit_lt hk]
  by_cases h : p.testBit k = true
  · rw [h]
    have := (and_two_pow_ne_zero_iff p k).mpr h
    simpa using this
  · have h' : p.testBit k = false := by simpa using h
    rw [h']
    have : ¬ (p &&& 2 ^ k ≠ 0) := fun hne => h ((and_two_pow_ne_zero_iff p k).mp hne)
    simpa using this

theorem testBit_andNot16 (p m : Nat) {i : Nat} (hi : i < 16) :
    (andNot16 p m).testBit i = (p.testBit i && !m.testBit i) := by
  unfold andNot16
  have h : (0xffff : Nat).testBit i = true := by
    have : (0xffff : Nat) = 2 ^ 16 - 1 := by decide
    rw [this, Nat.testBit_two_pow_sub_one]
    simp [hi]
  rw [Nat.testBit_and, Nat.testBit_xor, h]
  cases m.testBit i <;> simp

theorem testBit_psetSegMask {i : Nat} (hi : i < 16) :
    psetSegMask.testBit i = decide (7 ≤ i ∧ i ≤ 12) := by
  interval_cases i <;> rfl

theorem testBit_psetRepMask {i : Nat} (hi : i < 16) :
    psetRepMask.testBit i = decide (1 ≤ i ∧ i ≤ 2) := by
  interval_cases i <;> rfl

/-- The bits of `p.Add(pfx)`: the new bit, and the old ones outside the group
(segments, or REP and REPNZ) that `pfx` belongs to. -/
theorem testBit_add (p pfx : Nat) {i : Nat} (hi : i < 16) :
    (PrefixSet.Add p pfx).testBit i =
      (decide (pfx = i) ||
        (p.testBit i && !(decide (7 ≤ pfx ∧ pfx ≤ 12) && decide (7 ≤ i ∧ i ≤ 12)) &&
          !(decide (1 ≤ pfx ∧ pfx ≤ 2) && decide (1 ≤ i ∧ i ≤ 2)))) := by
  unfold PrefixSet.Add PreSegDS PreSegGS PreRepNZ PreRep
  have hb : (psetBit pfx).testBit i = decide (pfx = i) := by
    rw [testBit_psetBit]
    by_cases h : pfx = i
    · subst h; simp [hi]
    · simp [h]
  by_cases h1 : 7 ≤ pfx ∧ pfx ≤ 12 <;> by_cases h2 : 1 ≤ pfx ∧ pfx ≤ 2
  · omega
  · simp only [h1, h2, if_true, if_false, and_self, Nat.testBit_or, hb, testBit_andNot16 _ _ hi,
      testBit_psetSegMask hi]
    cases p.testBit i <;> simp [Bool.or_comm]
  · simp only [h1, h2, if_true, if_false, and_self, Nat.testBit_or, hb, testBit_andNot16 _ _ hi,
      testBit_psetRepMask hi]
    cases p.testBit i <;> simp [Bool.or_comm]
  · simp only [h1, h2, if_false, Nat.testBit_or, hb]
    cases p.testBit i <;> simp

theorem testBit_remove (p pfx : Nat) {i : Nat} (hi : i < 16) :
    (PrefixSet.Remove p pfx).testBit i = (p.testBit i && !decide (pfx = i)) := by
  unfold PrefixSet.Remove
  rw [testBit_andNot16 _ _ hi, testBit_psetBit]
  by_cases h : pfx = i
  · subst h; simp [hi]
  · simp [h]

/-- The bits of `f.AddPrefixes(ps)` from bit 10 on are those of `f` or of `ps`. -/
theorem testBit_addPrefixes (f ps : Nat) {i : Nat} (h10 : 10 ≤ i) (h32 : i < 32) :
    (Flag.AddPrefixes f ps).testBit i = (f.testBit i || ps.testBit (i - 10)) := by
  unfold Flag.AddPrefixes prefixSetShift
  rw [Nat.testBit_or, Nat.testBit_mod_two_pow, Nat.testBit_shiftLeft]
  simp [h10, h32]

theorem flagBit_eq {k : Nat} (hk : k < 22) : flagBit k = 2 ^ (10 + k) := by
  unfold flagBit prefixSetShift
  rw [Nat.one_shiftLeft]
  exact Nat.mod_eq_of_lt (Nat.pow_lt_pow_right (by decide) (by omega))

/-- The test `f&flagBit(k) != 0` of the source reads bit `10 + k`. -/
theorem flag_and_ne_zero_iff (f : Nat) {k : Nat} (hk : k < 22) :
    f &&& flagBit k ≠ 0 ↔ f.testBit (10 + k) = true := by
  rw [flagBit_eq hk]
  exact and_two_pow_ne_zero_iff f (10 + k)

theorem testBit_addPrefixes_low (f ps : Nat) {i : Nat} (hi : i < 10) :
    (Flag.AddPrefixes f ps).testBit i = f.testBit i := by
  unfold Flag.AddPrefixes prefixSetShift
  rw [Nat.testBit_or, Nat.testBit_mod_two_pow, Nat.testBit_shiftLeft]
  have : ¬ (i ≥ 10) := by omega
  simp [this]

theorem testBit_or_HasREX (f : Nat) {i : Nat} (hi : i ≠ 16) :
    (f ||| HasREX).testBit i = f.testBit i := by
  have h : HasREX = 2 ^ 16 := by decide
  rw [Nat.testBit_or, h, Nat.testBit_two_pow]
  simp [Ne.symm hi]

theorem testBit_or_IsModRM (f : Nat) {i : Nat} (hi : i ≠ 0) :
    (f ||| IsModRM).testBit i = f.testBit i := by
  have h : IsModRM = 2 ^ 0 := by decide
  rw [Nat.testBit_or, h, Nat.testBit_two_pow]
  simp [Ne.symm hi]

theorem testBit_or_IsModRM_zero (f : Nat) : (f ||| IsModRM).testBit 0 = true := by
  have h : IsModRM = 2 ^ 0 := by decide
  rw [Nat.testBit_or, h, Nat.testBit_two_pow]
  simp

/-! ### What the stretches without cursor do to the locals -/

theorem classify_shape (cf : CFlags) (st : St) :
    Pure.Sat (fun st' => ∃ v, st' = { st with opcode := st.c, cflags := v })
      (fun hs e => hs = st.hs ∧ e = .ErrUnknownOpcode) (classify cf st) := by
  unfold classify
  repeat' (first | split | dsimp only)
  all_goals first
    | trivial
    | exact ⟨rfl, rfl⟩
    | exact ⟨_, rfl⟩

theorem groupPhase_shape (cf : CFlags) (st : St) :
    Pure.Sat (fun st' => ∃ v x, st' = { st with cflags := v, x := x })
      (fun _ _ => False) (groupPhase cf st) := by
  unfold groupPhase
  repeat' (first | split | dsimp only)
  all_goals first
    | trivial
    | exact ⟨_, _, rfl⟩

theorem prefixLegality_shape (mode : Mode) (st : St) :
    Pure.Sat (fun st' => ∃ tbl, st' = { st with tbl := tbl })
      (fun hs e => hs = st.hs ∧ e = .ErrUnknownOpcode) (prefixLegality mode st) := by
  unfold prefixLegality
  repeat' (first | split | dsimp only)
  all_goals first
    | trivial
    | exact ⟨rfl, rfl⟩
    | exact ⟨_, rfl⟩

theorem groupRegCheck_shape (st : St) :
    Pure.Sat (fun st' => st' = st)
      (fun hs e => hs = st.hs ∧ e = .ErrUnknownOpcode) (groupRegCheck st) := by
  unfold groupRegCheck
  split_ifs
  · exact ⟨rfl, rfl⟩
  · rfl

theorem fpuCheck_shape (mode : Mode) (st : St) :
    Pure.Sat (fun st' => ∃ tbl, st' = { st with tbl := tbl })
      (fun hs e => hs = st.hs ∧ e = .ErrUnknownOpcode) (fpuCheck mode st) := by
  unfold fpuCheck
  repeat' (first | split | dsimp only)
  all_goals first
    | trivial
    | exact ⟨rfl, rfl⟩
    | exact ⟨_, rfl⟩

theorem lockLoop_err (tbl : List Byte) (lenEnd op reg : Nat) (fuel i : Nat) (e : DecoderError)
    (h : lockLoop tbl lenEnd op reg fuel i = some (some e)) : e = .ErrInvalidLock := by
  induction fuel generalizing i with
  | zero =>
    simp only [lockLoop, Option.some.injEq] at h
    exact h.symm
  | succ n ih =>
    unfold lockLoop at h
    split_ifs at h with h1
    · split at h
      · cases h
      · split_ifs at h
        · split at h
          · cases h
          · split_ifs at h
            · cases h
            · simp only [Option.some.injEq] at h
              exact h.symm
        · exact ih _ h
    · simp only [Option.some.injEq] at h
      exact h.symm

theorem lockCheck_shape (mode : Mode) (st : St) :
    Pure.Sat
      (fun st' => (∃ tbl, st' = { st with tbl := tbl }) ∧
        (PrefixSet.Has st.pref PreLock = true → st.mod ≠ 3))
      (fun hs e => hs = st.hs ∧ e = .ErrInvalidLock ∧ PrefixSet.Has st.pref PreLock = true)
      (lockCheck mode st) := by
  unfold lockCheck
  split_ifs with h1 h2
  · exact ⟨rfl, rfl, h1⟩
  · split
    · trivial
    · split
      · trivial
      · rename_i e he
        exact ⟨rfl, lockLoop_err _ _ _ _ _ _ _ he, h1⟩
      · exact ⟨⟨_, rfl⟩, fun _ => h2⟩
  · exact ⟨⟨_, rfl⟩, fun h => absurd h h1⟩

theorem regRangeCheck_shape (st : St) :
    Pure.Sat (fun st' => st' = st ∨ st' = { st with mod := 3 })
      (fun hs e => hs = st.hs ∧ e = .ErrBadOperand) (regRangeCheck st) := by
  unfold regRangeCheck
  repeat' (first | split | dsimp only)
  all_goals first
    | exact ⟨rfl, rfl⟩
    | exact Or.inl rfl
    | exact Or.inr rfl

theorem operandCheck_shape (mode : Mode) (st : St) :
    Pure.Sat (fun st' => st' = st)
      (fun hs e => hs = st.hs ∧ e = .ErrBadOperand) (operandCheck mode st) := by
  unfold operandCheck
  repeat' (first | split | dsimp only)
  all_goals trivial

/-! ### The bounds on the number of iterations are never reached -/

/-- One more iteration allowed changes nothing once the bound covers the
distance to `len(end)`: the loop over the lock table ends by its own condition
or by `break`. -/
theorem lockLoop_fuel (tbl : List Byte) (lenEnd op reg : Nat) (fuel : Nat) :
    ∀ i, lenEnd ≤ i + fuel →
      lockLoop tbl lenEnd op reg (fuel + 1) i = lockLoop tbl lenEnd op reg fuel i := by
  induction fuel with
  | zero =>
    intro i h
    have : ¬ i < lenEnd := by omega
    simp [lockLoop, this]
  | succ n ih =>
    intro i h
    rw [lockLoop, lockLoop.eq_def tbl lenEnd op reg (n + 1) i]
    dsimp only
    rw [ih (i + 2) (by omega)]

/-- The same for the loop over the restriction table. -/
theorem onlyMemLoop_fuel (tbl : List Byte) (opcode pref reg : Nat) (endv : Int) (fuel : Nat) :
    ∀ it : Nat, endv ≤ (it : Int) + (fuel : Int) →
      onlyMemLoop tbl opcode pref reg endv (fuel + 1) it =
        onlyMemLoop tbl opcode pref reg endv fuel it := by
  induction fuel with
  | zero =>
    intro it h
    have : ¬ (it : Int) < endv := by omega
    simp [onlyMemLoop, this]
  | succ n ih =>
    intro it h
    rw [onlyMemLoop, onlyMemLoop.eq_def tbl opcode pref reg endv (n + 1) it]
    dsimp only
    rw [ih (it + 2) (by push_cast; omega), ih (it + 1 + 2) (by push_cast; omega)]

/-! ### What the stretches on the cursor do to the locals -/

theorem ite_le_of {c : Prop} [Decidable c] {a b n : Nat} (ha : a ≤ n) (hb : b ≤ n) :
    (if c then a else b) ≤ n := by
  split_ifs <;> assumption

theorem prefixToID_le (c : Nat) : PrefixToID c ≤ 12 := by
  unfold PrefixToID
  repeat' apply ite_le_of
  all_goals decide

/-- The prefix loop changes `c` and `pref` only; `pref` receives the
identifiers of the prefix bytes it passes, none if the first byte is not a
prefix. -/
theorem prefixLoop_shape (x : Nat) : ∀ (st : St) (p : List Byte),
    Step.Sat
      (fun st' => ∃ ids : List Nat, (∀ i ∈ ids, i ≠ PreNone ∧ i ≤ 12) ∧
        st' = { st with c := st'.c, pref := ids.foldl PrefixSet.Add st.pref } ∧
        (∀ b rest, p = b :: rest → PrefixToID b.val = PreNone → ids = []))
      (fun _ => False) (fun hs e => hs = st.hs ∧ e = .ErrLength) (prefixLoop x st p) := by
  induction x with
  | zero =>
    intro st p
    cases p with
    | nil => exact ⟨[], by simp, rfl, by simp⟩
    | cons b rest => exact ⟨[], by simp, rfl, by simp⟩
  | succ x ih =>
    intro st p
    cases p with
    | nil => exact ⟨rfl, rfl⟩
    | cons b rest =>
      simp only [prefixLoop, nextByte]
      split_ifs with h
      · exact ⟨[], by simp, rfl, by simp⟩
      · refine (ih _ rest).mono ?_ (fun _ h => h) (fun _ _ h => h)
        rintro st' ⟨ids, hids, hst, -⟩
        refine ⟨PrefixToID b.val :: ids, ?_, ?_, ?_⟩
        · intro i hi
          rcases List.mem_cons.mp hi with rfl | hi
          · exact ⟨h, prefixToID_le _⟩
          · exact hids i hi
        · rw [List.foldl_cons]
          exact hst
        · intro b' rest' hb hnone
          simp only [List.cons.injEq] at hb
          rw [← hb.1] at hnone
          exact absurd hnone h

theorem rexPhase_shape (mode : Mode) (st : St) (p : List Byte) :
    Step.Sat
      (fun st' => st' = st ∨ ∃ c op64, st' =
        { st with hs := { st.hs with Flags := st.hs.Flags ||| HasREX, REX := st.c },
                  op64 := op64, c := c })
      (fun _ => False)
      (fun hs e => hs = { st.hs with Flags := st.hs.Flags ||| HasREX, REX := st.c } ∧
        (e = .ErrLength ∨ e = .ErrUnknownOpcode)) (rexPhase mode st p) := by
  unfold rexPhase
  split_ifs
  · cases p with
    | nil => exact ⟨rfl, Or.inl rfl⟩
    | cons b rest =>
      dsimp only
      split_ifs
      all_goals first
        | exact ⟨rfl, Or.inr rfl⟩
        | exact Or.inr ⟨_, _, rfl⟩
  · exact Or.inl rfl
  · exact Or.inl rfl

theorem opcodePhase_shape (mode : Mode) (st : St) (p : List Byte) :
    Step.Sat
      (fun st' =>
        (∃ c tbl, st' = { st with hs := { st.hs with Opcode := st.c, Opcode2 := c },
                                  c := c, tbl := tbl }) ∨
        (∃ pref, st' = { st with hs := { st.hs with Opcode := st.c }, tbl := mode.table,
                                 op64 := true, pref := pref } ∧
          (pref = PrefixSet.Add st.pref PreOpSize ∨ pref = PrefixSet.Remove st.pref PreOpSize)) ∨
        st' = { st with hs := { st.hs with Opcode := st.c }, tbl := mode.table })
      (fun _ => False)
      (fun hs e => hs = { st.hs with Opcode := st.c } ∧ e = .ErrLength)
      (opcodePhase mode st p) := by
  unfold opcodePhase
  dsimp only
  split_ifs
  · apply sat_nextByte
    · exact ⟨rfl, rfl⟩
    · intro c p' _
      apply sat_run
      split
      · trivial
      · exact Or.inl ⟨_, _, rfl⟩
  · exact Or.inr (Or.inl ⟨_, rfl, Or.inl rfl⟩)
  · exact Or.inr (Or.inl ⟨_, rfl, Or.inr rfl⟩)
  · exact Or.inr (Or.inr rfl)

theorem readModRM_shape (st : St) (p : List Byte) :
    Step.Sat
      (fun st' => ∃ c, st' =
        { st with c := c, hs := { st.hs with Flags := st.hs.Flags ||| IsModRM, ModRM := c },
                  mod := ModRM.Mod c, rm := ModRM.RM c, reg := ModRM.Reg c })
      (fun _ => False) (fun hs e => hs = st.hs ∧ e = .ErrLength) (readModRM st p) := by
  unfold readModRM
  apply sat_nextByte
  · exact ⟨rfl, rfl⟩
  · intro c p' _
    exact ⟨c, rfl⟩

theorem classifyPhase_shape (cf : CFlags) (mode : Mode) (st : St) (p : List Byte) :
    Step.Sat (fun st' => st'.hs = st.hs ∧ st'.pref = st.pref ∧ st'.op64 = st.op64)
      (fun _ => False) (fun hs e => hs = st.hs ∧ e = .ErrUnknownOpcode)
      (classifyPhase cf mode st p) := by
  unfold classifyPhase
  apply sat_run
  refine pure_sat_andThen (Q := fun st' => st'.hs = st.hs ∧ st'.pref = st.pref ∧
    st'.op64 = st.op64) (pure_sat_andThen (Q := fun st' => st'.hs = st.hs ∧
    st'.pref = st.pref ∧ st'.op64 = st.op64) ?_ ?_) ?_
  · refine (classify_shape cf st).weaken ?_ (fun _ _ h => h)
    rintro st' ⟨v, rfl⟩
    exact ⟨rfl, rfl, rfl⟩
  · rintro st1 ⟨h1, h2, h3⟩
    refine (groupPhase_shape cf st1).weaken ?_ (fun _ _ h => h.elim)
    rintro st' ⟨v, x, rfl⟩
    exact ⟨h1, h2, h3⟩
  · rintro st1 ⟨h1, h2, h3⟩
    refine (prefixLegality_shape mode st1).weaken ?_ ?_
    · rintro st' ⟨tbl, rfl⟩
      exact ⟨h1, h2, h3⟩
    · rintro hs e ⟨rfl, rfl⟩
      exact ⟨h1, rfl⟩

/-! ## `Length` and the prefix bits of the flags along `Decode` -/

theorem grows_rexPhase (mode : Mode) (st : St) (p : List Byte) :
    Step.Sat (fun st' => Grows st.hs st'.hs) (Grows st.hs) (fun hs _ => Grows st.hs hs)
      (rexPhase mode st p) := by
  refine (rexPhase_shape mode st p).mono ?_ (fun _ h => h.elim) ?_
  · rintro st' (rfl | ⟨c, op64, rfl⟩)
    · exact grows_refl _
    · exact ⟨rfl, fun i _ h16 => testBit_or_HasREX _ h16⟩
  · rintro hs e ⟨rfl, -⟩
    exact ⟨rfl, fun i _ h16 => testBit_or_HasREX _ h16⟩

theorem grows_opcodePhase (mode : Mode) (st : St) (p : List Byte) :
    Step.Sat (fun st' => Grows st.hs st'.hs) (Grows st.hs) (fun hs _ => Grows st.hs hs)
      (opcodePhase mode st p) := by
  refine (opcodePhase_shape mode st p).mono ?_ (fun _ h => h.elim) ?_
  · rintro st' (⟨c, tbl, rfl⟩ | ⟨pref, rfl, -⟩ | rfl) <;> exact ⟨rfl, fun _ _ _ => rfl⟩
  · rintro hs e ⟨rfl, -⟩
    exact ⟨rfl, fun _ _ _ => rfl⟩

theorem grows_classifyPhase (cf : CFlags) (mode : Mode) (st : St) (p : List Byte) :
    Step.Sat (fun st' => Grows st.hs st'.hs) (Grows st.hs) (fun hs _ => Grows st.hs hs)
      (classifyPhase cf mode st p) := by
  refine (classifyPhase_shape cf mode st p).mono ?_ (fun _ h => h.elim) ?_
  · rintro st' ⟨h, -⟩
    rw [h]; exact grows_refl _
  · rintro hs e ⟨rfl, -⟩
    exact grows_refl _

/-- The checks between the ModRM byte and the SIB byte leave the instruction
and `pref` alone; `ErrInvalidLock` needs a LOCK prefix, and past the LOCK check
a LOCK prefix goes with `mod ≠ 3`. -/
theorem modrmChecks_shape (cf : CFlags) (mode : Mode) (st : St) :
    Pure.Sat
      (fun st' => st'.hs = st.hs ∧ st'.pref = st.pref ∧
        (PrefixSet.Has st.pref PreLock = true → st.mod ≠ 3))
      (fun hs e => hs = st.hs ∧ (e = .ErrUnknownOpcode ∨
        (e = .ErrInvalidLock ∧ PrefixSet.Has st.pref PreLock = true) ∨
        (e = .ErrBadOperand ∧ (PrefixSet.Has st.pref PreLock = true → st.mod ≠ 3))))
      (modrmChecks cf mode st) := by
  unfold modrmChecks
  refine pure_sat_andThen (Q := fun st' => st'.hs = st.hs ∧ st'.pref = st.pref ∧
      (PrefixSet.Has st.pref PreLock = true → st.mod ≠ 3))
    (pure_sat_andThen (Q := fun st' => st'.hs = st.hs ∧ st'.pref = st.pref ∧
      (PrefixSet.Has st.pref PreLock = true → st.mod ≠ 3))
    (pure_sat_andThen (Q := fun st' => st'.hs = st.hs ∧ st'.pref = st.pref ∧
      st'.mod = st.mod)
    (pure_sat_andThen (Q := fun st' => st' = st) ?_ ?_) ?_) ?_) ?_
  · refine (groupRegCheck_shape st).weaken (fun _ h => h) ?_
    rintro hs e ⟨rfl, rfl⟩
    exact ⟨rfl, Or.inl rfl⟩
  · rintro st1 rfl
    refine (fpuCheck_shape mode st1).weaken ?_ ?_
    · rintro st' ⟨tbl, rfl⟩
      exact ⟨rfl, rfl, rfl⟩
    · rintro hs e ⟨rfl, rfl⟩
      exact ⟨rfl, Or.inl rfl⟩
  · rintro st1 ⟨h1, h2, h3⟩
    refine (lockCheck_shape mode st1).weaken ?_ ?_
    · rintro st' ⟨⟨tbl, rfl⟩, hl⟩
      rw [h2, h3] at hl
      exact ⟨h1, h2, hl⟩
    · rintro hs e ⟨rfl, rfl, hl⟩
      rw [h2] at hl
      exact ⟨h1, Or.inr (Or.inl ⟨rfl, hl⟩)⟩
  · rintro st1 ⟨h1, h2, h3⟩
    refine (regRangeCheck_shape st1).weaken ?_ ?_
    · rintro st' (rfl | rfl)
      · exact ⟨h1, h2, h3⟩
      · exact ⟨h1, h2, h3⟩
    · rintro hs e ⟨rfl, rfl⟩
      exact ⟨h1, Or.inr (Or.inr ⟨rfl, h3⟩)⟩
  · rintro st1 ⟨h1, h2, h3⟩
    refine pure_sat_andThen (Q := fun st' => st' = st1) ?_ ?_
    · refine (operandCheck_shape mode st1).weaken (fun _ h => h) ?_
      rintro hs e ⟨rfl, rfl⟩
      exact ⟨h1, Or.inr (Or.inr ⟨rfl, h3⟩)⟩
    · rintro st2 rfl
      have e1 : (dispSizeOf (immPromote cf st2)).hs = st2.hs := by
        unfold dispSizeOf immPromote
        repeat' (first | split | dsimp only)
      have e2 : (dispSizeOf (immPromote cf st2)).pref = st2.pref := by
        unfold dispSizeOf immPromote
        repeat' (first | split | dsimp only)
      exact ⟨e1.trans h1, e2.trans h2, h3⟩

theorem grows_modrmBlock (cf : CFlags) (mode : Mode) (st : St) (p : List Byte) :
    Step.Sat (fun st' => Grows st.hs st'.hs) (Grows st.hs) (fun hs _ => Grows st.hs hs)
      (modrmBlock cf mode st p) := by
  unfold modrmBlock
  split_ifs
  · refine sat_andThen (Q := fun st' => Grows st.hs st'.hs) (sat_andThen
      (Q := fun st' => Grows st.hs st'.hs) (sat_andThen
      (Q := fun st' => Grows st.hs st'.hs) ?_ ?_) ?_) ?_
    · refine (readModRM_shape st p).mono ?_ (fun _ h => h.elim) ?_
      · rintro st' ⟨c, rfl⟩
        exact ⟨rfl, fun i hi _ => testBit_or_IsModRM _ (by omega)⟩
      · rintro hs e ⟨rfl, -⟩
        exact grows_refl _
    · intro st1 p1 h1
      apply sat_run
      refine (modrmChecks_shape cf mode st1).weaken ?_ ?_
      · rintro st' ⟨h, -⟩
        rw [h]; exact h1
      · rintro hs e ⟨rfl, -⟩
        exact h1
    · intro st1 p1 h1
      exact (keeps_sibPhase mode st1 p1).mono (fun _ h => grows_trans h1 (keeps_grows h))
        (fun _ h => grows_trans h1 (keeps_grows h)) (fun _ _ h => grows_trans h1 (keeps_grows h))
    · intro st1 p1 h1
      exact (keeps_dispPhase st1 p1).mono (fun _ h => grows_trans h1 (keeps_grows h))
        (fun _ h => grows_trans h1 (keeps_grows h)) (fun _ _ h => grows_trans h1 (keeps_grows h))
  · exact grows_refl _
  · exact grows_refl _

theorem pastPrefixes_step {code : List Byte} {a : Insn} {s : Step} (ha : PastPrefixes code a)
    (h : Step.Sat (fun st' => Grows a st'.hs) (Grows a) (fun hs _ => Grows a hs) s) :
    Step.Sat (fun st' => PastPrefixes code st'.hs) (PastPrefixes code)
      (fun hs _ => hs = Insn.zero ∨ PastPrefixes code hs) s := by
  obtain ⟨ids, h1, h2, h3⟩ := ha
  exact h.mono (fun _ g => ⟨ids, h1, h2, grows_trans h3 g⟩)
    (fun _ g => ⟨ids, h1, h2, grows_trans h3 g⟩)
    (fun _ _ g => Or.inr ⟨ids, h1, h2, grows_trans h3 g⟩)

theorem pastPrefixes_keeps {code : List Byte} {a : Insn} {s : Step} (ha : PastPrefixes code a)
    (h : Step.Sat (fun st' => Keeps a st'.hs) (Keeps a) (fun hs _ => Keeps a hs) s) :
    Step.Sat (fun st' => PastPrefixes code st'.hs) (PastPrefixes code)
      (fun hs _ => hs = Insn.zero ∨ PastPrefixes code hs) s :=
  pastPrefixes_step ha (h.mono (fun _ => keeps_grows) (fun _ => keeps_grows)
    (fun _ _ => keeps_grows))

/-- Along the whole of `Decode`, `Length` stays zero and the prefix bits of
the flags other than `HasREX` stay as line 69 wrote them; an error before
line 69 comes with the zero instruction. -/
theorem decodeBody_pastPrefixes (cf : CFlags) (mode : Mode) (code : List Byte) :
    Step.Sat (fun st' => PastPrefixes code st'.hs) (PastPrefixes code)
      (fun hs _ => hs = Insn.zero ∨ PastPrefixes code hs) (decodeBody cf mode code) := by
  unfold decodeBody
  refine sat_andThen (Q := fun st' => PastPrefixes code st'.hs) (sat_andThen
    (Q := fun st' => PastPrefixes code st'.hs) (sat_andThen
    (Q := fun st' => PastPrefixes code st'.hs) (sat_andThen
    (Q := fun st' => PastPrefixes code st'.hs) (sat_andThen
    (Q := fun st' => PastPrefixes code st'.hs) (sat_andThen
    (Q := fun st' => PastPrefixes code st'.hs) (sat_andThen
    (Q := fun st' => PastPrefixes code st'.hs) (sat_andThen
    (Q := fun st' => PastPrefixes code (afterPrefixes st').hs) ?_ ?_) ?_) ?_) ?_) ?_) ?_) ?_) ?_
  · refine (prefixLoop_shape 16 St.init code).mono ?_ (fun _ h => h.elim) ?_
    · rintro st' ⟨ids, h1, h2, h3⟩
      refine ⟨ids, h1, h3, ?_⟩
      rw [h2]
      exact grows_refl _
    · rintro hs e ⟨rfl, -⟩
      exact Or.inl rfl
  · intro st p h
    exact pastPrefixes_step h (grows_rexPhase mode _ p)
  · intro st p h
    exact pastPrefixes_step h (grows_opcodePhase mode st p)
  · intro st p h
    exact pastPrefixes_step h (grows_classifyPhase cf mode st p)
  · intro st p h
    exact pastPrefixes_step h (grows_modrmBlock cf mode st p)
  · intro st p h
    exact pastPrefixes_keeps h (keeps_immP66Phase cf mode st p)
  · intro st p h
    exact pastPrefixes_keeps h (keeps_imm16Phase cf mode st p)
  · intro st p h
    exact pastPrefixes_keeps h (keeps_imm8Phase cf st p)
  · intro st p h
    exact pastPrefixes_keeps h (keeps_relPhase cf st p)

/-- The outcome of `Decode` read off the outcome of its body. -/
theorem decode_sat (cf : CFlags) (mode : Mode) (code : List Byte) (hne : code ≠ [])
    {Q : St → Prop} {R : Insn → Prop} {E : Insn → DecoderError → Prop}
    (h : Step.Sat Q R E (decodeBody cf mode (code.take 15))) :
    match Mode.Decode cf mode code with
    | some (hs, none) => ∃ hs0 n, hs = { hs0 with Length := n } ∧
        ((∃ st, st.hs = hs0 ∧ Q st) ∨ R hs0)
    | some (hs, some e) => E hs e
    | none => True := by
  rw [decode_eq cf mode code hne]
  cases hb : decodeBody cf mode (code.take 15) with
  | next st p =>
    rw [hb] at h
    exact ⟨st.hs, _, rfl, Or.inl ⟨st, rfl, h⟩⟩
  | done hs p =>
    rw [hb] at h
    exact ⟨hs, _, rfl, Or.inr h⟩
  | fail hs e =>
    rw [hb] at h
    exact h
  | panic => trivial

theorem pastPrefixes_take (code : List Byte) (hs : Insn)
    (h : PastPrefixes (code.take 15) hs) : PastPrefixes code hs := by
  obtain ⟨ids, h1, h2, h3⟩ := h
  refine ⟨ids, h1, ?_, h3⟩
  rintro b rest rfl hb
  exact h2 b (rest.take 14) rfl hb

theorem decode_pastPrefixes (cf : CFlags) (mode : Mode) (code : List Byte) (hs : Insn)
    (err : Option DecoderError) (h : Mode.Decode cf mode code = some (hs, err)) :
    (err ≠ none ∧ hs = Insn.zero) ∨
      ∃ hs0 n, PastPrefixes code hs0 ∧
        ((err = none ∧ hs = { hs0 with Length := n }) ∨ (err ≠ none ∧ hs = hs0)) := by
  by_cases hne : code = []
  · subst hne
    simp only [Mode.Decode, List.length_nil, if_true, Option.some.injEq, Prod.mk.injEq] at h
    exact Or.inl ⟨by rw [← h.2]; simp, h.1.symm⟩
  · have h1 := decode_sat cf mode code hne (decodeBody_pastPrefixes cf mode (code.take 15))
    rw [h] at h1
    cases err with
    | none =>
      obtain ⟨hs0, n, e1, (⟨st, rfl, hq⟩ | hr)⟩ := h1
      · exact Or.inr ⟨_, n, pastPrefixes_take _ _ hq, Or.inl ⟨rfl, e1⟩⟩
      · exact Or.inr ⟨_, n, pastPrefixes_take _ _ hr, Or.inl ⟨rfl, e1⟩⟩
    | some e =>
      rcases h1 with h0 | hp
      · exact Or.inl ⟨by simp, h0⟩
      · exact Or.inr ⟨hs, 0, pastPrefixes_take _ _ hp, Or.inr ⟨by simp, rfl⟩⟩

/-! ## LOCK needs a memory operand -/

theorem lockMem_keeps {a b : Insn} (h : Keeps a b) (ha : LockMem a) : LockMem b := by
  obtain ⟨-, -, -, -, hm, hf⟩ := h
  intro h15
  rw [hf 15 (Or.inr (by decide))] at h15
  rw [hf 0 (Or.inl rfl), hm]
  exact ha h15

theorem lockErr_of_lockMem {hs : Insn} (h : LockMem hs) (e : DecoderError) : LockErr hs e := by
  intro h15 hor
  obtain ⟨h0, h3⟩ := h h15
  rcases hor with h | h
  · rw [h0] at h; cases h
  · exact absurd h h3

theorem lockErr_of_not_modrm {hs : Insn} {e : DecoderError} (h0 : hs.Flags.testBit 0 = false)
    (he : e ≠ .ErrBadOperand) : LockErr hs e := by
  intro _ _
  exact ⟨he, fun h => by rw [h0] at h; cases h⟩

theorem lockMem_step {a : Insn} {s : Step} (ha : LockMem a)
    (h : Step.Sat (fun st' => Keeps a st'.hs) (Keeps a) (fun hs _ => Keeps a hs) s) :
    Step.Sat (fun st' => LockMem st'.hs) LockMem LockErr s :=
  h.mono (fun _ k => lockMem_keeps k ha) (fun _ k => lockMem_keeps k ha)
    (fun _ e k => lockErr_of_lockMem (lockMem_keeps k ha) e)

theorem lockPending_afterPrefixes (ids : List Nat) (c : Nat) :
    LockPending (afterPrefixes { St.init with c := c, pref := ids.foldl PrefixSet.Add 0 }) := by
  unfold LockPending afterPrefixes
  dsimp only
  constructor
  · rw [show St.init.hs.Flags = 0 from rfl, testBit_addPrefixes _ _ (by decide) (by decide),
      Nat.zero_testBit, Bool.false_or]
    split_ifs with h0
    · rw [h0, has_eq_testBit _ (by decide : PreLock < 16)]
      decide
    · rw [has_eq_testBit _ (by decide : PreLock < 16)]
      rfl
  · rw [show St.init.hs.Flags = 0 from rfl, testBit_addPrefixes_low _ _ (by decide),
      Nat.zero_testBit]

theorem lock_rexPhase (mode : Mode) (st : St) (p : List Byte) (h : LockPending st) :
    Step.Sat LockPending LockMem LockErr (rexPhase mode st p) := by
  obtain ⟨h15, h0⟩ := h
  refine (rexPhase_shape mode st p).mono ?_ (fun _ h => h.elim) ?_
  · rintro st' (rfl | ⟨c, op64, rfl⟩)
    · exact ⟨h15, h0⟩
    · exact ⟨by rw [← h15]; exact testBit_or_HasREX _ (by decide),
        by rw [← h0]; exact testBit_or_HasREX _ (by decide)⟩
  · rintro hs e ⟨rfl, he⟩
    apply lockErr_of_not_modrm
    · rw [← h0]; exact testBit_or_HasREX _ (by decide)
    · rcases he with rfl | rfl <;> decide

theorem has_lock_add_opsize (p : Nat) :
    PrefixSet.Has (PrefixSet.Add p PreOpSize) PreLock = PrefixSet.Has p PreLock := by
  rw [has_eq_testBit _ (by decide : PreLock < 16), has_eq_testBit _ (by decide : PreLock < 16),
    show PreLock = 5 from rfl, testBit_add _ _ (by decide : 5 < 16)]
  simp [PreOpSize]

theorem has_lock_remove_opsize (p : Nat) :
    PrefixSet.Has (PrefixSet.Remove p PreOpSize) PreLock = PrefixSet.Has p PreLock := by
  rw [has_eq_testBit _ (by decide : PreLock < 16), has_eq_testBit _ (by decide : PreLock < 16),
    show PreLock = 5 from rfl, testBit_remove _ _ (by decide : 5 < 16)]
  simp [PreOpSize]

theorem lock_opcodePhase (mode : Mode) (st : St) (p : List Byte) (h : LockPending st) :
    Step.Sat LockPending LockMem LockErr (opcodePhase mode st p) := by
  obtain ⟨h15, h0⟩ := h
  refine (opcodePhase_shape mode st p).mono ?_ (fun _ h => h.elim) ?_
  · rintro st' (⟨c, tbl, rfl⟩ | ⟨pref, rfl, (rfl | rfl)⟩ | rfl)
    · exact ⟨h15, h0⟩
    · exact ⟨h15.trans (has_lock_add_opsize _).symm, h0⟩
    · exact ⟨h15.trans (has_lock_remove_opsize _).symm, h0⟩
    · exact ⟨h15, h0⟩
  · rintro hs e ⟨rfl, rfl⟩
    exact lockErr_of_not_modrm h0 (by decide)

theorem lock_classifyPhase (cf : CFlags) (mode : Mode) (st : St) (p : List Byte)
    (h : LockPending st) :
    Step.Sat LockPending LockMem LockErr (classifyPhase cf mode st p) := by
  obtain ⟨h15, h0⟩ := h
  refine (classifyPhase_shape cf mode st p).mono ?_ (fun _ h => h.elim) ?_
  · rintro st' ⟨e1, e2, -⟩
    exact ⟨by rw [e1, e2]; exact h15, by rw [e1]; exact h0⟩
  · rintro hs e ⟨rfl, rfl⟩
    exact lockErr_of_not_modrm h0 (by decide)

theorem lock_modrmBlock (cf : CFlags) (mode : Mode) (st : St) (p : List Byte)
    (h : LockPending st) :
    Step.Sat (fun st' => LockMem st'.hs) LockMem LockErr (modrmBlock cf mode st p) := by
  obtain ⟨h15, h0⟩ := h
  unfold modrmBlock
  split_ifs with hm hl
  · refine sat_andThen (Q := fun st' => LockMem st'.hs) (sat_andThen
      (Q := fun st' => LockMem st'.hs) (sat_andThen
      (Q := fun st' => st'.hs.Flags.testBit 15 = PrefixSet.Has st'.pref PreLock ∧
        st'.hs.Flags.testBit 0 = true ∧ st'.mod = ModRM.Mod st'.hs.ModRM) ?_ ?_) ?_) ?_
    · refine (readModRM_shape st p).mono ?_ (fun _ h => h.elim) ?_
      · rintro st' ⟨c, rfl⟩
        exact ⟨by rw [← h15]; exact testBit_or_IsModRM _ (by decide),
          testBit_or_IsModRM_zero _, rfl⟩
      · rintro hs e ⟨rfl, rfl⟩
        exact lockErr_of_not_modrm h0 (by decide)
    · rintro st1 p1 ⟨g15, g0, gm⟩
      apply sat_run
      refine (modrmChecks_shape cf mode st1).weaken ?_ ?_
      · rintro st' ⟨e1, -, hl⟩
        intro k15
        rw [e1] at k15 ⊢
        rw [g15] at k15
        exact ⟨g0, by rw [← gm]; exact hl k15⟩
      · rintro hs e ⟨rfl, he⟩
        intro k15 hor
        rw [g15] at k15
        rcases he with rfl | ⟨rfl, -⟩ | ⟨rfl, hl⟩
        · exact ⟨by decide, fun _ => by decide⟩
        · exact ⟨by decide, fun _ => by decide⟩
        · exfalso
          rcases hor with h | h
          · rw [g0] at h; cases h
          · rw [← gm] at h; exact hl k15 h
    · intro st1 p1 h1
      exact lockMem_step h1 (keeps_sibPhase mode st1 p1)
    · intro st1 p1 h1
      exact lockMem_step h1 (keeps_dispPhase st1 p1)
  · exact lockErr_of_not_modrm h0 (by decide)
  · intro k15
    rw [h15] at k15
    exact absurd k15 hl

theorem decodeBody_lock (cf : CFlags) (mode : Mode) (code : List Byte) :
    Step.Sat (fun st' => LockMem st'.hs) LockMem LockErr (decodeBody cf mode code) := by
  unfold decodeBody
  refine sat_andThen (Q := fun st' => LockMem st'.hs) (sat_andThen
    (Q := fun st' => LockMem st'.hs) (sat_andThen
    (Q := fun st' => LockMem st'.hs) (sat_andThen
    (Q := fun st' => LockMem st'.hs) (sat_andThen
    (Q := LockPending) (sat_andThen
    (Q := LockPending) (sat_andThen
    (Q := LockPending) (sat_andThen
    (Q := fun st' => LockPending (afterPrefixes st')) ?_ ?_) ?_) ?_) ?_) ?_) ?_) ?_) ?_
  · refine (prefixLoop_shape 16 St.init code).mono ?_ (fun _ h => h.elim) ?_
    · rintro st' ⟨ids, -, h2, -⟩
      rw [h2]
      exact lockPending_afterPrefixes ids _
    · rintro hs e ⟨rfl, rfl⟩
      exact lockErr_of_not_modrm rfl (by decide)
  · intro st p h
    exact lock_rexPhase mode _ p h
  · intro st p h
    exact lock_opcodePhase mode st p h
  · intro st p h
    exact lock_classifyPhase cf mode st p h
  · intro st p h
    exact lock_modrmBlock cf mode st p h
  · intro st p h
    exact lockMem_step h (keeps_immP66Phase cf mode st p)
  · intro st p h
    exact lockMem_step h (keeps_imm16Phase cf mode st p)
  · intro st p h
    exact lockMem_step h (keeps_imm8Phase cf st p)
  · intro st p h
    exact lockMem_step h (keeps_relPhase cf st p)

/-! ## The contract of `Decode` on lengths -/

/-- Claim C1: `Length` is the number of bytes the instruction occupies. If
`Decode` succeeds on `code` with the instruction `hs`, then it succeeds with the
identical `hs` on the first `hs.Length` bytes alone and on those bytes followed
by any other bytes. -/
theorem length_is_bytes_consumed (cf : CFlags) (mode : Mode) (code : List Byte) (hs : Insn)
    (h : Mode.Decode cf mode code = some (hs, none)) :
    Mode.Decode cf mode (code.take hs.Length) = some (hs, none) ∧
    ∀ rest : List Byte, Mode.Decode cf mode (code.take hs.Length ++ rest) = some (hs, none) := by
  obtain ⟨c, p, hs0, hc, hcne, hhs, hr⟩ := decode_ok_inv cf mode code hs h
  have hcl : c.length ≤ 15 := by
    have h1 := congrArg List.length hc
    simp only [List.length_append, List.length_take] at h1
    omega
  have htake : code.take hs.Length = c := by
    have h1 : hs.Length = c.length := by rw [hhs]
    rw [h1]
    have h2 : (code.take 15).take c.length = c := by rw [hc]; simp
    rw [List.take_take] at h2
    rwa [Nat.min_eq_left hcl] at h2
  have ext : ∀ rest : List Byte, Mode.Decode cf mode (c ++ rest) = some (hs, none) := by
    intro rest
    rw [decode_take15]
    have e1 : (c ++ rest).take 15 = c ++ rest.take (15 - c.length) := by
      rw [List.take_append_eq_append_take, List.take_of_length_le hcl]
    rw [e1, hhs]
    apply decode_of_result cf mode c _ hs0 hcne _ (hr _)
    simp only [List.length_append, List.length_take]
    omega
  rw [htake]
  refine ⟨?_, ext⟩
  simpa using ext []

theorem length_is_bytes_consumed_witness :
    Mode.Decode sampleCF (sampleMode true) [0x01, 0x05, 1, 2, 3, 4, 0x90, 0x90] =
      some ({ Flags := 257, Length := 6, Opcode := 1, Opcode2 := 0, REX := 0, ModRM := 5,
              SIB := 0, Imm := ⟨0, 0⟩, Disp := ⟨67305985, 32⟩ }, none) ∧
    (Mode.Decode sampleCF (sampleMode true)
        (([0x01, 0x05, 1, 2, 3, 4, 0x90, 0x90] : List Byte).take 6) =
      some ({ Flags := 257, Length := 6, Opcode := 1, Opcode2 := 0, REX := 0, ModRM := 5,
              SIB := 0, Imm := ⟨0, 0⟩, Disp := ⟨67305985, 32⟩ }, none) ∧
     ∀ rest : List Byte, Mode.Decode sampleCF (sampleMode true)
        (([0x01, 0x05, 1, 2, 3, 4, 0x90, 0x90] : List Byte).take 6 ++ rest) =
      some ({ Flags := 257, Length := 6, Opcode := 1, Opcode2 := 0, REX := 0, ModRM := 5,
              SIB := 0, Imm := ⟨0, 0⟩, Disp := ⟨67305985, 32⟩ }, none)) :=
  ⟨by decide, length_is_bytes_consumed sampleCF (sampleMode true)
    [0x01, 0x05, 1, 2, 3, 4, 0x90, 0x90]
    { Flags := 257, Length := 6, Opcode := 1, Opcode2 := 0, REX := 0, ModRM := 5,
      SIB := 0, Imm := ⟨0, 0⟩, Disp := ⟨67305985, 32⟩ } (by decide)⟩

/-- Claim C2: on every input on which `Decode` succeeds,
`1 ≤ Length ≤ min(len(input), 15)`. -/
theorem length_bounds (cf : CFlags) (mode : Mode) (code : List Byte) (hs : Insn)
    (h : Mode.Decode cf mode code = some (hs, none)) :
    1 ≤ hs.Length ∧ hs.Length ≤ min code.length 15 := by
  obtain ⟨c, p, hs0, hc, hcne, hhs, -⟩ := decode_ok_inv cf mode code hs h
  have h1 := congrArg List.length hc
  simp only [List.length_append, List.length_take] at h1
  have h2 : 0 < c.length := List.length_pos.mpr hcne
  have h3 : hs.Length = c.length := by rw [hhs]
  omega

theorem length_bounds_witness :
    Mode.Decode sampleCF (sampleMode false) [0xe9, 1, 2, 3, 4, 0x90] =
      some ({ Flags := 528, Length := 5, Opcode := 0xe9, Opcode2 := 0, REX := 0, ModRM := 0,
              SIB := 0, Imm := ⟨67305985, 32⟩, Disp := ⟨0, 0⟩ }, none) ∧
    1 ≤ 5 ∧ 5 ≤ min ([0xe9, 1, 2, 3, 4, 0x90] : List Byte).length 15 :=
  ⟨by decide, length_bounds sampleCF (sampleMode false) [0xe9, 1, 2, 3, 4, 0x90]
    { Flags := 528, Length := 5, Opcode := 0xe9, Opcode2 := 0, REX := 0, ModRM := 0,
      SIB := 0, Imm := ⟨67305985, 32⟩, Disp := ⟨0, 0⟩ } (by decide)⟩

/-- Claim C3: `Decode` looks at no more than the first 15 bytes. On an input
longer than 15 bytes it returns the instruction and the error that it returns on
the first 15 bytes. -/
theorem decode_clamps_to_15 (cf : CFlags) (mode : Mode) (code : List Byte)
    (_h : 15 < code.length) :
    Mode.Decode cf mode code = Mode.Decode cf mode (code.take 15) :=
  decode_take15 cf mode code

theorem decode_clamps_to_15_witness :
    15 < (List.replicate 16 (0x66 : Byte)).length ∧
    Mode.Decode sampleCF (sampleMode true) (List.replicate 16 0x66) =
      Mode.Decode sampleCF (sampleMode true) ((List.replicate 16 (0x66 : Byte)).take 15) :=
  ⟨by decide, decode_clamps_to_15 sampleCF (sampleMode true) _ (by decide)⟩

/-- Claim C4: `Decode` of the empty byte sequence returns `ErrLength` together
with the zero-valued `Insn` (`Length` 0, no flag set). -/
theorem decode_empty (cf : CFlags) (mode : Mode) :
    Mode.Decode cf mode [] = some (Insn.zero, some DecoderError.ErrLength) ∧
    Insn.zero.Length = 0 ∧ Insn.zero.Flags = 0 :=
  ⟨rfl, rfl, rfl⟩

/-- Claim C5: a truncated instruction is reported as `ErrLength`. If `Decode`
succeeds on `code` with `Length = n`, then on the first `k` bytes of `code`,
for every `k < n`, it returns `ErrLength`: not success, not one of the other
three errors, and no panic. -/
theorem truncated_is_length_error (cf : CFlags) (mode : Mode) (code : List Byte) (hs : Insn)
    (h : Mode.Decode cf mode code = some (hs, none)) (k : Nat) (hk : k < hs.Length) :
    ∃ hs', Mode.Decode cf mode (code.take k) = some (hs', some DecoderError.ErrLength) := by
  obtain ⟨c, p, hs0, hc, hcne, hhs, hr⟩ := decode_ok_inv cf mode code hs h
  have hlen : hs.Length = c.length := by rw [hhs]
  rw [hlen] at hk
  have hcl : c.length ≤ 15 := by
    have h1 := congrArg List.length hc
    simp only [List.length_append, List.length_take] at h1
    omega
  have htake : code.take k = c.take k := by
    have h2 : (code.take 15).take k = c.take k := by
      rw [hc, List.take_append_of_le_length (Nat.le_of_lt hk)]
    rw [List.take_take] at h2
    rwa [Nat.min_eq_left (by omega)] at h2
  rw [htake]
  by_cases hk0 : c.take k = []
  · rw [hk0]; exact ⟨Insn.zero, rfl⟩
  have hsplit : c.take k ++ c.drop k = c := List.take_append_drop k c
  have hdrop : c.drop k ≠ [] := by
    intro h0
    have := congrArg List.length h0
    simp only [List.length_drop, List.length_nil] at this
    omega
  have hfull : (decodeBody cf mode c).result? = some (hs0, []) := by
    simpa using hr []
  have hl15 : ((c.take k).take 15) = c.take k := by
    apply List.take_of_length_le
    simp only [List.length_take]; omega
  rw [decode_eq cf mode _ hk0, hl15]
  have hF := framed_decodeBody cf mode
  cases hb : decodeBody cf mode (c.take k) with
  | next st r =>
    exfalso
    obtain ⟨c1, hc1, hr1⟩ := hF.next _ st r hb
    have h3 := hr1 (r ++ c.drop k)
    rw [← List.append_assoc, ← hc1, hsplit] at h3
    rw [h3] at hfull
    simp only [Step.result?, Option.some.injEq, Prod.mk.injEq, List.append_eq_nil] at hfull
    exact hdrop hfull.2.2
  | done hs1 r =>
    exfalso
    obtain ⟨c1, hc1, hr1⟩ := hF.done _ hs1 r hb
    have h3 := hr1 (r ++ c.drop k)
    rw [← List.append_assoc, ← hc1, hsplit] at h3
    rw [h3] at hfull
    simp only [Step.result?, Option.some.injEq, Prod.mk.injEq, List.append_eq_nil] at hfull
    exact hdrop hfull.2.2
  | fail hs1 e =>
    by_cases he : e = DecoderError.ErrLength
    · subst he; exact ⟨hs1, rfl⟩
    · exfalso
      have h3 := hF.fail _ hs1 e hb he (c.drop k)
      rw [hsplit] at h3
      rw [h3] at hfull
      simp [Step.result?] at hfull
  | panic =>
    exfalso
    have h3 := hF.panic _ hb (c.drop k)
    rw [hsplit] at h3
    rw [h3] at hfull
    simp [Step.result?] at hfull

theorem truncated_is_length_error_witness :
    Mode.Decode sampleCF (sampleMode false) [0xe9, 1, 2, 3, 4, 0x90] =
      some ({ Flags := 528, Length := 5, Opcode := 0xe9, Opcode2 := 0, REX := 0, ModRM := 0,
              SIB := 0, Imm := ⟨67305985, 32⟩, Disp := ⟨0, 0⟩ }, none) ∧
    (3 < 5 ∧ ∃ hs', Mode.Decode sampleCF (sampleMode false)
      (([0xe9, 1, 2, 3, 4, 0x90] : List Byte).take 3) =
        some (hs', some DecoderError.ErrLength)) :=
  ⟨by decide, by decide,
    truncated_is_length_error sampleCF (sampleMode false) [0xe9, 1, 2, 3, 4, 0x90]
    { Flags := 528, Length := 5, Opcode := 0xe9, Opcode2 := 0, REX := 0, ModRM := 0,
      SIB := 0, Imm := ⟨67305985, 32⟩, Disp := ⟨0, 0⟩ } (by decide) 3 (by decide)⟩

/-! ## What accompanies an error, and the no-prefix marker -/

theorem foldl_add_testBit_zero (ids : List Nat) (h : ∀ i ∈ ids, i ≠ PreNone ∧ i ≤ 12) :
    ∀ p : Nat, (ids.foldl PrefixSet.Add p).testBit 0 = p.testBit 0 := by
  induction ids with
  | nil => intro p; rfl
  | cons a ids ih =>
    intro p
    rw [List.foldl_cons, ih (fun i hi => h i (List.mem_cons_of_mem _ hi))]
    have ha := (h a (List.mem_cons_self _ _)).1
    unfold PreNone at ha
    rw [testBit_add p a (by decide : 0 < 16)]
    simp [ha]

theorem pastPrefixes_length {code : List Byte} {hs : Insn} (h : PastPrefixes code hs) :
    hs.Length = 0 := by
  obtain ⟨ids, -, -, h3⟩ := h
  exact h3.1

theorem pastPrefixes_notPrefixed {code : List Byte} {hs : Insn} (h : PastPrefixes code hs) :
    hs.Flags.testBit 10 = false := by
  obtain ⟨ids, h1, -, h3⟩ := h
  rw [h3.2 10 (by decide) (by decide)]
  show (Flag.AddPrefixes 0 (ids.foldl PrefixSet.Add 0)).testBit 10 = false
  rw [testBit_addPrefixes _ _ (by decide) (by decide), foldl_add_testBit_zero ids h1]
  simp

theorem pastPrefixes_unprefixed {b : Byte} {rest : List Byte} {hs : Insn}
    (h : PastPrefixes (b :: rest) hs) (hb : PrefixToID b.val = PreNone) :
    ∀ i, 10 ≤ i → i ≠ 16 → hs.Flags.testBit i = false := by
  obtain ⟨ids, -, h2, h3⟩ := h
  have := h2 b rest rfl hb
  subst this
  intro i hi h16
  rw [h3.2 i hi h16]
  show (Flag.AddPrefixes 0 0).testBit i = false
  have : Flag.AddPrefixes 0 0 = 0 := by decide
  rw [this, Nat.zero_testBit]

theorem remove_rex_eq_zero (f : Nat) (h : ∀ i, 10 ≤ i → i ≠ 16 → f.testBit i = false) :
    PrefixSet.Remove (Flag.Prefixes f) PreREX = 0 := by
  apply Nat.eq_of_testBit_eq
  intro i
  rw [Nat.zero_testBit]
  by_cases hi : i < 16
  · rw [testBit_remove _ _ hi]
    unfold Flag.Prefixes prefixSetShift PreREX
    rw [Nat.testBit_mod_two_pow, Nat.testBit_shiftRight]
    by_cases h6 : 6 = i
    · simp [h6]
    · rw [h (10 + i) (by omega) (by omega)]
      simp
  · unfold PrefixSet.Remove andNot16 Flag.Prefixes
    rw [Nat.testBit_and, Nat.testBit_mod_two_pow]
    simp [hi]

/-- Whatever the mode and its table, the input `66 0F` ends in `ErrLength`
with the operand-size flag and the opcode already in the instruction: the
return at line 96 comes before the first table access. -/
theorem decode_opsize_escape (cf : CFlags) (mode : Mode) :
    Mode.Decode cf mode [0x66, 0x0f] =
      some ({ Flags := 0x2000, Length := 0, Opcode := 0x0f, Opcode2 := 0, REX := 0, ModRM := 0,
              SIB := 0, Imm := ⟨0, 0⟩, Disp := ⟨0, 0⟩ }, some DecoderError.ErrLength) := by
  obtain ⟨wide, table, a, b, c, d, e, f, g, h⟩ := mode
  cases wide <;> rfl

/-- Claim C6, counterexample: in both modes the input `66 0F` (an operand-size
prefix and the two-byte escape, then nothing) returns `ErrLength` together with
an instruction that has `HasOpSize` in `Flags` and `0x0F` in `Opcode`, which is
not the zero value. -/
theorem error_with_populated_insn :
    Mode.Decode sampleCF (sampleMode true) [0x66, 0x0f] =
      some ({ Flags := 0x2000, Length := 0, Opcode := 0x0f, Opcode2 := 0, REX := 0, ModRM := 0,
              SIB := 0, Imm := ⟨0, 0⟩, Disp := ⟨0, 0⟩ }, some DecoderError.ErrLength) ∧
    Mode.Decode sampleCF (sampleMode false) [0x66, 0x0f] =
      some ({ Flags := 0x2000, Length := 0, Opcode := 0x0f, Opcode2 := 0, REX := 0, ModRM := 0,
              SIB := 0, Imm := ⟨0, 0⟩, Disp := ⟨0, 0⟩ }, some DecoderError.ErrLength) ∧
    ({ Flags := 0x2000, Length := 0, Opcode := 0x0f, Opcode2 := 0, REX := 0, ModRM := 0,
       SIB := 0, Imm := ⟨0, 0⟩, Disp := ⟨0, 0⟩ } : Insn) ≠ Insn.zero ∧
    (0x2000 : Nat) &&& HasOpSize ≠ 0 := by
  decide

/-- Claim C6, amended: the instruction returned with an error has `Length = 0`
(`Length` is written on the two success exits only); its other fields hold what
had been decoded when the error was raised. -/
theorem error_insn_length_zero (cf : CFlags) (mode : Mode) (code : List Byte) (hs : Insn)
    (e : DecoderError) (h : Mode.Decode cf mode code = some (hs, some e)) :
    hs.Length = 0 := by
  rcases decode_pastPrefixes cf mode code hs (some e) h with ⟨-, rfl⟩ | ⟨hs0, n, hp, hc⟩
  · rfl
  · rcases hc with ⟨h0, -⟩ | ⟨-, rfl⟩
    · cases h0
    · exact pastPrefixes_length hp

theorem error_insn_length_zero_witness :
    Mode.Decode sampleCF (sampleMode true) [0xf0, 0x01, 0xc8] =
      some ({ Flags := 0x8001, Length := 0, Opcode := 0x01, Opcode2 := 0, REX := 0,
              ModRM := 0xc8, SIB := 0, Imm := ⟨0, 0⟩, Disp := ⟨0, 0⟩ },
            some DecoderError.ErrInvalidLock) ∧
    ({ Flags := 0x8001, Length := 0, Opcode := 0x01, Opcode2 := 0, REX := 0,
       ModRM := 0xc8, SIB := 0, Imm := ⟨0, 0⟩, Disp := ⟨0, 0⟩ } : Insn).Length = 0 :=
  ⟨by decide, error_insn_length_zero sampleCF (sampleMode true) [0xf0, 0x01, 0xc8]
    { Flags := 0x8001, Length := 0, Opcode := 0x01, Opcode2 := 0, REX := 0,
      ModRM := 0xc8, SIB := 0, Imm := ⟨0, 0⟩, Disp := ⟨0, 0⟩ }
    DecoderError.ErrInvalidLock (by decide)⟩

/-- Claim C7, counterexample: the one-byte input `90`, whose byte is not a
prefix, decodes with success and `Flags = 0`: the `NotPrefixed` bit is not set.
The table is the sample one; opcode `0x90` has the empty shape in it. -/
theorem unprefixed_without_marker :
    PrefixToID 0x90 = PreNone ∧
    Mode.Decode sampleCF (sampleMode true) [0x90] =
      some ({ Flags := 0, Length := 1, Opcode := 0x90, Opcode2 := 0, REX := 0, ModRM := 0,
              SIB := 0, Imm := ⟨0, 0⟩, Disp := ⟨0, 0⟩ }, none) ∧
    (0 : Nat) &&& NotPrefixed = 0 := by
  decide

/-- Claim C7, amended: the no-prefix marker stays in the decoder's local prefix
set and does not reach the result. On every input on which `Decode` succeeds the
`NotPrefixed` bit of `Flags` is clear, and when the first byte is not a prefix
byte the prefix sub-field of `Flags` holds no bit other than `HasREX`. -/
theorem notPrefixed_not_in_flags (cf : CFlags) (mode : Mode) (code : List Byte) (hs : Insn)
    (h : Mode.Decode cf mode code = some (hs, none)) :
    hs.Flags &&& NotPrefixed = 0 ∧
    ∀ b rest, code = b :: rest → PrefixToID b.val = PreNone →
      PrefixSet.Remove (Flag.Prefixes hs.Flags) PreREX = 0 := by
  rcases decode_pastPrefixes cf mode code hs none h with ⟨h0, -⟩ | ⟨hs0, n, hp, hc⟩
  · exact absurd rfl h0
  · rcases hc with ⟨-, rfl⟩ | ⟨h0, -⟩
    · constructor
      · have h1 := pastPrefixes_notPrefixed hp
        by_contra hne
        have h2 := (flag_and_ne_zero_iff hs0.Flags (by decide : PreNone < 22)).mp hne
        rw [show 10 + PreNone = 10 from rfl, h1] at h2
        cases h2
      · rintro b rest rfl hb
        exact remove_rex_eq_zero hs0.Flags (pastPrefixes_unprefixed hp hb)
    · exact absurd rfl h0

theorem notPrefixed_not_in_flags_witness :
    Mode.Decode sampleCF (sampleMode true) [0x48, 0x01, 0xc8] =
      some ({ Flags := 0x10001, Length := 3, Opcode := 0x01, Opcode2 := 0, REX := 0x48,
              ModRM := 0xc8, SIB := 0, Imm := ⟨0, 0⟩, Disp := ⟨0, 0⟩ }, none) ∧
    ((0x10001 : Nat) &&& NotPrefixed = 0 ∧
     ∀ b rest, ([0x48, 0x01, 0xc8] : List Byte) = b :: rest → PrefixToID b.val = PreNone →
      PrefixSet.Remove (Flag.Prefixes 0x10001) PreREX = 0) :=
  ⟨by decide, notPrefixed_not_in_flags sampleCF (sampleMode true) [0x48, 0x01, 0xc8]
    { Flags := 0x10001, Length := 3, Opcode := 0x01, Opcode2 := 0, REX := 0x48,
      ModRM := 0xc8, SIB := 0, Imm := ⟨0, 0⟩, Disp := ⟨0, 0⟩ } (by decide)⟩

/-! ## The LOCK contract of `Decode` -/

theorem hasLock_iff (f : Nat) : f &&& HasLock ≠ 0 ↔ f.testBit 15 = true :=
  flag_and_ne_zero_iff f (by decide : PreLock < 22)

theorem isModRM_iff (f : Nat) : f &&& IsModRM ≠ 0 ↔ f.testBit 0 = true :=
  and_two_pow_ne_zero_iff f 0

/-- A successful `Decode` with `HasLock` in `Flags` has a ModRM byte with
`ModRM.Mod() ≠ 3`. -/
theorem lock_success_memory_form (cf : CFlags) (mode : Mode) (code : List Byte) (hs : Insn)
    (h : Mode.Decode cf mode code = some (hs, none)) (hl : hs.Flags &&& HasLock ≠ 0) :
    hs.Flags &&& IsModRM ≠ 0 ∧ ModRM.Mod hs.ModRM ≠ 3 := by
  have hne : code ≠ [] := by
    rintro rfl
    simp only [Mode.Decode, List.length_nil, if_true, Option.some.injEq, Prod.mk.injEq] at h
    rw [← h.1] at hl
    exact hl (by decide)
  have h15 := (hasLock_iff hs.Flags).mp hl
  have h1 := decode_sat cf mode code hne (decodeBody_lock cf mode (code.take 15))
  rw [h] at h1
  have hm : LockMem hs := by
    obtain ⟨hs0, n, e1, (⟨st, rfl, hq⟩ | hr)⟩ := h1
    · rw [e1]; exact hq
    · rw [e1]; exact hr
  obtain ⟨g0, g3⟩ := hm h15
  exact ⟨(isModRM_iff _).mpr g0, g3⟩

/-! ## `PrefixSet.Add` and mutual exclusion -/

theorem has_add_segment (p pfx : Nat) {s : Nat} (h7 : 7 ≤ s) (h12 : s ≤ 12) :
    PrefixSet.Has (PrefixSet.Add p pfx) s =
      (decide (pfx = s) || (PrefixSet.Has p s && !decide (7 ≤ pfx ∧ pfx ≤ 12))) := by
  have hs : s < 16 := by omega
  rw [has_eq_testBit _ hs, has_eq_testBit _ hs, testBit_add _ _ hs]
  have e1 : decide (7 ≤ s ∧ s ≤ 12) = true := by simp [h7, h12]
  have e2 : decide (1 ≤ s ∧ s ≤ 2) = false := by
    simp only [decide_eq_false_iff_not]; omega
  rw [e1, e2]
  simp

theorem has_add_repeat (p pfx : Nat) {r : Nat} (h1 : 1 ≤ r) (h2 : r ≤ 2) :
    PrefixSet.Has (PrefixSet.Add p pfx) r =
      (decide (pfx = r) || (PrefixSet.Has p r && !decide (1 ≤ pfx ∧ pfx ≤ 2))) := by
  have hs : r < 16 := by omega
  rw [has_eq_testBit _ hs, has_eq_testBit _ hs, testBit_add _ _ hs]
  have e1 : decide (7 ≤ r ∧ r ≤ 12) = false := by
    simp only [decide_eq_false_iff_not]; omega
  have e2 : decide (1 ≤ r ∧ r ≤ 2) = true := by simp [h1, h2]
  rw [e1, e2]
  simp

theorem add_mutuallyExclusive (p pfx : Nat) (h : MutuallyExclusive p) :
    MutuallyExclusive (PrefixSet.Add p pfx) := by
  unfold MutuallyExclusive segmentIDs repeatIDs PreSegDS PreSegCS PreSegSS PreSegES PreSegFS
    PreSegGS PreRep PreRepNZ at *
  simp only [List.countP_cons, List.countP_nil] at h ⊢
  rw [has_add_segment p pfx (by decide : 7 ≤ 7) (by decide),
    has_add_segment p pfx (by decide : 7 ≤ 8) (by decide),
    has_add_segment p pfx (by decide : 7 ≤ 9) (by decide),
    has_add_segment p pfx (by decide : 7 ≤ 10) (by decide),
    has_add_segment p pfx (by decide : 7 ≤ 11) (by decide),
    has_add_segment p pfx (by decide : 7 ≤ 12) (by decide),
    has_add_repeat p pfx (by decide : 1 ≤ 2) (by decide),
    has_add_repeat p pfx (by decide : 1 ≤ 1) (by decide)]
  generalize PrefixSet.Has p 7 = a7 at h ⊢
  generalize PrefixSet.Has p 8 = a8 at h ⊢
  generalize PrefixSet.Has p 9 = a9 at h ⊢
  generalize PrefixSet.Has p 10 = a10 at h ⊢
  generalize PrefixSet.Has p 11 = a11 at h ⊢
  generalize PrefixSet.Has p 12 = a12 at h ⊢
  generalize PrefixSet.Has p 1 = r1 at h ⊢
  generalize PrefixSet.Has p 2 = r2 at h ⊢
  obtain ⟨hs, hr⟩ := h
  by_cases c1 : 7 ≤ pfx ∧ pfx ≤ 12
  · have c2 : ¬ (1 ≤ pfx ∧ pfx ≤ 2) := by omega
    have n1 : pfx ≠ 1 := by omega
    have n2 : pfx ≠ 2 := by omega
    simp only [c1, c2, n1, n2, and_self, decide_True, decide_False, Bool.not_true, Bool.not_false,
      Bool.and_false, Bool.and_true, Bool.or_false, Bool.false_or]
    refine ⟨?_, hr⟩
    obtain ⟨l, u⟩ := c1
    interval_cases pfx <;> simp
  · by_cases c2 : 1 ≤ pfx ∧ pfx ≤ 2
    · have n7 : pfx ≠ 7 := by omega
      have n8 : pfx ≠ 8 := by omega
      have n9 : pfx ≠ 9 := by omega
      have n10 : pfx ≠ 10 := by omega
      have n11 : pfx ≠ 11 := by omega
      have n12 : pfx ≠ 12 := by omega
      simp only [c1, c2, n7, n8, n9, n10, n11, n12, and_self, decide_True, decide_False,
        Bool.not_true, Bool.not_false, Bool.and_false, Bool.and_true, Bool.or_false,
        Bool.false_or]
      refine ⟨hs, ?_⟩
      obtain ⟨l, u⟩ := c2
      interval_cases pfx <;> simp
    · have n1 : pfx ≠ 1 := by omega
      have n2 : pfx ≠ 2 := by omega
      have n7 : pfx ≠ 7 := by omega
      have n8 : pfx ≠ 8 := by omega
      have n9 : pfx ≠ 9 := by omega
      have n10 : pfx ≠ 10 := by omega
      have n11 : pfx ≠ 11 := by omega
      have n12 : pfx ≠ 12 := by omega
      simp only [c1, c2, n1, n2, n7, n8, n9, n10, n11, n12, decide_False, Bool.not_false,
        Bool.and_true, Bool.false_or]
      exact ⟨hs, hr⟩

/-- Claim C9: mutual exclusion in a `PrefixSet`. The set built from the empty
set by `Add` over any finite sequence of identifiers (of any value) holds at
most one segment identifier and at most one of `PreRep`, `PreRepNZ`; and `Add`
keeps this property of any set that has it. -/
theorem prefixSet_mutual_exclusion :
    (∀ ids : List Nat, MutuallyExclusive (ids.foldl PrefixSet.Add 0)) ∧
    (∀ p pfx : Nat, MutuallyExclusive p → MutuallyExclusive (PrefixSet.Add p pfx)) := by
  refine ⟨?_, add_mutuallyExclusive⟩
  have key : ∀ (ids : List Nat) (p : Nat), MutuallyExclusive p →
      MutuallyExclusive (ids.foldl PrefixSet.Add p) := by
    intro ids
    induction ids with
    | nil => intro p hp; exact hp
    | cons a ids ih =>
      intro p hp
      exact ih _ (add_mutuallyExclusive p a hp)
  intro ids
  exact key ids 0 (by decide)

theorem prefixSet_mutual_exclusion_witness :
    MutuallyExclusive (PrefixSet.Add (PrefixSet.Add 0 PreSegDS) PreRep) ∧
    MutuallyExclusive
      (PrefixSet.Add (PrefixSet.Add (PrefixSet.Add 0 PreSegDS) PreRep) PreSegCS) ∧
    PrefixSet.Add (PrefixSet.Add (PrefixSet.Add 0 PreSegDS) PreRep) PreSegCS = 0x104 :=
  ⟨by decide, prefixSet_mutual_exclusion.2 _ PreSegCS (by decide), by decide⟩

/-! ## The streaming reads of `Literal` -/

theorem littleEndian_lt (bs : List Byte) : littleEndian bs < 256 ^ bs.length := by
  induction bs with
  | nil => simp [littleEndian]
  | cons b bs ih =>
    have hb := b.isLt
    simp only [littleEndian, List.length_cons, Nat.pow_succ]
    omega

theorem littleEndian_take_lt (bs : List Byte) (n : Nat) :
    littleEndian (bs.take n) < 256 ^ n := by
  refine Nat.lt_of_lt_of_le (littleEndian_lt _) (Nat.pow_le_pow_right (by decide) ?_)
  simp only [List.length_take]
  omega

/-- Claim C10: the streaming reads of `Literal` are all-or-nothing. For each
width `w` of 8, 16, 32 and 64 bits, every literal and every cursor: if the cursor
holds at least `w / 8` bytes, the read returns `true`, sets `Bits` to `w` and
`Value` to the little-endian value of the first `w / 8` bytes, and advances the
cursor by `w / 8` bytes; otherwise it returns `false` and leaves the literal
and the cursor as they were. -/
theorem literal_read_all_or_nothing (lit : Literal) (bb : List Byte) :
    (Literal.read8 lit bb =
      if 1 ≤ bb.length then (true, ⟨littleEndian (bb.take 1), 8⟩, bb.drop 1)
      else (false, lit, bb)) ∧
    (Literal.read16 lit bb =
      if 2 ≤ bb.length then (true, ⟨littleEndian (bb.take 2), 16⟩, bb.drop 2)
      else (false, lit, bb)) ∧
    (Literal.read32 lit bb =
      if 4 ≤ bb.length then (true, ⟨littleEndian (bb.take 4), 32⟩, bb.drop 4)
      else (false, lit, bb)) ∧
    (Literal.read64 lit bb =
      if 8 ≤ bb.length then (true, ⟨littleEndian (bb.take 8), 64⟩, bb.drop 8)
      else (false, lit, bb)) := by
  refine ⟨?_, ?_, ?_, ?_⟩
  · cases bb with
    | nil => rfl
    | cons b rest => simp [Literal.read8, littleEndian]
  · unfold Literal.read16
    have h := littleEndian_take_lt bb 2
    by_cases hl : bb.length < 2
    · have : ¬ 2 ≤ bb.length := by omega
      simp only [hl, this, if_true, if_false]
    · have : 2 ≤ bb.length := by omega
      simp only [hl, this, if_true, if_false]
      rw [Nat.mod_eq_of_lt (by simpa using h)]
  · unfold Literal.read32
    have h := littleEndian_take_lt bb 4
    by_cases hl : bb.length < 4
    · have : ¬ 4 ≤ bb.length := by omega
      simp only [hl, this, if_true, if_false]
    · have : 4 ≤ bb.length := by omega
      simp only [hl, this, if_true, if_false]
      rw [Nat.mod_eq_of_lt (by simpa using h)]
  · unfold Literal.read64
    have h := littleEndian_take_lt bb 8
    by_cases hl : bb.length < 8
    · have : ¬ 8 ≤ bb.length := by omega
      simp only [hl, this, if_true, if_false]
    · have : 8 ≤ bb.length := by omega
      simp only [hl, this, if_true, if_false]
      rw [Nat.mod_eq_of_lt (by simpa using h)]

/-! ## The accessors of `Literal` -/

theorem int_of_read (w v : Nat) (h0 : 0 < w) (hw : w < 64) (hv : v < 2 ^ w) :
    Literal.Int ⟨v, w⟩ = (twosComplement w v, true) := by
  have hb0 : w ≠ 0 := by omega
  have hb64 : w ≠ 64 := by omega
  have hs : (64 + 256 - w % 256) % 256 = 64 - w := by omega
  unfold Literal.Int
  simp only [hb0, hb64, if_false, hs]
  have hpow : 2 ^ w * 2 ^ (64 - w) = 2 ^ 64 := by
    rw [← Nat.pow_add]; congr 1; omega
  have hlt : v * 2 ^ (64 - w) < 2 ^ 64 := by
    rw [← hpow]
    exact Nat.mul_lt_mul_of_pos_right hv (Nat.pow_pos (by decide))
  have hpos : (0 : Int) < 2 ^ (64 - w) := by positivity
  rw [Nat.shiftLeft_eq, Nat.mod_eq_of_lt hlt]
  unfold toInt64 twosComplement
  rw [Nat.mod_eq_of_lt hlt]
  have hhalf : 2 ^ (w - 1) * 2 ^ (64 - w) = 2 ^ 63 := by
    rw [← Nat.pow_add]; congr 1; omega
  by_cases hc : v < 2 ^ (w - 1)
  · have : v * 2 ^ (64 - w) < 2 ^ 63 := by
      rw [← hhalf]
      exact Nat.mul_lt_mul_of_pos_right hc (Nat.pow_pos (by decide))
    simp only [this, hc, if_true]
    congr 1
    push_cast
    exact Int.mul_ediv_cancel _ (ne_of_gt hpos)
  · have : ¬ v * 2 ^ (64 - w) < 2 ^ 63 := by
      rw [← hhalf]
      intro h
      exact hc (Nat.lt_of_mul_lt_mul_right h)
    simp only [this, hc, if_false]
    congr 1
    have e : ((v * 2 ^ (64 - w) : Nat) : Int) - 2 ^ 64 = ((v : Int) - 2 ^ w) * 2 ^ (64 - w) := by
      have := congrArg (fun n : Nat => (n : Int)) hpow
      push_cast at this ⊢
      rw [sub_mul, this]
    rw [e]
    exact Int.mul_ediv_cancel _ (ne_of_gt hpos)

theorem int_of_read64 (v : Nat) (hv : v < 2 ^ 64) :
    Literal.Int ⟨v, 64⟩ = (twosComplement 64 v, true) := by
  unfold Literal.Int toInt64 twosComplement
  simp only [Nat.mod_eq_of_lt hv]
  norm_num

theorem read8_exact (lit : Literal) (bs : List Byte) (h : bs.length = 1) :
    Literal.read8 lit bs = (true, ⟨littleEndian bs, 8⟩, []) := by
  rcases bs with _ | ⟨a, _ | ⟨b, r⟩⟩
  · cases h
  · simp [Literal.read8, littleEndian]
  · simp at h

theorem read16_exact (lit : Literal) (bs : List Byte) (h : bs.length = 2) :
    Literal.read16 lit bs = (true, ⟨littleEndian bs, 16⟩, []) := by
  have hl := littleEndian_lt bs
  rw [h] at hl
  unfold Literal.read16
  simp only [h, Nat.lt_irrefl, if_false, List.take_of_length_le (Nat.le_of_eq h),
    List.drop_of_length_le (Nat.le_of_eq h)]
  rw [Nat.mod_eq_of_lt (by simpa using hl)]

theorem read32_exact (lit : Literal) (bs : List Byte) (h : bs.length = 4) :
    Literal.read32 lit bs = (true, ⟨littleEndian bs, 32⟩, []) := by
  have hl := littleEndian_lt bs
  rw [h] at hl
  unfold Literal.read32
  simp only [h, Nat.lt_irrefl, if_false, List.take_of_length_le (Nat.le_of_eq h),
    List.drop_of_length_le (Nat.le_of_eq h)]
  rw [Nat.mod_eq_of_lt (by simpa using hl)]

theorem read64_exact (lit : Literal) (bs : List Byte) (h : bs.length = 8) :
    Literal.read64 lit bs = (true, ⟨littleEndian bs, 64⟩, []) := by
  have hl := littleEndian_lt bs
  rw [h] at hl
  unfold Literal.read64
  simp only [h, Nat.lt_irrefl, if_false, List.take_of_length_le (Nat.le_of_eq h),
    List.drop_of_length_le (Nat.le_of_eq h)]
  rw [Nat.mod_eq_of_lt (by simpa using hl)]

/-- Claim C11: literal round trip with sign extension. For each width `w` of 8,
16, 32 and 64 bits and every sequence of `w / 8` bytes with little-endian value
`v`: `v < 2 ^ w`, the read of width `w` succeeds and empties the sequence, and on
the literal it leaves `Uint()` returns `(v, true)` and `Int()` returns
`(s, true)` with `s` the `w`-bit two's-complement reading of `v`. -/
theorem literal_round_trip (lit : Literal) (bs : List Byte) :
    (bs.length = 1 → ∃ l, Literal.read8 lit bs = (true, l, []) ∧ littleEndian bs < 2 ^ 8 ∧
      l.Uint = (littleEndian bs, true) ∧ l.Int = (twosComplement 8 (littleEndian bs), true)) ∧
    (bs.length = 2 → ∃ l, Literal.read16 lit bs = (true, l, []) ∧ littleEndian bs < 2 ^ 16 ∧
      l.Uint = (littleEndian bs, true) ∧ l.Int = (twosComplement 16 (littleEndian bs), true)) ∧
    (bs.length = 4 → ∃ l, Literal.read32 lit bs = (true, l, []) ∧ littleEndian bs < 2 ^ 32 ∧
      l.Uint = (littleEndian bs, true) ∧ l.Int = (twosComplement 32 (littleEndian bs), true)) ∧
    (bs.length = 8 → ∃ l, Literal.read64 lit bs = (true, l, []) ∧ littleEndian bs < 2 ^ 64 ∧
      l.Uint = (littleEndian bs, true) ∧ l.Int = (twosComplement 64 (littleEndian bs), true)) := by
  have hl := littleEndian_lt bs
  refine ⟨?_, ?_, ?_, ?_⟩
  · intro h
    rw [h] at hl
    exact ⟨_, read8_exact lit bs h, hl, rfl, int_of_read 8 _ (by decide) (by decide) hl⟩
  · intro h
    rw [h] at hl
    have hl' : littleEndian bs < 2 ^ 16 := by simpa using hl
    exact ⟨_, read16_exact lit bs h, hl', rfl, int_of_read 16 _ (by decide) (by decide) hl'⟩
  · intro h
    rw [h] at hl
    have hl' : littleEndian bs < 2 ^ 32 := by simpa using hl
    exact ⟨_, read32_exact lit bs h, hl', rfl, int_of_read 32 _ (by decide) (by decide) hl'⟩
  · intro h
    rw [h] at hl
    have hl' : littleEndian bs < 2 ^ 64 := by simpa using hl
    exact ⟨_, read64_exact lit bs h, hl', rfl, int_of_read64 _ hl'⟩

theorem literal_round_trip_witness :
    ([0x00, 0x80] : List Byte).length = 2 ∧
    twosComplement 16 (littleEndian [0x00, 0x80]) = -32768 ∧
    ∃ l, Literal.read16 Literal.zero [0x00, 0x80] = (true, l, []) ∧
      littleEndian [0x00, 0x80] < 2 ^ 16 ∧ l.Uint = (littleEndian [0x00, 0x80], true) ∧
      l.Int = (twosComplement 16 (littleEndian [0x00, 0x80]), true) :=
  ⟨rfl, by decide, (literal_round_trip Literal.zero [0x00, 0x80]).2.1 rfl⟩

/-- Claim C12, the code at the failing input: for the literal
`Literal{Value: 5, Bits: 0}` the method `Uint` returns `(5, false)`, where its
doc comment and the claim promise `(0, false)`; `Int` returns `(0, false)` for
every absent literal. -/
theorem uint_of_absent_keeps_value :
    Literal.Uint ⟨5, 0⟩ = (5, false) ∧ ∀ v : Nat, Literal.Int ⟨v, 0⟩ = (0, false) :=
  ⟨rfl, fun _ => rfl⟩

/-! ## The prefix accessors of `Insn` -/

theorem testBit_segPart (f i : Nat) :
    (Flag.Prefixes f &&& psetSegMask).testBit i =
      (decide (7 ≤ i ∧ i ≤ 12) && f.testBit (10 + i)) := by
  rw [Nat.testBit_and]
  by_cases hi : i < 16
  · rw [testBit_psetSegMask hi]
    unfold Flag.Prefixes prefixSetShift
    rw [Nat.testBit_mod_two_pow, Nat.testBit_shiftRight]
    simp [hi, Bool.and_comm]
  · have h1 : psetSegMask.testBit i = false :=
      Nat.testBit_lt_two_pow (Nat.lt_of_lt_of_le (by decide : psetSegMask < 2 ^ 13)
        (Nat.pow_le_pow_right (by decide) (by omega)))
    have h2 : ¬ (7 ≤ i ∧ i ≤ 12) := by omega
    simp [h1, h2]

theorem segPart_eq_zero (f : Nat) (h : ∀ i, 7 ≤ i → i ≤ 12 → f.testBit (10 + i) = false) :
    Flag.Prefixes f &&& psetSegMask = 0 := by
  apply Nat.eq_of_testBit_eq
  intro i
  rw [testBit_segPart, Nat.zero_testBit]
  by_cases hi : 7 ≤ i ∧ i ≤ 12
  · rw [h i hi.1 hi.2]; simp
  · simp [hi]

theorem segPart_eq_pow (f k : Nat) (h7 : 7 ≤ k) (h12 : k ≤ 12)
    (h : ∀ i, 7 ≤ i → i ≤ 12 → f.testBit (10 + i) = decide (k = i)) :
    Flag.Prefixes f &&& psetSegMask = 2 ^ k := by
  apply Nat.eq_of_testBit_eq
  intro i
  rw [testBit_segPart, Nat.testBit_two_pow]
  by_cases hi : 7 ≤ i ∧ i ≤ 12
  · rw [h i hi.1 hi.2]; simp [hi]
  · have : k ≠ i := by omega
    simp [hi, this]

theorem segFlag_iff (f : Nat) {s : Nat} (hs : s ≤ 12) :
    decide (f &&& flagBit s ≠ 0) = f.testBit (10 + s) := by
  have := flag_and_ne_zero_iff f (by omega : s < 22)
  by_cases h : f.testBit (10 + s) = true
  · rw [h]; simpa using this.mpr h
  · have h' : f.testBit (10 + s) = false := by simpa using h
    rw [h']
    have : ¬ (f &&& flagBit s ≠ 0) := fun hne => h (this.mp hne)
    simpa using this

theorem toCgo_seg (f : Nat) :
    (ToCgoFlags f).2 =
      if f.testBit 18 then PRE_SEG_CS else if f.testBit 19 then PRE_SEG_SS
      else if f.testBit 17 then PRE_SEG_DS else if f.testBit 20 then PRE_SEG_ES
      else if f.testBit 21 then PRE_SEG_FS else if f.testBit 22 then PRE_SEG_GS else 0 := by
  have cs := flag_and_ne_zero_iff f (by decide : PreSegCS < 22)
  have ss := flag_and_ne_zero_iff f (by decide : PreSegSS < 22)
  have ds := flag_and_ne_zero_iff f (by decide : PreSegDS < 22)
  have es := flag_and_ne_zero_iff f (by decide : PreSegES < 22)
  have fs := flag_and_ne_zero_iff f (by decide : PreSegFS < 22)
  have gs := flag_and_ne_zero_iff f (by decide : PreSegGS < 22)
  rw [show 10 + PreSegCS = 18 from rfl] at cs
  rw [show 10 + PreSegSS = 19 from rfl] at ss
  rw [show 10 + PreSegDS = 17 from rfl] at ds
  rw [show 10 + PreSegES = 20 from rfl] at es
  rw [show 10 + PreSegFS = 21 from rfl] at fs
  rw [show 10 + PreSegGS = 22 from rfl] at gs
  unfold ToCgoFlags
  dsimp only
  simp only [show HasSegCS = flagBit PreSegCS from rfl, show HasSegSS = flagBit PreSegSS from rfl,
    show HasSegDS = flagBit PreSegDS from rfl, show HasSegES = flagBit PreSegES from rfl,
    show HasSegFS = flagBit PreSegFS from rfl, show HasSegGS = flagBit PreSegGS from rfl,
    cs, ss, ds, es, fs, gs]
  split_ifs <;> rfl

/-- The segment byte of the accessor and the one of `ToCgoFlags` agree on flags
with at most one segment bit. -/
theorem segment_byte_agrees (f : Nat) (h : AtMostOneSegment f) :
    Segment.Prefix (Flag.Segment f) = (ToCgoFlags f).2 := by
  rw [toCgo_seg]
  unfold Flag.Segment PrefixSet.Segment
  unfold AtMostOneSegment segmentIDs at h
  simp only [List.countP_cons, List.countP_nil] at h
  rw [segFlag_iff f (by decide : PreSegDS ≤ 12), segFlag_iff f (by decide : PreSegCS ≤ 12),
    segFlag_iff f (by decide : PreSegSS ≤ 12), segFlag_iff f (by decide : PreSegES ≤ 12),
    segFlag_iff f (by decide : PreSegFS ≤ 12), segFlag_iff f (by decide : PreSegGS ≤ 12)] at h
  simp only [show 10 + PreSegDS = 17 from rfl, show 10 + PreSegCS = 18 from rfl,
    show 10 + PreSegSS = 19 from rfl, show 10 + PreSegES = 20 from rfl,
    show 10 + PreSegFS = 21 from rfl, show 10 + PreSegGS = 22 from rfl] at h
  cases h17 : f.testBit 17 <;> cases h18 : f.testBit 18 <;> cases h19 : f.testBit 19 <;>
    cases h20 : f.testBit 20 <;> cases h21 : f.testBit 21 <;> cases h22 : f.testBit 22 <;>
    simp only [h17, h18, h19, h20, h21, h22] at h <;>
    first
    | (exfalso; revert h; decide)
    | (rw [segPart_eq_zero f (by intro i h7 h12; interval_cases i <;> simp [*])]; decide)
    | (rw [segPart_eq_pow f 7 (by decide) (by decide)
        (by intro i h7 h12; interval_cases i <;> simp [*])]; decide)
    | (rw [segPart_eq_pow f 8 (by decide) (by decide)
        (by intro i h7 h12; interval_cases i <;> simp [*])]; decide)
    | (rw [segPart_eq_pow f 9 (by decide) (by decide)
        (by intro i h7 h12; interval_cases i <;> simp [*])]; decide)
    | (rw [segPart_eq_pow f 10 (by decide) (by decide)
        (by intro i h7 h12; interval_cases i <;> simp [*])]; decide)
    | (rw [segPart_eq_pow f 11 (by decide) (by decide)
        (by intro i h7 h12; interval_cases i <;> simp [*])]; decide)
    | (rw [segPart_eq_pow f 12 (by decide) (by decide)
        (by intro i h7 h12; interval_cases i <;> simp [*])]; decide)

theorem foldl_add_mutuallyExclusive (ids : List Nat) :
    ∀ p : Nat, MutuallyExclusive p → MutuallyExclusive (ids.foldl PrefixSet.Add p) := by
  induction ids with
  | nil => intro p hp; exact hp
  | cons a ids ih =>
    intro p hp
    exact ih _ (add_mutuallyExclusive p a hp)

theorem pastPrefixes_atMostOneSegment {code : List Byte} {hs : Insn}
    (h : PastPrefixes code hs) : AtMostOneSegment hs.Flags := by
  obtain ⟨ids, -, -, h3⟩ := h
  have hm := (foldl_add_mutuallyExclusive ids 0 (by decide)).1
  unfold AtMostOneSegment
  have e : segmentIDs.countP (fun s => decide (hs.Flags &&& flagBit s ≠ 0)) =
      segmentIDs.countP (PrefixSet.Has (ids.foldl PrefixSet.Add 0)) := by
    apply List.countP_congr
    intro s hs'
    have hs7 : 7 ≤ s ∧ s ≤ 12 := by
      unfold segmentIDs at hs'
      simp only [List.mem_cons, List.mem_singleton, List.mem_nil_iff, or_false] at hs'
      rcases hs' with rfl | rfl | rfl | rfl | rfl | rfl <;> decide
    rw [segFlag_iff _ hs7.2, has_eq_testBit _ (by omega : s < 16),
      h3.2 (10 + s) (by omega) (by omega)]
    show (Flag.AddPrefixes 0 (ids.foldl PrefixSet.Add 0)).testBit (10 + s) = true ↔ _
    rw [testBit_addPrefixes _ _ (by omega) (by omega), Nat.zero_testBit, Bool.false_or,
      Nat.add_sub_cancel_left]
  rw [e]
  exact hm

/-- Claim C13: the segment-prefix accessor agrees with the flag translation of
the test oracle. For every instruction whose `Flags` have at most one segment
bit, `SegmentPrefix()` is the segment byte that `ToCgoFlags` computes from the
same `Flags`; and the `Flags` of every instruction that `Decode` returns with
success have at most one segment bit, so the two agree on them. -/
theorem segment_prefix_matches_oracle :
    (∀ insn : Insn, AtMostOneSegment insn.Flags →
      insn.SegmentPrefix = (ToCgoFlags insn.Flags).2) ∧
    (∀ (cf : CFlags) (mode : Mode) (code : List Byte) (hs : Insn),
      Mode.Decode cf mode code = some (hs, none) →
        AtMostOneSegment hs.Flags ∧ hs.SegmentPrefix = (ToCgoFlags hs.Flags).2) := by
  constructor
  · intro insn h
    exact segment_byte_agrees insn.Flags h
  · intro cf mode code hs h
    have hone : AtMostOneSegment hs.Flags := by
      rcases decode_pastPrefixes cf mode code hs none h with ⟨h0, -⟩ | ⟨hs0, n, hp, hc⟩
      · exact absurd rfl h0
      · rcases hc with ⟨-, rfl⟩ | ⟨h0, -⟩
        · exact @pastPrefixes_atMostOneSegment code hs0 hp
        · exact absurd rfl h0
    exact ⟨hone, segment_byte_agrees hs.Flags hone⟩

theorem segment_prefix_matches_oracle_witness :
    (AtMostOneSegment ({ Insn.zero with Flags := HasSegFS ||| HasLock } : Insn).Flags ∧
      ({ Insn.zero with Flags := HasSegFS ||| HasLock } : Insn).SegmentPrefix =
        (ToCgoFlags ({ Insn.zero with Flags := HasSegFS ||| HasLock } : Insn).Flags).2 ∧
      ({ Insn.zero with Flags := HasSegFS ||| HasLock } : Insn).SegmentPrefix = 0x64) ∧
    (Mode.Decode sampleCF (sampleMode true) [0x2e, 0x65, 0x90] =
      some ({ Flags := 0x400000, Length := 3, Opcode := 0x90, Opcode2 := 0, REX := 0,
              ModRM := 0, SIB := 0, Imm := ⟨0, 0⟩, Disp := ⟨0, 0⟩ }, none) ∧
      AtMostOneSegment (0x400000 : Nat) ∧
      ({ Flags := 0x400000, Length := 3, Opcode := 0x90, Opcode2 := 0, REX := 0,
         ModRM := 0, SIB := 0, Imm := ⟨0, 0⟩, Disp := ⟨0, 0⟩ } : Insn).SegmentPrefix =
        (ToCgoFlags 0x400000).2) :=
  ⟨⟨by decide, segment_prefix_matches_oracle.1 _ (by decide), by decide⟩,
   by decide, segment_prefix_matches_oracle.2 sampleCF (sampleMode true) [0x2e, 0x65, 0x90]
    { Flags := 0x400000, Length := 3, Opcode := 0x90, Opcode2 := 0, REX := 0,
      ModRM := 0, SIB := 0, Imm := ⟨0, 0⟩, Disp := ⟨0, 0⟩ } (by decide)⟩

theorem prefix_bytes_table : ∀ b : Byte,
    (PrefixToID b.val ≠ PreNone ↔ b.val ∈ prefixBytes) ∧
    (b.val ∈ prefixBytes →
      prefixAccessors (Flag.AddPrefixes 0 (PrefixSet.Add 0 (PrefixToID b.val))) =
        expectedAccessors b.val) := by
  decide

/-- Claim C14: prefix byte round trip. `PrefixToID(b)` differs from `PreNone`
exactly for the eleven prefix bytes, and for each of them an instruction whose
`Flags` is `Flag(0).AddPrefixes(PrefixSet(0).Add(PrefixToID(b)))` returns `b`
from the accessor of the class of `b` (segment, repeat, lock, operand size,
address size) and 0 from the other four accessors. -/
theorem prefix_byte_round_trip (b : Byte) :
    (PrefixToID b.val ≠ PreNone ↔ b.val ∈ prefixBytes) ∧
    ∀ insn : Insn, b.val ∈ prefixBytes →
      insn.Flags = Flag.AddPrefixes 0 (PrefixSet.Add 0 (PrefixToID b.val)) →
      insn.SegmentPrefix = (if b.val ∈ [0x26, 0x2e, 0x36, 0x3e, 0x64, 0x65] then b.val else 0) ∧
      insn.RepPrefix = (if b.val ∈ [0xf2, 0xf3] then b.val else 0) ∧
      insn.LockPrefix = (if b.val = 0xf0 then b.val else 0) ∧
      insn.OpSizePrefix = (if b.val = 0x66 then b.val else 0) ∧
      insn.AddrSizePrefix = (if b.val = 0x67 then b.val else 0) := by
  obtain ⟨h1, h2⟩ := prefix_bytes_table b
  refine ⟨h1, ?_⟩
  intro insn hb hf
  have h3 := h2 hb
  unfold prefixAccessors expectedAccessors at h3
  simp only [Prod.mk.injEq] at h3
  obtain ⟨e1, e2, e3, e4, e5⟩ := h3
  unfold Insn.SegmentPrefix Insn.RepPrefix Insn.LockPrefix Insn.OpSizePrefix
    Insn.AddrSizePrefix at *
  rw [hf]
  exact ⟨e1, e2, e3, e4, e5⟩

theorem prefix_byte_round_trip_witness :
    (0xf3 : Byte).val ∈ prefixBytes ∧
    ({ Insn.zero with Flags := HasRep } : Insn).Flags =
      Flag.AddPrefixes 0 (PrefixSet.Add 0 (PrefixToID (0xf3 : Byte).val)) ∧
    ({ Insn.zero with Flags := HasRep } : Insn).RepPrefix = 0xf3 ∧
    ({ Insn.zero with Flags := HasRep } : Insn).SegmentPrefix = 0 :=
  ⟨by decide, by decide,
    by
      have h := (prefix_byte_round_trip 0xf3).2 { Insn.zero with Flags := HasRep }
        (by decide) (by decide)
      exact h.2.1.trans (by decide),
    by
      have h := (prefix_byte_round_trip 0xf3).2 { Insn.zero with Flags := HasRep }
        (by decide) (by decide)
      exact h.1.trans (by decide)⟩


/-! ## The prefix loop, exactly -/

theorem prefixLoop_exact : ∀ (p : List Byte) (x : Nat) (st : St), p.length < x →
    prefixLoop x st p =
      match p.dropWhile (fun b => PrefixToID b.val != PreNone) with
      | [] => .fail st.hs .ErrLength
      | b :: r => .next { st with c := b.val,
                                  pref := (leadingPrefixes p).foldl PrefixSet.Add st.pref } r := by
  intro p
  induction p with
  | nil =>
    intro x st hx
    cases x with
    | zero => cases hx
    | succ x => rfl
  | cons b rest ih =>
    intro x st hx
    cases x with
    | zero => cases hx
    | succ x =>
      have hx' : rest.length < x := by simpa using hx
      simp only [prefixLoop, nextByte]
      by_cases hb : PrefixToID b.val = PreNone
      · simp [hb, leadingPrefixes, leadingPrefixBytes, List.dropWhile, List.takeWhile]
      · have hb' : (PrefixToID b.val != PreNone) = true := by simpa using hb
        rw [if_neg hb, ih x _ hx']
        simp only [List.dropWhile, hb', leadingPrefixes, leadingPrefixBytes, List.takeWhile,
          List.map_cons, List.foldl_cons]

theorem prefixToID_of_mem (b : Byte) : PrefixToID b.val ≠ PreNone ↔ b.val ∈ prefixBytes :=
  (prefix_bytes_table b).1

theorem dropWhile_prefix_bytes (pfx : List Byte) (hp : ∀ b ∈ pfx, b.val ∈ prefixBytes)
    (r : Byte) (hr : PrefixToID r.val = PreNone) (t : List Byte) :
    (pfx ++ r :: t).dropWhile (fun b => PrefixToID b.val != PreNone) = r :: t ∧
    leadingPrefixBytes (pfx ++ r :: t) = pfx := by
  induction pfx with
  | nil => simp [List.dropWhile, leadingPrefixBytes, List.takeWhile, hr]
  | cons a pfx ih =>
    have ha : (PrefixToID a.val != PreNone) = true := by
      simpa using (prefixToID_of_mem a).mpr (hp a (List.mem_cons_self _ _))
    obtain ⟨h1, h2⟩ := ih (fun b hb => hp b (List.mem_cons_of_mem _ hb))
    unfold leadingPrefixBytes at h2 ⊢
    simp only [List.cons_append, List.dropWhile_cons, List.takeWhile_cons, ha, if_true, h1, h2,
      and_self]

theorem decodeBody_of_loop_fail (cf : CFlags) (mode : Mode) (code : List Byte) (hs : Insn)
    (e : DecoderError) (h : prefixLoop 16 St.init code = .fail hs e) :
    decodeBody cf mode code = .fail hs e := by
  unfold decodeBody
  rw [h]
  rfl

theorem decodeBody_of_rex_fail (cf : CFlags) (mode : Mode) (code : List Byte) (st : St)
    (r : List Byte) (hs : Insn) (e : DecoderError)
    (h : prefixLoop 16 St.init code = .next st r)
    (h2 : rexPhase mode (afterPrefixes st) r = .fail hs e) :
    decodeBody cf mode code = .fail hs e := by
  unfold decodeBody
  rw [h]
  simp only [Step.andThen, h2]

theorem take15_length (code : List Byte) : (code.take 15).length < 16 := by
  simp only [List.length_take]; omega

/-- Claim C19: an input made only of prefix bytes is a length error. If every
one of the first `min(len, 15)` bytes of a non-empty input is one of the eleven
prefix bytes, `Decode` returns `ErrLength` (with the zero instruction); and on
no input does the bound of 16 iterations end the prefix loop: the loop over the
clamped input gives the same outcome under any greater bound. -/
theorem only_prefixes_is_length_error (cf : CFlags) (mode : Mode) (code : List Byte)
    (hne : code ≠ []) (hall : ∀ b ∈ code.take 15, b.val ∈ prefixBytes) :
    Mode.Decode cf mode code = some (Insn.zero, some DecoderError.ErrLength) ∧
    ∀ (input : List Byte) (n : Nat), 16 ≤ n →
      prefixLoop n St.init (input.take 15) = prefixLoop 16 St.init (input.take 15) := by
  constructor
  · rw [decode_eq cf mode code hne]
    have hd : (code.take 15).dropWhile (fun b => PrefixToID b.val != PreNone) = [] := by
      rw [List.dropWhile_eq_nil_iff]
      intro b hb
      simpa using (prefixToID_of_mem b).mpr (hall b hb)
    have hl := prefixLoop_exact (code.take 15) 16 St.init (take15_length code)
    rw [hd] at hl
    rw [decodeBody_of_loop_fail cf mode _ _ _ hl]
    rfl
  · intro input n hn
    rw [prefixLoop_exact _ n St.init (Nat.lt_of_lt_of_le (take15_length input) hn),
      prefixLoop_exact _ 16 St.init (take15_length input)]

theorem only_prefixes_is_length_error_witness :
    (List.replicate 20 (0x66 : Byte)) ≠ [] ∧
    (∀ b ∈ (List.replicate 20 (0x66 : Byte)).take 15, b.val ∈ prefixBytes) ∧
    Mode.Decode sampleCF (sampleMode true) (List.replicate 20 0x66) =
      some (Insn.zero, some DecoderError.ErrLength) :=
  ⟨by decide, by decide,
    (only_prefixes_is_length_error sampleCF (sampleMode true) (List.replicate 20 0x66)
      (by decide) (by decide)).1⟩

theorem rex_shaped_is_no_prefix_byte : ∀ b : Byte, b.val &&& 0xf0 = 0x40 → PrefixToID b.val = PreNone := by
  decide

theorem decodeBody_double_rex (cf : CFlags) (mode : Mode) (hl : mode.long = true)
    (code : List Byte) (st : St) (r2 : Byte) (t : List Byte)
    (hloop : prefixLoop 16 St.init code = .next st (r2 :: t))
    (h1 : st.c &&& 0xf0 = 0x40) (h2 : r2.val &&& 0xf0 = 0x40) :
    ∃ hs, decodeBody cf mode code = .fail hs .ErrUnknownOpcode := by
  have hc : (afterPrefixes st).c = st.c := rfl
  have hrex : ∃ hs, rexPhase mode (afterPrefixes st) (r2 :: t) =
      .fail hs .ErrUnknownOpcode := by
    unfold rexPhase
    rw [hc]
    simp only [hl, h1, h2, if_true]
    exact ⟨_, rfl⟩
  obtain ⟨hs, hrex⟩ := hrex
  exact ⟨hs, decodeBody_of_rex_fail cf mode code st _ hs _ hloop hrex⟩

theorem decode_double_rex (cf : CFlags) (mode : Mode) (hl : mode.long = true)
    (pfx : List Byte) (hp : ∀ b ∈ pfx, b.val ∈ prefixBytes) (hlen : pfx.length ≤ 13)
    (r1 r2 : Byte) (h1 : r1.val &&& 0xf0 = 0x40) (h2 : r2.val &&& 0xf0 = 0x40)
    (rest : List Byte) :
    ∃ hs, Mode.Decode cf mode (pfx ++ r1 :: r2 :: rest) =
      some (hs, some DecoderError.ErrUnknownOpcode) := by
  have hne : pfx ++ r1 :: r2 :: rest ≠ [] := by simp
  have ht : (pfx ++ r1 :: r2 :: rest).take 15 = pfx ++ r1 :: r2 :: rest.take (13 - pfx.length) := by
    rw [List.take_append_eq_append_take, List.take_of_length_le (by omega)]
    have : 15 - pfx.length = (13 - pfx.length) + 1 + 1 := by omega
    rw [this, List.take_succ_cons, List.take_succ_cons]
  rw [decode_eq cf mode _ hne, ht]
  have hlt : (pfx ++ r1 :: r2 :: rest.take (13 - pfx.length)).length < 16 := by
    simp only [List.length_append, List.length_cons, List.length_take]
    omega
  have hloop := prefixLoop_exact _ 16 St.init hlt
  rw [(dropWhile_prefix_bytes pfx hp r1 (rex_shaped_is_no_prefix_byte r1 h1) _).1] at hloop
  obtain ⟨hs, hb⟩ := decodeBody_double_rex cf mode hl _ _ r2 _ hloop h1 h2
  rw [hb]
  exact ⟨_, rfl⟩


/-! ## The instruction along `Decode`, field by field -/

theorem andNot16_lt (p m : Nat) (hp : p < 2 ^ 16) : andNot16 p m < 2 ^ 16 :=
  Nat.lt_of_le_of_lt Nat.and_le_left hp

theorem add_lt (p pfx : Nat) (hp : p < 2 ^ 16) : PrefixSet.Add p pfx < 2 ^ 16 := by
  unfold PrefixSet.Add
  dsimp only
  apply Nat.or_lt_two_pow
  · split_ifs
    · exact andNot16_lt _ _ (andNot16_lt _ _ hp)
    · exact andNot16_lt _ _ hp
    · exact andNot16_lt _ _ hp
    · exact hp
  · exact Nat.mod_lt _ (by decide)

theorem foldl_add_lt (ids : List Nat) : ∀ p, p < 2 ^ 16 →
    ids.foldl PrefixSet.Add p < 2 ^ 16 := by
  induction ids with
  | nil => intro p hp; exact hp
  | cons a rest ih => intro p hp; exact ih _ (add_lt p a hp)

theorem foldl_add_rex (ids : List Nat) (h : ∀ i ∈ ids, i ≠ PreREX) : ∀ p,
    (ids.foldl PrefixSet.Add p).testBit 6 = p.testBit 6 := by
  induction ids with
  | nil => intro p; rfl
  | cons a rest ih =>
    intro p
    have ha : a ≠ 6 := h a (List.mem_cons_self _ _)
    rw [List.foldl_cons, ih (fun i hi => h i (List.mem_cons_of_mem _ hi)),
      testBit_add p a (by decide : 6 < 16)]
    simp [ha]

theorem prefixToID_ne_rex : ∀ b : Byte, PrefixToID b.val ≠ PreREX := by
  decide

theorem leadingPrefixes_ne_rex (code : List Byte) : ∀ i ∈ leadingPrefixes code, i ≠ PreREX := by
  intro i hi
  unfold leadingPrefixes at hi
  obtain ⟨b, -, rfl⟩ := List.mem_map.mp hi
  exact prefixToID_ne_rex b

theorem rexOk_of_eq {long : Bool} {a b : Insn} (h : RexOk long a)
    (hf : b.Flags.testBit 16 = a.Flags.testBit 16) (hr : b.REX = a.REX) : RexOk long b := by
  unfold RexOk at h ⊢
  rw [hf, hr]
  exact h

theorem early_of_eq {long : Bool} {P : Nat} {st st' : St} (h : Early long P st)
    (e1 : st'.hs = st.hs) (e2 : st'.pref = st.pref) : Early long P st' :=
  ⟨by rw [e1]; exact h.pfx, by rw [e1]; exact h.low, by rw [e1]; exact h.rex,
    by rw [e1]; exact h.len, by rw [e1]; exact h.modrm, by rw [e1]; exact h.sib,
    by rw [e1]; exact h.imm, by rw [e1]; exact h.disp, by rw [e2]; exact h.pref⟩

/-- Line 69 onward starts from the prefix bits of the loop and nothing else. -/
theorem early_afterPrefixes (long : Bool) (st : St) (h0 : st.hs = Insn.zero)
    (h6 : st.pref.testBit 6 = false) :
    Early long st.pref (afterPrefixes st) ∧ (afterPrefixes st).hs.Opcode2 = 0 := by
  have hf : (afterPrefixes st).hs.Flags = Flag.AddPrefixes 0 st.pref := by
    show Flag.AddPrefixes st.hs.Flags st.pref = _
    rw [h0]; rfl
  have h16 : (afterPrefixes st).hs.Flags.testBit 16 = false := by
    rw [hf, testBit_addPrefixes 0 st.pref (by decide) (by decide)]
    simp [h6]
  refine ⟨⟨?_, ?_, ?_, ?_, ?_, ?_, ?_, ?_, ?_⟩, ?_⟩
  · intro i _ _; rw [hf]
  · intro i hi
    rw [hf, testBit_addPrefixes_low 0 st.pref hi, Nat.zero_testBit]
  · refine ⟨fun h => ?_, fun _ => ?_⟩
    · rw [h16] at h; cases h
    · show st.hs.REX = 0
      rw [h0]; rfl
  · show st.hs.Length = 0
    rw [h0]; rfl
  · show st.hs.ModRM = 0
    rw [h0]; rfl
  · show st.hs.SIB = 0
    rw [h0]; rfl
  · show st.hs.Imm = Literal.zero
    rw [h0]; rfl
  · show st.hs.Disp = Literal.zero
    rw [h0]; rfl
  · intro i hi hi0 _
    show (if st.pref = 0 then PrefixSet.Add st.pref PreNone else st.pref).testBit i = _
    split_ifs with hz
    · rw [testBit_add _ _ hi, hz]
      have : ¬ (PreNone = i) := fun h => hi0 h.symm
      simp [this]
    · rfl
  · show st.hs.Opcode2 = 0
    rw [h0]; rfl

theorem early_rexPhase (mode : Mode) (P : Nat) (st : St) (p : List Byte)
    (h : Early mode.long P st ∧ st.hs.Opcode2 = 0) :
    Step.Sat (fun st' => Early mode.long P st' ∧ st'.hs.Opcode2 = 0) (fun _ => False)
      (fun hs _ => hs.Flags.testBit 0 = false ∧ RexOk mode.long hs) (rexPhase mode st p) := by
  have hrex : ∀ hs : Insn, hs.Flags = st.hs.Flags ||| HasREX → hs.REX = st.c →
      mode.long = true → st.c &&& 0xf0 = 0x40 → RexOk mode.long hs := by
    intro hs hf hr hl hc
    have h16 : hs.Flags.testBit 16 = true := by
      rw [hf, Nat.testBit_or]
      have : HasREX.testBit 16 = true := by decide
      rw [this, Bool.or_true]
    refine ⟨fun _ => ⟨hl, by rw [hr]; exact hc⟩, fun hn => ?_⟩
    rw [h16] at hn; cases hn
  have herr : ∀ hs : Insn, hs.Flags = st.hs.Flags ||| HasREX → hs.REX = st.c →
      mode.long = true → st.c &&& 0xf0 = 0x40 →
      hs.Flags.testBit 0 = false ∧ RexOk mode.long hs := by
    intro hs hf hr hl hc
    refine ⟨?_, hrex hs hf hr hl hc⟩
    rw [hf, testBit_or_HasREX _ (by decide)]
    exact h.1.low 0 (by decide)
  have hnext : ∀ (o : Bool) (c : Nat), mode.long = true → st.c &&& 0xf0 = 0x40 →
      Early mode.long P
        { st with hs := { st.hs with Flags := st.hs.Flags ||| HasREX, REX := st.c },
                  op64 := o, c := c } := by
    intro o c hl hc
    refine ⟨?_, ?_, hrex _ rfl rfl hl hc, h.1.len, h.1.modrm, h.1.sib, h.1.imm,
      h.1.disp, h.1.pref⟩
    · intro i hi h16
      show (st.hs.Flags ||| HasREX).testBit i = _
      rw [testBit_or_HasREX _ h16]
      exact h.1.pfx i hi h16
    · intro i hi
      show (st.hs.Flags ||| HasREX).testBit i = _
      rw [testBit_or_HasREX _ (by omega)]
      exact h.1.low i hi
  unfold rexPhase
  split_ifs with hl hc
  · cases p with
    | nil => exact herr _ rfl rfl hl hc
    | cons b rest =>
      dsimp only
      split_ifs
      all_goals first
        | exact herr _ rfl rfl hl hc
        | exact ⟨hnext _ _ hl hc, h.2⟩
  · exact h
  · exact h

theorem early_opcodePhase (mode : Mode) (long : Bool) (P : Nat) (st : St) (p : List Byte)
    (h : Early long P st ∧ st.hs.Opcode2 = 0) :
    Step.Sat
      (fun st' => Early long P st' ∧ (st'.hs.Opcode ≠ 0x0f → st'.hs.Opcode2 = 0) ∧
        st'.c = effOpcode st'.hs)
      (fun _ => False) (fun hs _ => hs.Flags.testBit 0 = false ∧ RexOk long hs)
      (opcodePhase mode st p) := by
  have hE : ∀ st' : St, st'.hs.Flags = st.hs.Flags → st'.hs.Length = st.hs.Length →
      st'.hs.REX = st.hs.REX → st'.hs.ModRM = st.hs.ModRM → st'.hs.SIB = st.hs.SIB →
      st'.hs.Imm = st.hs.Imm → st'.hs.Disp = st.hs.Disp →
      (∀ i, i < 16 → i ≠ 0 → i ≠ 3 → st'.pref.testBit i = st.pref.testBit i) →
      Early long P st' := by
    intro st' e1 e2 e3 e4 e5 e6 e7 e8
    refine ⟨?_, ?_, ?_, ?_, ?_, ?_, ?_, ?_, ?_⟩
    · rw [e1]; exact h.1.pfx
    · rw [e1]; exact h.1.low
    · exact rexOk_of_eq h.1.rex (by rw [e1]) e3
    · rw [e2]; exact h.1.len
    · rw [e4]; exact h.1.modrm
    · rw [e5]; exact h.1.sib
    · rw [e6]; exact h.1.imm
    · rw [e7]; exact h.1.disp
    · intro i hi h0 h3
      rw [e8 i hi h0 h3]
      exact h.1.pref i hi h0 h3
  unfold opcodePhase
  dsimp only
  split_ifs with h1 h2
  · apply sat_nextByte
    · exact ⟨h.1.low 0 (by decide), rexOk_of_eq h.1.rex rfl rfl⟩
    · intro c p' _
      cases sliceFrom mode.table mode.dtOpcodes with
      | none => trivial
      | some tbl =>
        refine ⟨hE _ rfl rfl rfl rfl rfl rfl rfl (fun _ _ _ _ => rfl),
          fun hne => absurd h1 hne, ?_⟩
        show c = effOpcode _
        unfold effOpcode
        rw [if_pos h1]
  · refine ⟨hE _ rfl rfl rfl rfl rfl rfl rfl ?_, fun _ => h.2, ?_⟩
    · intro i hi h0 h3
      show (PrefixSet.Add st.pref PreOpSize).testBit i = _
      rw [testBit_add _ _ hi]
      have : ¬ (3 = i) := fun e => h3 e.symm
      simp [this, PreOpSize]
    · show st.c = effOpcode _
      unfold effOpcode
      rw [if_neg h1]
  · refine ⟨hE _ rfl rfl rfl rfl rfl rfl rfl ?_, fun _ => h.2, ?_⟩
    · intro i hi h0 h3
      show (PrefixSet.Remove st.pref PreOpSize).testBit i = _
      rw [testBit_remove _ _ hi]
      have : ¬ (3 = i) := fun e => h3 e.symm
      simp [this, PreOpSize]
    · show st.c = effOpcode _
      unfold effOpcode
      rw [if_neg h1]
  · refine ⟨hE _ rfl rfl rfl rfl rfl rfl rfl (fun _ _ _ _ => rfl),
      fun _ => h.2, ?_⟩
    show st.c = effOpcode _
    unfold effOpcode
    rw [if_neg h1]

theorem classifyPhase_opcode (cf : CFlags) (mode : Mode) (st : St) (p : List Byte) :
    Step.Sat (fun st' => st'.hs = st.hs ∧ st'.pref = st.pref ∧ st'.opcode = st.c)
      (fun _ => False) (fun hs e => hs = st.hs ∧ e = .ErrUnknownOpcode)
      (classifyPhase cf mode st p) := by
  unfold classifyPhase
  apply sat_run
  refine pure_sat_andThen (Q := fun st' => st'.hs = st.hs ∧ st'.pref = st.pref ∧
    st'.opcode = st.c) (pure_sat_andThen (Q := fun st' => st'.hs = st.hs ∧
    st'.pref = st.pref ∧ st'.opcode = st.c) ?_ ?_) ?_
  · refine (classify_shape cf st).weaken ?_ (fun _ _ h => h)
    rintro st' ⟨v, rfl⟩
    exact ⟨rfl, rfl, rfl⟩
  · rintro st1 ⟨h1, h2, h3⟩
    refine (groupPhase_shape cf st1).weaken ?_ (fun _ _ h => h.elim)
    rintro st' ⟨v, x, rfl⟩
    exact ⟨h1, h2, h3⟩
  · rintro st1 ⟨h1, h2, h3⟩
    refine (prefixLegality_shape mode st1).weaken ?_ ?_
    · rintro st' ⟨tbl, rfl⟩
      exact ⟨h1, h2, h3⟩
    · rintro hs e ⟨rfl, rfl⟩
      exact ⟨h1, rfl⟩

theorem early_classifyPhase (cf : CFlags) (mode : Mode) (long : Bool) (P : Nat) (st : St)
    (p : List Byte)
    (h : Early long P st ∧ (st.hs.Opcode ≠ 0x0f → st.hs.Opcode2 = 0) ∧
      st.c = effOpcode st.hs) :
    Step.Sat
      (fun st' => Early long P st' ∧ (st'.hs.Opcode ≠ 0x0f → st'.hs.Opcode2 = 0) ∧
        st'.opcode = effOpcode st'.hs)
      (fun _ => False) (fun hs _ => hs.Flags.testBit 0 = false ∧ RexOk long hs)
      (classifyPhase cf mode st p) := by
  refine (classifyPhase_opcode cf mode st p).mono ?_ (fun _ h => h) ?_
  · rintro st' ⟨e1, e2, e3⟩
    refine ⟨early_of_eq h.1 e1 e2, ?_, ?_⟩
    · rw [e1]; exact h.2.1
    · rw [e3, e1]; exact h.2.2
  · rintro hs e ⟨rfl, -⟩
    exact ⟨h.1.low 0 (by decide), h.1.rex⟩

/-! ### The ModRM block -/

theorem regRangeCheck_exact (st : St) :
    Pure.Sat
      (fun st' => st' = { st with mod := st'.mod } ∧
        (st.hs.Opcode2 ≠ 0 ∧ 0x20 ≤ st.opcode ∧ st.opcode ≤ 0x23 → st'.mod = 3) ∧
        (¬ (st.hs.Opcode2 ≠ 0 ∧ 0x20 ≤ st.opcode ∧ st.opcode ≤ 0x23) → st'.mod = st.mod) ∧
        (st.hs.Opcode2 ≠ 0 → st.opcode = 0x20 ∨ st.opcode = 0x22 → st.reg ∈ [0, 2, 3, 4]) ∧
        (st.hs.Opcode2 ≠ 0 → st.opcode = 0x21 ∨ st.opcode = 0x23 →
          st.reg ≠ 4 ∧ st.reg ≠ 5) ∧
        (st.hs.Opcode2 = 0 → st.opcode = 0x8c → st.reg ≤ 5) ∧
        (st.hs.Opcode2 = 0 → st.opcode = 0x8e → st.reg ∈ [0, 2, 3, 4, 5]))
      (fun hs e => hs = st.hs ∧ e = .ErrBadOperand) (regRangeCheck st) := by
  unfold regRangeCheck
  dsimp only
  split_ifs
  all_goals first
    | exact ⟨rfl, rfl⟩
    | (refine ⟨rfl, ?_, ?_, ?_, ?_, ?_, ?_⟩
       all_goals try simp only [List.mem_cons, List.mem_singleton, List.not_mem_nil, or_false]
       all_goals intros
       all_goals try dsimp only
       all_goals omega)

theorem dispSizeOf_exact (st : St) :
    dispSizeOf st =
      { st with dispSize :=
          dispSizeRule st.mod st.rm (PrefixSet.Has st.pref PreAddrSize) false } := by
  unfold dispSizeOf dispSizeRule
  dsimp only
  cases hA : PrefixSet.Has st.pref PreAddrSize <;>
    by_cases h0 : st.mod = 0 <;> by_cases h1 : st.mod = 1 <;> by_cases h2 : st.mod = 2 <;>
    by_cases h5 : st.rm = 5 <;> by_cases h6 : st.rm = 6 <;>
    simp_all

theorem immPromote_shape (cf : CFlags) (st : St) :
    ∃ v, immPromote cf st = { st with cflags := v } := by
  unfold immPromote
  split_ifs
  all_goals exact ⟨_, rfl⟩

theorem mid_of_eq {long : Bool} {P : Nat} {st st' : St} (h : Mid long P st)
    (e1 : st'.hs = st.hs) (e2 : st'.pref = st.pref) (e3 : st'.opcode = st.opcode)
    (e4 : st'.rm = st.rm) (e5 : st'.reg = st.reg) : Mid long P st' :=
  ⟨by rw [e1]; exact h.pfx, by rw [e1]; exact h.bit0, by rw [e1]; exact h.low,
    by rw [e1]; exact h.rex, by rw [e1]; exact h.len, by rw [e1]; exact h.opc,
    by rw [e1]; exact h.modrm, by rw [e1]; exact h.sib, by rw [e1]; exact h.imm,
    by rw [e1]; exact h.disp, by rw [e1, e2]; exact h.addr, by rw [e1, e3]; exact h.opcode,
    by rw [e1, e4]; exact h.rm, by rw [e1, e5]; exact h.reg⟩

theorem effMod_of_mid {long : Bool} {P : Nat} {st : St} (h : Mid long P st) :
    (if st.hs.Opcode2 ≠ 0 ∧ 0x20 ≤ st.opcode ∧ st.opcode ≤ 0x23 then 3
      else ModRM.Mod st.hs.ModRM) = effMod st.hs := by
  have ho := h.opcode
  have hc := h.opc
  unfold effMod
  unfold effOpcode at ho
  by_cases h0 : st.hs.Opcode = 0x0f
  · rw [if_pos h0] at ho
    rw [ho]
    by_cases hr : 0x20 ≤ st.hs.Opcode2 ∧ st.hs.Opcode2 ≤ 0x23
    · rw [if_pos ⟨by omega, hr⟩, if_pos ⟨h0, hr⟩]
    · rw [if_neg (fun hx => hr hx.2), if_neg (fun hx => hr hx.2)]
  · rw [if_neg (fun hx => hx.1 (hc h0)), if_neg (fun hx => h0 hx.1)]

theorem regRangeOk_of_mid {long : Bool} {P : Nat} {st : St} (h : Mid long P st)
    (h1 : st.hs.Opcode2 ≠ 0 → st.opcode = 0x20 ∨ st.opcode = 0x22 → st.reg ∈ [0, 2, 3, 4])
    (h2 : st.hs.Opcode2 ≠ 0 → st.opcode = 0x21 ∨ st.opcode = 0x23 → st.reg ≠ 4 ∧ st.reg ≠ 5)
    (h3 : st.hs.Opcode2 = 0 → st.opcode = 0x8c → st.reg ≤ 5)
    (h4 : st.hs.Opcode2 = 0 → st.opcode = 0x8e → st.reg ∈ [0, 2, 3, 4, 5]) :
    RegRangeOk st.hs := by
  have ho := h.opcode
  have hc := h.opc
  have hr := h.reg
  unfold effOpcode at ho
  unfold RegRangeOk
  rw [← hr]
  refine ⟨fun e => ?_, fun e => ?_, fun e e2 => ?_, fun e e2 => ?_⟩
  · have hne : st.hs.Opcode ≠ 0x0f := by rw [e]; decide
    rw [if_neg hne] at ho
    exact h3 (hc hne) (ho.trans e)
  · have hne : st.hs.Opcode ≠ 0x0f := by rw [e]; decide
    rw [if_neg hne] at ho
    exact h4 (hc hne) (ho.trans e)
  · rw [if_pos e] at ho
    rw [← ho] at e2
    exact h1 (by rw [← ho]; rcases e2 with e2 | e2 <;> rw [e2] <;> decide) e2
  · rw [if_pos e] at ho
    rw [← ho] at e2
    exact h2 (by rw [← ho]; rcases e2 with e2 | e2 <;> rw [e2] <;> decide) e2

theorem regErr_of_ok {hs : Insn} (e : DecoderError) (h : RegRangeOk hs) : RegErr hs e :=
  fun _ hn => absurd h hn

theorem regErr_of_bit {hs : Insn} (e : DecoderError) (h : hs.Flags.testBit 0 = false) :
    RegErr hs e :=
  fun h1 _ => by rw [h] at h1; cases h1

theorem mod_le_three {c : Nat} (h : c < 256) : ModRM.Mod c ≤ 3 := by
  unfold ModRM.Mod
  rw [Nat.shiftRight_eq_div_pow]
  have : c / 2 ^ 6 < 4 := (Nat.div_lt_iff_lt_mul (by decide)).mpr (by omega)
  omega

theorem effMod_le_three {hs : Insn} (h : hs.ModRM < 256) : effMod hs ≤ 3 := by
  unfold effMod
  split_ifs
  · exact Nat.le_refl _
  · exact mod_le_three h

/-- The read of the ModRM byte (lines 131–141). -/
theorem mid_readModRM (long : Bool) (P : Nat) (st : St) (p : List Byte)
    (h : Early long P st ∧ (st.hs.Opcode ≠ 0x0f → st.hs.Opcode2 = 0) ∧
      st.opcode = effOpcode st.hs) :
    Step.Sat (fun st' => Mid long P st' ∧ st'.mod = ModRM.Mod st'.hs.ModRM) (fun _ => False)
      (fun hs _ => hs.Flags.testBit 0 = false ∧ RexOk long hs) (readModRM st p) := by
  unfold readModRM
  apply sat_nextByte
  · exact ⟨h.1.low 0 (by decide), h.1.rex⟩
  · intro c p' hc
    refine ⟨⟨?_, ?_, ?_, ?_, h.1.len, h.2.1, hc, h.1.sib, h.1.imm, h.1.disp, ?_, h.2.2,
      rfl, rfl⟩, rfl⟩
    · intro i hi h16
      show (st.hs.Flags ||| IsModRM).testBit i = _
      rw [testBit_or_IsModRM _ (by omega)]
      exact h.1.pfx i hi h16
    · exact testBit_or_IsModRM_zero _
    · intro i h1 hi
      show (st.hs.Flags ||| IsModRM).testBit i = _
      rw [testBit_or_IsModRM _ (by omega)]
      exact h.1.low i hi
    · exact rexOk_of_eq h.1.rex (testBit_or_IsModRM _ (by decide)) rfl
    · show PrefixSet.Has st.pref PreAddrSize = (st.hs.Flags ||| IsModRM).testBit 14
      rw [testBit_or_IsModRM _ (by decide), h.1.pfx 14 (by decide) (by decide),
        testBit_addPrefixes 0 P (by decide) (by decide),
        has_eq_testBit _ (by decide : PreAddrSize < 16)]
      show st.pref.testBit 4 = _
      rw [h.1.pref 4 (by decide) (by decide) (by decide)]
      simp

/-- The checks on the ModRM byte (lines 143–278). -/
theorem checked_modrmChecks (cf : CFlags) (mode : Mode) (long : Bool) (P : Nat) (st : St)
    (h : Mid long P st ∧ st.mod = ModRM.Mod st.hs.ModRM) :
    Pure.Sat (Checked long P) (fun hs e => RegErr hs e ∧ RexOk long hs)
      (modrmChecks cf mode st) := by
  unfold modrmChecks
  refine pure_sat_andThen (Q := fun st' => Mid long P st' ∧ st'.mod = effMod st'.hs ∧
      RegRangeOk st'.hs)
    (pure_sat_andThen (Q := fun st' => ∃ tbl, st' = { st with tbl := tbl })
    (pure_sat_andThen (Q := fun st' => ∃ tbl, st' = { st with tbl := tbl })
    (pure_sat_andThen (Q := fun st' => st' = st) ?_ ?_) ?_) ?_) ?_
  · refine (groupRegCheck_shape st).weaken (fun _ h => h) ?_
    rintro hs e ⟨rfl, rfl⟩
    exact ⟨fun _ _ => Or.inr (Or.inl rfl), h.1.rex⟩
  · rintro st1 rfl
    refine (fpuCheck_shape mode st1).weaken (fun _ h => h) ?_
    rintro hs e ⟨rfl, rfl⟩
    exact ⟨fun _ _ => Or.inr (Or.inl rfl), h.1.rex⟩
  · rintro st1 ⟨t1, rfl⟩
    refine (lockCheck_shape mode _).weaken ?_ ?_
    · rintro st' ⟨⟨tbl, rfl⟩, -⟩
      exact ⟨tbl, rfl⟩
    · rintro hs e ⟨rfl, rfl, -⟩
      exact ⟨fun _ _ => Or.inr (Or.inr rfl), h.1.rex⟩
  · rintro st1 ⟨t1, rfl⟩
    have hm : Mid long P { st with tbl := t1 } := mid_of_eq h.1 rfl rfl rfl rfl rfl
    refine (regRangeCheck_exact _).weaken ?_ ?_
    · rintro st' ⟨e1, e2, e3, e4, e5, e6, e7⟩
      have e0 : st'.hs = st.hs := by rw [e1]
      have hm' : Mid long P st' := by
        refine mid_of_eq h.1 e0 ?_ ?_ ?_ ?_ <;> rw [e1]
      refine ⟨hm', ?_, ?_⟩
      · rw [e0, ← effMod_of_mid h.1]
        by_cases hc : st.hs.Opcode2 ≠ 0 ∧ 0x20 ≤ st.opcode ∧ st.opcode ≤ 0x23
        · rw [if_pos hc]; exact e2 hc
        · rw [if_neg hc, ← h.2]; exact e3 hc
      · rw [e0]
        exact regRangeOk_of_mid h.1 e4 e5 e6 e7
    · rintro hs e ⟨rfl, rfl⟩
      exact ⟨fun _ _ => Or.inl rfl, h.1.rex⟩
  · rintro st1 ⟨h1, h2, h3⟩
    refine pure_sat_andThen (Q := fun st' => st' = st1) ?_ ?_
    · refine (operandCheck_shape mode st1).weaken (fun _ h => h) ?_
      rintro hs e ⟨rfl, rfl⟩
      exact ⟨regErr_of_ok _ h3, h1.rex⟩
    · rintro st2 rfl
      obtain ⟨v, hv⟩ := immPromote_shape cf st2
      show Checked long P (dispSizeOf (immPromote cf st2))
      rw [dispSizeOf_exact, hv]
      refine ⟨mid_of_eq h1 rfl rfl rfl rfl rfl, h2, ?_, h3⟩
      show dispSizeRule st2.mod st2.rm (PrefixSet.Has st2.pref PreAddrSize) false = _
      rw [h2, h1.rm, h1.addr]

theorem testBit_or_pow (f k i : Nat) :
    (f ||| 2 ^ k).testBit i = (f.testBit i || decide (k = i)) := by
  rw [Nat.testBit_or, Nat.testBit_two_pow]

theorem dispSizeRule_sib (m rm : Nat) (A b : Bool) (hm : m ≤ 3) (h3 : m ≠ 3) :
    (if b = true ∧ m &&& 1 = 0 then 4 else dispSizeRule m rm A false) =
      dispSizeRule m rm A b := by
  interval_cases m <;> cases b <;> simp [dispSizeRule] at h3 ⊢

theorem dispSizeRule_range (m rm : Nat) (A b : Bool) :
    dispSizeRule m rm A b = 0 ∨ dispSizeRule m rm A b = 1 ∨ dispSizeRule m rm A b = 2 ∨
      dispSizeRule m rm A b = 4 := by
  unfold dispSizeRule
  split_ifs <;> simp

/-- The SIB byte (lines 280–292). -/
theorem sibbed_sibPhase (mode : Mode) (P : Nat) (st : St) (p : List Byte)
    (h : Checked mode.long P st) :
    Step.Sat (Sibbed mode.long P) (fun _ => False)
      (fun hs e => RegErr hs e ∧ RexOk mode.long hs) (sibPhase mode st p) := by
  have hm := h.mid
  have h14 : PrefixSet.Has st.pref PreAddrSize = st.hs.Flags.testBit 14 := hm.addr
  have hstay : st.hs.Flags.testBit 1 = false →
      ¬ (effMod st.hs ≠ 3 ∧ ModRM.RM st.hs.ModRM = 4 ∧
        (mode.long = true ∨ st.hs.Flags.testBit 14 = false)) → Sibbed mode.long P st := by
    intro hb hn
    refine ⟨hm.pfx, hm.bit0, fun i hi => hm.low i (by omega), hm.rex, hm.len, hm.opc,
      hm.modrm, hm.disp, ?_, fun _ => hm.sib, ?_, h.reg⟩
    · rw [hb]; exact (decide_eq_false hn).symm
    · rw [hb]; exact h.size
  unfold sibPhase
  split_ifs with h1 h2
  · have hsib : (st.hs.Flags ||| IsSIB).testBit 1 = true := by
      show (st.hs.Flags ||| 2 ^ 1).testBit 1 = true
      rw [testBit_or_pow]; simp
    have hoth : ∀ i, i ≠ 1 → (st.hs.Flags ||| IsSIB).testBit i = st.hs.Flags.testBit i := by
      intro i hi
      show (st.hs.Flags ||| 2 ^ 1).testBit i = _
      rw [testBit_or_pow]
      have : ¬ (1 = i) := fun e => hi e.symm
      simp [this]
    apply sat_nextByte
    · exact ⟨regErr_of_ok _ h.reg, rexOk_of_eq hm.rex (hoth 16 (by decide)) rfl⟩
    · intro c p' _
      refine ⟨?_, ?_, ?_, rexOk_of_eq hm.rex (hoth 16 (by decide)) rfl, hm.len, hm.opc,
        hm.modrm, hm.disp, ?_, ?_, ?_, h.reg⟩
      · intro i hi h16
        show (st.hs.Flags ||| IsSIB).testBit i = _
        rw [hoth i (by omega)]
        exact hm.pfx i hi h16
      · show (st.hs.Flags ||| IsSIB).testBit 0 = true
        rw [hoth 0 (by decide)]
        exact hm.bit0
      · intro i h2 hi
        show (st.hs.Flags ||| IsSIB).testBit i = false
        rw [hoth i (by omega)]
        exact hm.low i (by omega) hi
      · show (st.hs.Flags ||| IsSIB).testBit 1 = decide (effMod st.hs ≠ 3 ∧
          ModRM.RM st.hs.ModRM = 4 ∧
          (mode.long = true ∨ (st.hs.Flags ||| IsSIB).testBit 14 = false))
        rw [hsib, hoth 14 (by decide), ← h14, ← h.mod, ← hm.rm]
        refine (decide_eq_true ⟨h1.1, h1.2, ?_⟩).symm
        rcases h2 with h2 | h2
        · exact Or.inl h2
        · exact Or.inr (by simpa using h2)
      · intro hb
        have : (st.hs.Flags ||| IsSIB).testBit 1 = false := hb
        rw [hsib] at this; cases this
      · show (if SIB.Base c = 5 ∧ st.mod &&& 1 = 0 then 4 else st.dispSize) =
          dispSizeRule (effMod st.hs) (ModRM.RM st.hs.ModRM)
            ((st.hs.Flags ||| IsSIB).testBit 14)
            ((st.hs.Flags ||| IsSIB).testBit 1 && decide (SIB.Base c = 5))
        rw [hsib, hoth 14 (by decide), Bool.true_and, h.size,
          ← dispSizeRule_sib (effMod st.hs) _ _ (decide (SIB.Base c = 5))
            (effMod_le_three hm.modrm) (by rw [← h.mod]; exact h1.1), h.mod]
        simp only [decide_eq_true_eq]
  · refine hstay (hm.low 1 (by decide) (by decide)) ?_
    rintro ⟨-, -, h3⟩
    apply h2
    rcases h3 with h3 | h3
    · exact Or.inl h3
    · right
      rw [h14, h3]
      simp
  · refine hstay (hm.low 1 (by decide) (by decide)) ?_
    rintro ⟨h3, h4, -⟩
    exact h1 ⟨by rw [h.mod]; exact h3, by rw [hm.rm]; exact h4⟩

theorem sat_readLit_bits {Q : St → Prop} {R : Insn → Prop} {E : Insn → DecoderError → Prop}
    {rd : Literal → List Byte → Bool × Literal × List Byte} {lit : Literal}
    {put : Literal → Insn} {k : Insn → List Byte → Step} (p : List Byte) (w : Nat)
    (hw : ∀ lit p, (rd lit p).1 = true → (rd lit p).2.1.Bits = w)
    (he : ∀ l, E (put l) .ErrLength)
    (hk : ∀ l p', l.Bits = w → Step.Sat Q R E (k (put l) p')) :
    Step.Sat Q R E (readLit rd lit put k p) := by
  unfold readLit
  by_cases h : (rd lit p).1 = false
  · simp only [h, if_true]; exact he _
  · simp only [h, if_false]
    exact hk _ _ (hw lit p (by simpa using h))

theorem read8_bits (lit : Literal) (p : List Byte) (h : (Literal.read8 lit p).1 = true) :
    (Literal.read8 lit p).2.1.Bits = 8 := by
  cases p with
  | nil => cases h
  | cons b rest => rfl

theorem read16_bits (lit : Literal) (p : List Byte) (h : (Literal.read16 lit p).1 = true) :
    (Literal.read16 lit p).2.1.Bits = 16 := by
  unfold Literal.read16 at h ⊢
  dsimp only at h ⊢
  split_ifs at h ⊢
  rfl

theorem read32_bits (lit : Literal) (p : List Byte) (h : (Literal.read32 lit p).1 = true) :
    (Literal.read32 lit p).2.1.Bits = 32 := by
  unfold Literal.read32 at h ⊢
  dsimp only at h ⊢
  split_ifs at h ⊢
  rfl

theorem effMod_congr {a b : Insn} (e2 : b.Opcode = a.Opcode) (e3 : b.Opcode2 = a.Opcode2)
    (e5 : b.ModRM = a.ModRM) : effMod b = effMod a := by
  unfold effMod
  rw [e2, e3, e5]

theorem regRangeOk_congr {a b : Insn} (h : RegRangeOk a) (e2 : b.Opcode = a.Opcode)
    (e3 : b.Opcode2 = a.Opcode2) (e5 : b.ModRM = a.ModRM) : RegRangeOk b := by
  unfold RegRangeOk at h ⊢
  rw [e2, e3, e5]
  exact h

/-- The instruction past the displacement, from the locals past the SIB byte
and what the displacement wrote. -/
theorem late_of_sibbed {long : Bool} {P : Nat} {st : St} (h : Sibbed long P st) (hs : Insn)
    (e1 : hs.Length = st.hs.Length) (e2 : hs.Opcode = st.hs.Opcode)
    (e3 : hs.Opcode2 = st.hs.Opcode2) (e4 : hs.REX = st.hs.REX)
    (e5 : hs.ModRM = st.hs.ModRM) (e6 : hs.SIB = st.hs.SIB)
    (hf : ∀ i, i ≠ 6 → i ≠ 7 → i ≠ 8 → hs.Flags.testBit i = st.hs.Flags.testBit i)
    (h6 : hs.Flags.testBit 6 = decide (st.dispSize = 1))
    (h7 : hs.Flags.testBit 7 = decide (st.dispSize = 2))
    (h8 : hs.Flags.testBit 8 = decide (st.dispSize = 4))
    (hb : hs.Disp.Bits = 8 * st.dispSize) : Late long P hs := by
  have hE : effMod hs = effMod st.hs := effMod_congr e2 e3 e5
  have hsz : dispSizeRule (effMod hs) (ModRM.RM hs.ModRM) (hs.Flags.testBit 14)
      (hs.Flags.testBit 1 && decide (SIB.Base hs.SIB = 5)) = st.dispSize := by
    rw [hE, e5, e6, hf 14 (by decide) (by decide) (by decide),
      hf 1 (by decide) (by decide) (by decide)]
    exact h.size.symm
  have h0 : hs.Flags.testBit 0 = true := by
    rw [hf 0 (by decide) (by decide) (by decide)]; exact h.bit0
  refine ⟨?_, rexOk_of_eq h.rex (hf 16 (by decide) (by decide) (by decide)) e4,
    by rw [e1]; exact h.len, by rw [e2, e3]; exact h.opc, by rw [e5]; exact h.modrm,
    ?_, ?_, ?_, ?_, ?_, ?_, ?_, fun _ => regRangeOk_congr h.reg e2 e3 e5⟩
  · intro i hi h16
    rw [hf i (by omega) (by omega) (by omega)]
    exact h.pfx i hi h16
  · intro hn
    rw [h0] at hn; cases hn
  · intro hn
    rw [e6]
    exact h.noSib (by rw [← hf 1 (by decide) (by decide) (by decide)]; exact hn)
  · intro _
    rw [hE, e5, hf 1 (by decide) (by decide) (by decide),
      hf 14 (by decide) (by decide) (by decide)]
    exact h.sibBit
  · intro _; rw [hsz]; exact h6
  · intro _; rw [hsz]; exact h7
  · intro _; rw [hsz]; exact h8
  · intro _ _; rw [hsz]; exact hb

/-- The displacement (lines 294–310). -/
theorem late_dispPhase (long : Bool) (P : Nat) (st : St) (p : List Byte)
    (h : Sibbed long P st) :
    Step.Sat (fun st' => Late long P st'.hs) (fun _ => False)
      (fun hs e => RegErr hs e ∧ RexOk long hs) (dispPhase st p) := by
  have hset : ∀ k i : Nat, (st.hs.Flags ||| 2 ^ k).testBit i =
      (st.hs.Flags.testBit i || decide (k = i)) := fun k i => testBit_or_pow _ k i
  have hoth : ∀ k i : Nat, k ≠ i → (st.hs.Flags ||| 2 ^ k).testBit i =
      st.hs.Flags.testBit i := by
    intro k i hki
    rw [hset]; simp [hki]
  have hE : ∀ (k : Nat) (l : Literal), 6 ≤ k → k ≤ 8 →
      RegErr { st.hs with Flags := st.hs.Flags ||| 2 ^ k, Disp := l } .ErrLength ∧
        RexOk long { st.hs with Flags := st.hs.Flags ||| 2 ^ k, Disp := l } := by
    intro k l h6 h8
    exact ⟨regErr_of_ok _ h.reg, rexOk_of_eq h.rex (hoth k 16 (by omega)) rfl⟩
  have hL : ∀ (k : Nat) (l : Literal), 6 ≤ k → k ≤ 8 →
      (k = 6 → st.dispSize = 1) → (k = 7 → st.dispSize = 2) → (k = 8 → st.dispSize = 4) →
      l.Bits = 8 * st.dispSize →
      Late long P { st.hs with Flags := st.hs.Flags ||| 2 ^ k, Disp := l } := by
    intro k l h6 h8 k6 k7 k8 hb
    refine late_of_sibbed h _ rfl rfl rfl rfl rfl rfl
      (fun i i6 i7 i8 => hoth k i (by omega)) ?_ ?_ ?_ hb
    · show (st.hs.Flags ||| 2 ^ k).testBit 6 = _
      rw [hset, h.low 6 (by decide) (by decide)]
      by_cases hk : k = 6
      · simp [hk, k6 hk]
      · have : st.dispSize ≠ 1 := by
          rcases Nat.lt_or_ge k 8 with h' | h'
          · have := k7 (by omega); omega
          · have := k8 (by omega); omega
        simp [hk, this]
    · show (st.hs.Flags ||| 2 ^ k).testBit 7 = _
      rw [hset, h.low 7 (by decide) (by decide)]
      by_cases hk : k = 7
      · simp [hk, k7 hk]
      · have : st.dispSize ≠ 2 := by
          rcases Nat.lt_or_ge k 7 with h' | h'
          · have := k6 (by omega); omega
          · have := k8 (by omega); omega
        simp [hk, this]
    · show (st.hs.Flags ||| 2 ^ k).testBit 8 = _
      rw [hset, h.low 8 (by decide) (by decide)]
      by_cases hk : k = 8
      · simp [hk, k8 hk]
      · have : st.dispSize ≠ 4 := by
          rcases Nat.lt_or_ge k 7 with h' | h'
          · have := k6 (by omega); omega
          · have := k7 (by omega); omega
        simp [hk, this]
  unfold dispPhase
  split_ifs with h1 h2 h4
  · refine sat_readLit_bits p 8 read8_bits (fun l => hE 6 l (by decide) (by decide)) ?_
    intro l p' hb
    exact hL 6 l (by decide) (by decide) (fun _ => h1) (fun e => absurd e (by decide))
      (fun e => absurd e (by decide))
      (by rw [hb, h1])
  · refine sat_readLit_bits p 16 read16_bits (fun l => hE 7 l (by decide) (by decide)) ?_
    intro l p' hb
    exact hL 7 l (by decide) (by decide) (fun e => absurd e (by decide)) (fun _ => h2)
      (fun e => absurd e (by decide))
      (by rw [hb, h2])
  · refine sat_readLit_bits p 32 read32_bits (fun l => hE 8 l (by decide) (by decide)) ?_
    intro l p' hb
    exact hL 8 l (by decide) (by decide) (fun e => absurd e (by decide))
      (fun e => absurd e (by decide)) (fun _ => h4)
      (by rw [hb, h4])
  · have h0 : st.dispSize = 0 := by
      have := dispSizeRule_range (effMod st.hs) (ModRM.RM st.hs.ModRM)
        (st.hs.Flags.testBit 14) (st.hs.Flags.testBit 1 && decide (SIB.Base st.hs.SIB = 5))
      rw [← h.size] at this
      omega
    refine late_of_sibbed h _ rfl rfl rfl rfl rfl rfl (fun _ _ _ _ => rfl) ?_ ?_ ?_ ?_
    · rw [h.low 6 (by decide) (by decide), h0]; rfl
    · rw [h.low 7 (by decide) (by decide), h0]; rfl
    · rw [h.low 8 (by decide) (by decide), h0]; rfl
    · rw [h.disp, h0]; rfl

theorem late_of_early {long : Bool} {P : Nat} {st : St}
    (h : Early long P st ∧ (st.hs.Opcode ≠ 0x0f → st.hs.Opcode2 = 0) ∧
      st.opcode = effOpcode st.hs) : Late long P st.hs := by
  have h0 : st.hs.Flags.testBit 0 = false := h.1.low 0 (by decide)
  have hx : ∀ {Q : Prop}, st.hs.Flags.testBit 0 = true → Q := by
    intro Q hq
    rw [h0] at hq; cases hq
  refine ⟨h.1.pfx, h.1.rex, h.1.len, h.2.1, by rw [h.1.modrm]; decide, ?_, fun _ => h.1.sib,
    fun hq => hx hq, fun hq => hx hq, fun hq => hx hq, fun hq => hx hq, fun hq => hx hq,
    fun hq => hx hq⟩
  intro _
  exact ⟨h.1.low 1 (by decide), h.1.low 6 (by decide), h.1.low 7 (by decide),
    h.1.low 8 (by decide), h.1.modrm, fun _ => h.1.disp⟩

/-- The ModRM block (lines 131–313). -/
theorem late_modrmBlock (cf : CFlags) (mode : Mode) (P : Nat) (st : St) (p : List Byte)
    (h : Early mode.long P st ∧ (st.hs.Opcode ≠ 0x0f → st.hs.Opcode2 = 0) ∧
      st.opcode = effOpcode st.hs) :
    Step.Sat (fun st' => Late mode.long P st'.hs) (fun _ => False)
      (fun hs e => RegErr hs e ∧ RexOk mode.long hs) (modrmBlock cf mode st p) := by
  unfold modrmBlock
  split_ifs
  · refine sat_andThen (Q := Sibbed mode.long P) (sat_andThen (Q := Checked mode.long P)
      (sat_andThen (Q := fun st' => Mid mode.long P st' ∧ st'.mod = ModRM.Mod st'.hs.ModRM)
      ?_ ?_) ?_) ?_
    · refine (mid_readModRM mode.long P st p h).mono (fun _ h => h) (fun _ h => h) ?_
      rintro hs e ⟨h0, hr⟩
      exact ⟨regErr_of_bit _ h0, hr⟩
    · intro st1 p1 h1
      exact sat_run (checked_modrmChecks cf mode mode.long P st1 h1) p1
    · intro st1 p1 h1
      exact sibbed_sibPhase mode P st1 p1 h1
    · intro st1 p1 h1
      exact late_dispPhase mode.long P st1 p1 h1
  · exact ⟨regErr_of_bit _ (h.1.low 0 (by decide)), h.1.rex⟩
  · exact late_of_early h

/-! ### The immediates -/

theorem testBit_or_imm (f m i : Nat) (hm : m ||| 0x23c = 0x23c) (h2 : i ≠ 2) (h3 : i ≠ 3)
    (h4 : i ≠ 4) (h5 : i ≠ 5) (h9 : i ≠ 9) : (f ||| m).testBit i = f.testBit i := by
  have hc : (0x23c : Nat).testBit i = false := by
    by_cases hi : i < 10
    · interval_cases i <;> first | rfl | contradiction
    · exact Nat.testBit_lt_two_pow
        (Nat.lt_of_lt_of_le (by decide : 0x23c < 2 ^ 10)
          (Nat.pow_le_pow_right (by decide) (by omega)))
  have hmi : m.testBit i = false := by
    have := congrArg (fun n => n.testBit i) hm
    simp only [Nat.testBit_or, hc, Bool.or_false] at this
    exact this
  rw [Nat.testBit_or, hmi, Bool.or_false]

theorem immOnly_refl (long : Bool) (a : Insn) : ImmOnly long a a :=
  ⟨rfl, rfl, rfl, rfl, rfl, rfl, fun _ => rfl, fun _ _ _ _ _ _ => rfl⟩

theorem immOnly_trans {long : Bool} {a b c : Insn} (h1 : ImmOnly long a b)
    (h2 : ImmOnly long b c) : ImmOnly long a c :=
  ⟨h2.1.trans h1.1, h2.2.1.trans h1.2.1, h2.2.2.1.trans h1.2.2.1,
    h2.2.2.2.1.trans h1.2.2.2.1, h2.2.2.2.2.1.trans h1.2.2.2.2.1,
    h2.2.2.2.2.2.1.trans h1.2.2.2.2.2.1,
    fun hl => (h2.2.2.2.2.2.2.1 hl).trans (h1.2.2.2.2.2.2.1 hl),
    fun i i2 i3 i4 i5 i9 => (h2.2.2.2.2.2.2.2 i i2 i3 i4 i5 i9).trans
      (h1.2.2.2.2.2.2.2 i i2 i3 i4 i5 i9)⟩

theorem immOnly_imm {long : Bool} (a : Insn) (m : Nat) (l : Literal)
    (hm : m ||| 0x23c = 0x23c) :
    ImmOnly long a { a with Flags := a.Flags ||| m, Imm := l } :=
  ⟨rfl, rfl, rfl, rfl, rfl, rfl, fun _ => rfl,
    fun i i2 i3 i4 i5 i9 => testBit_or_imm _ m i hm i2 i3 i4 i5 i9⟩

theorem immOnly_disp (a : Insn) (m : Nat) (l : Literal) (hm : m ||| 0x23c = 0x23c) :
    ImmOnly false a { a with Flags := a.Flags ||| m, Disp := l } :=
  ⟨rfl, rfl, rfl, rfl, rfl, rfl, fun h => (by cases h),
    fun i i2 i3 i4 i5 i9 => testBit_or_imm _ m i hm i2 i3 i4 i5 i9⟩

theorem immOnly_immP66Phase (cf : CFlags) (mode : Mode) (st : St) (p : List Byte) :
    Step.Sat (fun st' => ImmOnly mode.long st.hs st'.hs) (ImmOnly mode.long st.hs)
      (fun hs _ => ImmOnly mode.long st.hs hs) (immP66Phase cf mode st p) := by
  unfold immP66Phase
  split_ifs
  all_goals first
    | exact immOnly_refl _ _
    | (apply sat_readLit
       · intro l
         exact immOnly_imm _ _ l (by decide)
       · intro l p'
         exact immOnly_imm _ _ l (by decide))

theorem immOnly_imm16Phase (cf : CFlags) (mode : Mode) (st : St) (p : List Byte) :
    Step.Sat (fun st' => ImmOnly mode.long st.hs st'.hs) (ImmOnly mode.long st.hs)
      (fun hs _ => ImmOnly mode.long st.hs hs) (imm16Phase cf mode st p) := by
  unfold imm16Phase
  split_ifs with h1 h2
  all_goals first
    | exact immOnly_refl _ _
    | (apply sat_readLit
       · intro l
         exact immOnly_imm _ _ l (by decide)
       · intro l p'
         exact immOnly_imm _ _ l (by decide))
    | (have hl : mode.long = false := by simpa using h2
       rw [hl]
       apply sat_readLit
       · intro l
         exact immOnly_disp _ _ l (by decide)
       · intro l p'
         exact immOnly_disp _ _ l (by decide))

theorem immOnly_imm8Phase (cf : CFlags) (long : Bool) (st : St) (p : List Byte) :
    Step.Sat (fun st' => ImmOnly long st.hs st'.hs) (ImmOnly long st.hs)
      (fun hs _ => ImmOnly long st.hs hs) (imm8Phase cf st p) := by
  unfold imm8Phase
  split_ifs
  all_goals first
    | exact immOnly_refl _ _
    | (apply sat_readLit
       · intro l
         exact immOnly_imm _ _ l (by decide)
       · intro l p'
         exact immOnly_imm _ _ l (by decide))

theorem immOnly_relPhase (cf : CFlags) (long : Bool) (st : St) (p : List Byte) :
    Step.Sat (fun st' => ImmOnly long st.hs st'.hs) (ImmOnly long st.hs)
      (fun hs _ => ImmOnly long st.hs hs) (relPhase cf st p) := by
  unfold relPhase
  split_ifs
  all_goals first
    | exact immOnly_refl _ _
    | (apply sat_readLit
       · intro l
         exact immOnly_imm _ _ l (by decide)
       · intro l p'
         exact immOnly_imm _ _ l (by decide))

theorem late_immOnly {long : Bool} {P : Nat} {a b : Insn} (h : Late long P a)
    (k : ImmOnly long a b) : Late long P b := by
  obtain ⟨e1, e2, e3, e4, e5, e6, e7, hf⟩ := k
  have f0 : b.Flags.testBit 0 = a.Flags.testBit 0 :=
    hf 0 (by decide) (by decide) (by decide) (by decide) (by decide)
  have f1 : b.Flags.testBit 1 = a.Flags.testBit 1 :=
    hf 1 (by decide) (by decide) (by decide) (by decide) (by decide)
  have f6 : b.Flags.testBit 6 = a.Flags.testBit 6 :=
    hf 6 (by decide) (by decide) (by decide) (by decide) (by decide)
  have f7 : b.Flags.testBit 7 = a.Flags.testBit 7 :=
    hf 7 (by decide) (by decide) (by decide) (by decide) (by decide)
  have f8 : b.Flags.testBit 8 = a.Flags.testBit 8 :=
    hf 8 (by decide) (by decide) (by decide) (by decide) (by decide)
  have f14 : b.Flags.testBit 14 = a.Flags.testBit 14 :=
    hf 14 (by decide) (by decide) (by decide) (by decide) (by decide)
  have f16 : b.Flags.testBit 16 = a.Flags.testBit 16 :=
    hf 16 (by decide) (by decide) (by decide) (by decide) (by decide)
  have hE : effMod b = effMod a := effMod_congr e2 e3 e5
  refine ⟨?_, rexOk_of_eq h.rex f16 e4, by rw [e1]; exact h.len,
    by rw [e2, e3]; exact h.opc, by rw [e5]; exact h.modrm, ?_, ?_, ?_, ?_, ?_, ?_, ?_, ?_⟩
  · intro i hi h16
    rw [hf i (by omega) (by omega) (by omega) (by omega) (by omega)]
    exact h.pfx i hi h16
  · intro h0
    rw [f0] at h0
    obtain ⟨g1, g6, g7, g8, gm, gd⟩ := h.noModRM h0
    exact ⟨by rw [f1]; exact g1, by rw [f6]; exact g6, by rw [f7]; exact g7,
      by rw [f8]; exact g8, by rw [e5]; exact gm, fun hl => by rw [e7 hl]; exact gd hl⟩
  · intro h1
    rw [f1] at h1
    rw [e6]; exact h.noSib h1
  · intro h0
    rw [f0] at h0
    rw [f1, hE, e5, f14]; exact h.sibBit h0
  · intro h0
    rw [f0] at h0
    rw [f6, hE, e5, f14, f1, e6]; exact h.d8 h0
  · intro h0
    rw [f0] at h0
    rw [f7, hE, e5, f14, f1, e6]; exact h.d16 h0
  · intro h0
    rw [f0] at h0
    rw [f8, hE, e5, f14, f1, e6]; exact h.d32 h0
  · intro h0 hl
    rw [f0] at h0
    rw [e7 hl, hE, e5, f14, f1, e6]; exact h.dbits h0 hl
  · intro h0
    rw [f0] at h0
    exact regRangeOk_congr (h.reg h0) e2 e3 e5

theorem late_err {long : Bool} {P : Nat} {hs : Insn} (h : Late long P hs) (e : DecoderError) :
    RegErr hs e ∧ RexOk long hs :=
  ⟨fun h0 hn => absurd (h.reg h0) hn, h.rex⟩

theorem late_step {long : Bool} {P : Nat} {a : Insn} {s : Step} (ha : Late long P a)
    (h : Step.Sat (fun st' => ImmOnly long a st'.hs) (ImmOnly long a)
      (fun hs _ => ImmOnly long a hs) s) :
    Step.Sat (fun st' => Late long P st'.hs) (Late long P)
      (fun hs e => RegErr hs e ∧ RexOk long hs) s :=
  h.mono (fun _ k => late_immOnly ha k) (fun _ k => late_immOnly ha k)
    (fun _ e k => late_err (late_immOnly ha k) e)

theorem early_err {long : Bool} {hs : Insn} (e : DecoderError)
    (h : hs.Flags.testBit 0 = false ∧ RexOk long hs) : RegErr hs e ∧ RexOk long hs :=
  ⟨regErr_of_bit e h.1, h.2⟩

theorem rexOk_zero (long : Bool) : RexOk long Insn.zero :=
  ⟨fun h => (by cases h), fun _ => rfl⟩

/-- Along the whole of `Decode`, on an input of at most 15 bytes: the
instruction at a success exit satisfies `Late` for the set of the leading
prefixes, and an error comes with an instruction that satisfies `RexOk` and,
if it breaks a register range, is one of three. -/
theorem decodeBody_late (cf : CFlags) (mode : Mode) (code : List Byte)
    (hlen : code.length < 16) :
    Step.Sat (fun st => Late mode.long ((leadingPrefixes code).foldl PrefixSet.Add 0) st.hs)
      (Late mode.long ((leadingPrefixes code).foldl PrefixSet.Add 0))
      (fun hs e => RegErr hs e ∧ RexOk mode.long hs) (decodeBody cf mode code) := by
  unfold decodeBody
  refine sat_andThen
    (Q := fun st => Late mode.long ((leadingPrefixes code).foldl PrefixSet.Add 0) st.hs)
    (sat_andThen
    (Q := fun st => Late mode.long ((leadingPrefixes code).foldl PrefixSet.Add 0) st.hs)
    (sat_andThen
    (Q := fun st => Late mode.long ((leadingPrefixes code).foldl PrefixSet.Add 0) st.hs)
    (sat_andThen
    (Q := fun st => Late mode.long ((leadingPrefixes code).foldl PrefixSet.Add 0) st.hs)
    (sat_andThen
    (Q := fun st => Early mode.long ((leadingPrefixes code).foldl PrefixSet.Add 0) st ∧
      (st.hs.Opcode ≠ 0x0f → st.hs.Opcode2 = 0) ∧ st.opcode = effOpcode st.hs)
    (sat_andThen
    (Q := fun st => Early mode.long ((leadingPrefixes code).foldl PrefixSet.Add 0) st ∧
      (st.hs.Opcode ≠ 0x0f → st.hs.Opcode2 = 0) ∧ st.c = effOpcode st.hs)
    (sat_andThen
    (Q := fun st => Early mode.long ((leadingPrefixes code).foldl PrefixSet.Add 0) st ∧
      st.hs.Opcode2 = 0)
    (sat_andThen
    (Q := fun st => st.hs = Insn.zero ∧
      st.pref = (leadingPrefixes code).foldl PrefixSet.Add 0) ?_ ?_) ?_) ?_) ?_) ?_) ?_) ?_) ?_
  · rw [prefixLoop_exact code 16 St.init hlen]
    cases code.dropWhile (fun b => PrefixToID b.val != PreNone) with
    | nil => exact ⟨regErr_of_bit _ (Nat.zero_testBit 0), rexOk_zero _⟩
    | cons b r => exact ⟨rfl, rfl⟩
  · rintro st p ⟨h0, hp⟩
    have h6 : st.pref.testBit 6 = false := by
      rw [hp, foldl_add_rex _ (leadingPrefixes_ne_rex code) 0, Nat.zero_testBit]
    have h := early_afterPrefixes mode.long st h0 h6
    rw [hp] at h
    exact (early_rexPhase mode _ _ p h).mono (fun _ k => k) (fun _ k => k.elim)
      (fun _ e k => early_err e k)
  · intro st p h
    exact (early_opcodePhase mode mode.long _ st p h).mono (fun _ k => k) (fun _ k => k.elim)
      (fun _ e k => early_err e k)
  · intro st p h
    exact (early_classifyPhase cf mode mode.long _ st p h).mono (fun _ k => k)
      (fun _ k => k.elim) (fun _ e k => early_err e k)
  · intro st p h
    exact (late_modrmBlock cf mode _ st p h).mono (fun _ k => k) (fun _ k => k.elim)
      (fun _ _ k => k)
  · intro st p h
    exact late_step h (immOnly_immP66Phase cf mode st p)
  · intro st p h
    exact late_step h (immOnly_imm16Phase cf mode st p)
  · intro st p h
    exact late_step h (immOnly_imm8Phase cf mode.long st p)
  · intro st p h
    exact late_step h (immOnly_relPhase cf mode.long st p)

theorem leadingPrefixBytes_take (code : List Byte) : ∀ n : Nat,
    (code.take n).dropWhile (fun b => PrefixToID b.val != PreNone) ≠ [] →
    leadingPrefixBytes (code.take n) = leadingPrefixBytes code := by
  unfold leadingPrefixBytes
  induction code with
  | nil => intro n _; simp
  | cons b rest ih =>
    intro n h
    cases n with
    | zero => simp at h
    | succ n =>
      rw [List.take_succ_cons] at h ⊢
      by_cases hb : (PrefixToID b.val != PreNone) = true
      · rw [List.dropWhile_cons] at h
        simp only [hb, if_true] at h
        simp only [List.takeWhile_cons, hb, if_true, ih n h]
      · simp only [List.takeWhile_cons, hb, if_false]
        simp

/-- The outcome of `Decode` in terms of `Late`, `RegErr` and `RexOk`. -/
theorem decode_late (cf : CFlags) (mode : Mode) (code : List Byte) (hs : Insn)
    (err : Option DecoderError) (h : Mode.Decode cf mode code = some (hs, err)) :
    (err = none → ∃ hs0 n, hs = { hs0 with Length := n } ∧
      Late mode.long ((leadingPrefixes code).foldl PrefixSet.Add 0) hs0) ∧
    (∀ e, err = some e → RegErr hs e ∧ RexOk mode.long hs) := by
  by_cases hne : code = []
  · subst hne
    simp only [Mode.Decode, List.length_nil, if_true, Option.some.injEq, Prod.mk.injEq] at h
    obtain ⟨h1, h2⟩ := h
    subst h1
    subst h2
    exact ⟨fun hx => (by cases hx),
      fun e _ => ⟨regErr_of_bit _ (Nat.zero_testBit 0), rexOk_zero _⟩⟩
  · have h1 := decode_sat cf mode code hne
      (decodeBody_late cf mode (code.take 15) (take15_length code))
    rw [h] at h1
    cases err with
    | none =>
      refine ⟨fun _ => ?_, fun e he => (by cases he)⟩
      have hd : (code.take 15).dropWhile (fun b => PrefixToID b.val != PreNone) ≠ [] := by
        intro hnil
        have hb := prefixLoop_exact (code.take 15) 16 St.init (take15_length code)
        rw [hnil] at hb
        have hf := decodeBody_of_loop_fail cf mode _ _ _ hb
        rw [decode_eq cf mode code hne, hf] at h
        cases h
      have hP : leadingPrefixes (code.take 15) = leadingPrefixes code := by
        unfold leadingPrefixes
        rw [leadingPrefixBytes_take code 15 hd]
      rw [hP] at h1
      obtain ⟨hs0, n, e1, (⟨st, rfl, hq⟩ | hr)⟩ := h1
      · exact ⟨_, n, e1, hq⟩
      · exact ⟨_, n, e1, hr⟩
    | some e =>
      refine ⟨fun hx => (by cases hx), fun e' he => ?_⟩
      cases he
      exact h1

/-! ## The claims on prefixes, SIB, displacement, REX and register ranges -/

theorem isSIB_iff (f : Nat) : f &&& IsSIB ≠ 0 ↔ f.testBit 1 = true :=
  and_two_pow_ne_zero_iff f 1

theorem hasAddrSize_iff (f : Nat) : f &&& HasAddrSize ≠ 0 ↔ f.testBit 14 = true :=
  flag_and_ne_zero_iff f (by decide : PreAddrSize < 22)

theorem hasREX_iff (f : Nat) : f &&& HasREX ≠ 0 ↔ f.testBit 16 = true :=
  flag_and_ne_zero_iff f (by decide : PreREX < 22)

theorem decide_ne_zero_eq (f m : Nat) (k : Nat) (h : f &&& m ≠ 0 ↔ f.testBit k = true) :
    decide (f &&& m ≠ 0) = f.testBit k := by
  by_cases hb : f.testBit k = true
  · rw [hb]; exact decide_eq_true (h.mpr hb)
  · have hb' : f.testBit k = false := by simpa using hb
    rw [hb']; exact decide_eq_false (fun hx => hb (h.mp hx))

/-- The rule of the specification, read off the flag masks, is the rule read
off the flag bits. -/
theorem ruleDispSize_eq (hs : Insn) :
    ruleDispSize hs = dispSizeRule (effMod hs) (ModRM.RM hs.ModRM) (hs.Flags.testBit 14)
      (hs.Flags.testBit 1 && decide (SIB.Base hs.SIB = 5)) := by
  unfold ruleDispSize
  rw [decide_ne_zero_eq _ _ 14 (hasAddrSize_iff _), decide_ne_zero_eq _ _ 1 (isSIB_iff _)]

/-- The prefix sub-field of the flags of an instruction past line 69, without
the REX bit, is the set that the prefix loop built. -/
theorem prefixes_of_late {long : Bool} {P : Nat} {hs : Insn} (h : Late long P hs)
    (hP : P < 2 ^ 16) (h6 : P.testBit 6 = false) :
    PrefixSet.Remove (Flag.Prefixes hs.Flags) PreREX = P := by
  apply Nat.eq_of_testBit_eq
  intro i
  by_cases hi : i < 16
  · rw [testBit_remove _ _ hi]
    unfold Flag.Prefixes prefixSetShift PreREX
    rw [Nat.testBit_mod_two_pow, Nat.testBit_shiftRight]
    by_cases hi6 : 6 = i
    · subst hi6
      simp [h6]
    · rw [h.pfx (10 + i) (by omega) (by omega),
        testBit_addPrefixes 0 P (by omega) (by omega)]
      simp [hi, hi6]
  · have hr : P.testBit i = false :=
      Nat.testBit_lt_two_pow (Nat.lt_of_lt_of_le hP
        (Nat.pow_le_pow_right (by decide) (by omega)))
    rw [hr]
    unfold PrefixSet.Remove andNot16 Flag.Prefixes
    rw [Nat.testBit_and, Nat.testBit_mod_two_pow]
    simp [hi]

/-- Claim C15: the prefix sub-field of `Flags` records the prefix bytes actually
present. For every mode and every successful `Decode` (of an input that begins
with a prefix byte, or with none), `Flags.Prefixes()` with the REX bit cleared
is the `PrefixSet` obtained by folding `PrefixSet.Add`, from the empty set, over
`PrefixToID` of the leading prefix bytes of the input in order. No case is made
of the opcode: the rewriting of the local set at `0xA0`–`0xA3` does not reach
the flags. -/
theorem flags_record_leading_prefixes (cf : CFlags) (mode : Mode) (code : List Byte)
    (hs : Insn) (h : Mode.Decode cf mode code = some (hs, none)) :
    PrefixSet.Remove (Flag.Prefixes hs.Flags) PreREX =
      (leadingPrefixes code).foldl PrefixSet.Add 0 := by
  obtain ⟨hs0, n, rfl, hl⟩ := (decode_late cf mode code hs none h).1 rfl
  have h6 : ((leadingPrefixes code).foldl PrefixSet.Add 0).testBit 6 = false := by
    rw [foldl_add_rex _ (leadingPrefixes_ne_rex code) 0, Nat.zero_testBit]
  show PrefixSet.Remove (Flag.Prefixes hs0.Flags) PreREX = _
  exact prefixes_of_late hl (foldl_add_lt _ 0 (by decide)) h6

theorem flags_record_leading_prefixes_witness :
    Mode.Decode sampleCF (sampleMode false) [0x2e, 0x3e, 0xf2, 0xf3, 0x66, 0xa1] =
      some ({ Flags := 0x23000, Length := 6, Opcode := 0xa1, Opcode2 := 0, REX := 0,
              ModRM := 0, SIB := 0, Imm := ⟨0, 0⟩, Disp := ⟨0, 0⟩ }, none) ∧
    PrefixSet.Remove (Flag.Prefixes 0x23000) PreREX =
      [PreSegCS, PreSegDS, PreRepNZ, PreRep, PreOpSize].foldl PrefixSet.Add 0 :=
  ⟨by decide,
    flags_record_leading_prefixes sampleCF (sampleMode false)
      [0x2e, 0x3e, 0xf2, 0xf3, 0x66, 0xa1]
      { Flags := 0x23000, Length := 6, Opcode := 0xa1, Opcode2 := 0, REX := 0,
        ModRM := 0, SIB := 0, Imm := ⟨0, 0⟩, Disp := ⟨0, 0⟩ } (by decide)⟩

/-- Claim C16: the SIB presence rule. For every mode and every successful
`Decode`: if `IsModRM` is set, `IsSIB` is set if and only if `mod ≠ 3`,
`ModRM.RM() = 4` and the mode is 64-bit or `HasAddrSize` is not set, where `mod`
is `ModRM.Mod()`, counted as 3 for the two-byte opcodes `0x20`–`0x23`; and if
`IsModRM` is not set, `IsSIB` is not set. -/
theorem sib_presence_rule (cf : CFlags) (mode : Mode) (code : List Byte)
    (hs : Insn) (h : Mode.Decode cf mode code = some (hs, none)) :
    (hs.Flags &&& IsModRM ≠ 0 →
      (hs.Flags &&& IsSIB ≠ 0 ↔
        effMod hs ≠ 3 ∧ ModRM.RM hs.ModRM = 4 ∧
          (mode.long = true ∨ hs.Flags &&& HasAddrSize = 0))) ∧
    (hs.Flags &&& IsModRM = 0 → hs.Flags &&& IsSIB = 0) := by
  obtain ⟨hs0, n, rfl, hl⟩ := (decode_late cf mode code hs none h).1 rfl
  show (hs0.Flags &&& IsModRM ≠ 0 →
      (hs0.Flags &&& IsSIB ≠ 0 ↔
        effMod hs0 ≠ 3 ∧ ModRM.RM hs0.ModRM = 4 ∧
          (mode.long = true ∨ hs0.Flags &&& HasAddrSize = 0))) ∧
    (hs0.Flags &&& IsModRM = 0 → hs0.Flags &&& IsSIB = 0)
  constructor
  · intro hm
    have hb := hl.sibBit ((isModRM_iff _).mp hm)
    rw [isSIB_iff, hb, decide_eq_true_iff]
    have ha : hs0.Flags &&& HasAddrSize = 0 ↔ hs0.Flags.testBit 14 = false := by
      rw [← not_iff_not, Bool.not_eq_false]
      exact hasAddrSize_iff _
    rw [ha]
  · intro hm
    have h0 : hs0.Flags.testBit 0 = false := by
      by_contra hb
      exact (isModRM_iff _).mpr (by simpa using hb) hm
    by_contra hne
    have := (isSIB_iff _).mp hne
    rw [(hl.noModRM h0).1] at this
    cases this

theorem sib_presence_rule_witness :
    Mode.Decode sampleCF (sampleMode true) [0x67, 0x00, 0x04, 0x25, 1, 2, 3, 4] =
      some ({ Flags := 0x4103, Length := 8, Opcode := 0, Opcode2 := 0, REX := 0,
              ModRM := 0x04, SIB := 0x25, Imm := ⟨0, 0⟩, Disp := ⟨0x04030201, 32⟩ }, none) ∧
    ((0x4103 : Nat) &&& IsModRM ≠ 0 →
      ((0x4103 : Nat) &&& IsSIB ≠ 0 ↔
        ModRM.Mod 0x04 ≠ 3 ∧ ModRM.RM 0x04 = 4 ∧
          (true = true ∨ (0x4103 : Nat) &&& HasAddrSize = 0))) :=
  ⟨by decide,
    (sib_presence_rule sampleCF (sampleMode true) [0x67, 0x00, 0x04, 0x25, 1, 2, 3, 4]
      { Flags := 0x4103, Length := 8, Opcode := 0, Opcode2 := 0, REX := 0,
        ModRM := 0x04, SIB := 0x25, Imm := ⟨0, 0⟩, Disp := ⟨0x04030201, 32⟩ }
      (by decide)).1⟩

/-- Claim C17: the displacement width rule. For every mode and every successful
`Decode` with `IsModRM` set, with the size `ruleDispSize` that the rule gives
from `mod` (counted as 3 for the two-byte opcodes `0x20`–`0x23`), `ModRM.RM()`,
`HasAddrSize` and the SIB override: `HasDisp8`, `HasDisp16`, `HasDisp32` is set
exactly when the size is 1, 2, 4 respectively, and in 64-bit mode `Disp.Bits` is
8 times the size. -/
theorem displacement_width_rule (cf : CFlags) (mode : Mode) (code : List Byte)
    (hs : Insn) (h : Mode.Decode cf mode code = some (hs, none))
    (hm : hs.Flags &&& IsModRM ≠ 0) :
    (hs.Flags &&& HasDisp8 ≠ 0 ↔ ruleDispSize hs = 1) ∧
    (hs.Flags &&& HasDisp16 ≠ 0 ↔ ruleDispSize hs = 2) ∧
    (hs.Flags &&& HasDisp32 ≠ 0 ↔ ruleDispSize hs = 4) ∧
    (mode.long = true → hs.Disp.Bits = 8 * ruleDispSize hs) := by
  obtain ⟨hs0, n, rfl, hl⟩ := (decode_late cf mode code hs none h).1 rfl
  have h0 : hs0.Flags.testBit 0 = true := (isModRM_iff _).mp hm
  have hr : ruleDispSize { hs0 with Length := n } =
      dispSizeRule (effMod hs0) (ModRM.RM hs0.ModRM) (hs0.Flags.testBit 14)
        (hs0.Flags.testBit 1 && decide (SIB.Base hs0.SIB = 5)) := ruleDispSize_eq _
  rw [hr]
  refine ⟨?_, ?_, ?_, fun hlong => hl.dbits h0 hlong⟩
  · show hs0.Flags &&& 2 ^ 6 ≠ 0 ↔ _
    rw [and_two_pow_ne_zero_iff, hl.d8 h0, decide_eq_true_iff]
  · show hs0.Flags &&& 2 ^ 7 ≠ 0 ↔ _
    rw [and_two_pow_ne_zero_iff, hl.d16 h0, decide_eq_true_iff]
  · show hs0.Flags &&& 2 ^ 8 ≠ 0 ↔ _
    rw [and_two_pow_ne_zero_iff, hl.d32 h0, decide_eq_true_iff]

theorem displacement_width_rule_witness :
    Mode.Decode sampleCF (sampleMode true) [0x00, 0x04, 0x25, 1, 2, 3, 4] =
      some ({ Flags := 0x103, Length := 7, Opcode := 0, Opcode2 := 0, REX := 0,
              ModRM := 0x04, SIB := 0x25, Imm := ⟨0, 0⟩, Disp := ⟨0x04030201, 32⟩ }, none) ∧
    (0x103 : Nat) &&& IsModRM ≠ 0 ∧
    ruleDispSize { Flags := 0x103, Length := 7, Opcode := 0, Opcode2 := 0, REX := 0,
                   ModRM := 0x04, SIB := 0x25, Imm := ⟨0, 0⟩, Disp := ⟨0x04030201, 32⟩ } = 4 ∧
    ((0x103 : Nat) &&& HasDisp32 ≠ 0 ↔
      ruleDispSize { Flags := 0x103, Length := 7, Opcode := 0, Opcode2 := 0, REX := 0,
                     ModRM := 0x04, SIB := 0x25, Imm := ⟨0, 0⟩,
                     Disp := ⟨0x04030201, 32⟩ } = 4) :=
  ⟨by decide, by decide, by decide,
    (displacement_width_rule sampleCF (sampleMode true) [0x00, 0x04, 0x25, 1, 2, 3, 4]
      { Flags := 0x103, Length := 7, Opcode := 0, Opcode2 := 0, REX := 0,
        ModRM := 0x04, SIB := 0x25, Imm := ⟨0, 0⟩, Disp := ⟨0x04030201, 32⟩ }
      (by decide) (by decide)).2.2.1⟩

/-- Claim C18: REX must immediately precede the opcode. In 64-bit mode, for every
input made of at most 13 prefix bytes, then two bytes with high nibble `0x4`,
then anything, `Decode` returns `ErrUnknownOpcode`. In 32-bit mode no byte is
treated as REX: whatever `Decode` returns, with or without an error, `HasREX` is
not set and `REX` is zero. -/
theorem rex_immediately_precedes_opcode (cf : CFlags) (mode : Mode) :
    (mode.long = true → ∀ (pfx : List Byte) (r1 r2 : Byte) (rest : List Byte),
      (∀ b ∈ pfx, b.val ∈ prefixBytes) → pfx.length ≤ 13 →
      r1.val &&& 0xf0 = 0x40 → r2.val &&& 0xf0 = 0x40 →
      ∃ hs, Mode.Decode cf mode (pfx ++ r1 :: r2 :: rest) =
        some (hs, some DecoderError.ErrUnknownOpcode)) ∧
    (mode.long = false → ∀ (code : List Byte) (hs : Insn) (err : Option DecoderError),
      Mode.Decode cf mode code = some (hs, err) →
      hs.Flags &&& HasREX = 0 ∧ hs.REX = 0) := by
  constructor
  · intro hl pfx r1 r2 rest hp hlen h1 h2
    exact decode_double_rex cf mode hl pfx hp hlen r1 r2 h1 h2 rest
  · intro hl code hs err h
    have hr : RexOk mode.long hs := by
      cases err with
      | none =>
        obtain ⟨hs0, n, rfl, hlate⟩ := (decode_late cf mode code hs none h).1 rfl
        exact rexOk_of_eq hlate.rex rfl rfl
      | some e => exact ((decode_late cf mode code hs (some e) h).2 e rfl).2
    have h16 : hs.Flags.testBit 16 = false := by
      by_contra hb
      have := (hr.1 (by simpa using hb)).1
      rw [hl] at this
      cases this
    refine ⟨?_, hr.2 h16⟩
    by_contra hne
    have := (hasREX_iff _).mp hne
    rw [h16] at this
    cases this

theorem rex_immediately_precedes_opcode_witness :
    (∃ hs, Mode.Decode sampleCF (sampleMode true) ([0x66, 0x2e] ++ 0x48 :: 0x41 :: [0x90]) =
      some (hs, some DecoderError.ErrUnknownOpcode)) ∧
    Mode.Decode sampleCF (sampleMode false) [0x48, 0x00, 0xc0] =
      some ({ Flags := 0, Length := 1, Opcode := 0x48, Opcode2 := 0, REX := 0,
              ModRM := 0, SIB := 0, Imm := ⟨0, 0⟩, Disp := ⟨0, 0⟩ }, none) ∧
    ((0 : Nat) &&& HasREX = 0 ∧ (0 : Nat) = 0) :=
  ⟨(rex_immediately_precedes_opcode sampleCF (sampleMode true)).1 rfl [0x66, 0x2e] 0x48 0x41
      [0x90] (by decide) (by decide) (by decide) (by decide),
    by decide,
    (rex_immediately_precedes_opcode sampleCF (sampleMode false)).2 rfl [0x48, 0x00, 0xc0]
      { Flags := 0, Length := 1, Opcode := 0x48, Opcode2 := 0, REX := 0,
        ModRM := 0, SIB := 0, Imm := ⟨0, 0⟩, Disp := ⟨0, 0⟩ } none (by decide)⟩

/-! ## Presence flags, absent fields and the stability of errors -/

/-- Claim C27: absent fields are zero and the presence flags are consistent. For
every mode and every instruction of a successful `Decode`: `IsSIB` implies
`IsModRM`; without `IsModRM`, `ModRM = 0`; without `IsSIB`, `SIB = 0`; without
`HasREX`, `REX = 0`; with `HasREX`, `REX` has high nibble `0x4` and the mode is
64-bit (so `HasREX` is never set in 32-bit mode); `Opcode ≠ 0x0F` implies
`Opcode2 = 0`; and at most one of `HasDisp8`, `HasDisp16`, `HasDisp32` is set. -/
theorem presence_flags_consistent (cf : CFlags) (mode : Mode) (code : List Byte)
    (hs : Insn) (h : Mode.Decode cf mode code = some (hs, none)) :
    (hs.Flags &&& IsSIB ≠ 0 → hs.Flags &&& IsModRM ≠ 0) ∧
    (hs.Flags &&& IsModRM = 0 → hs.ModRM = 0) ∧
    (hs.Flags &&& IsSIB = 0 → hs.SIB = 0) ∧
    (hs.Flags &&& HasREX = 0 → hs.REX = 0) ∧
    (hs.Flags &&& HasREX ≠ 0 → hs.REX &&& 0xf0 = 0x40 ∧ mode.long = true) ∧
    (hs.Opcode ≠ 0x0f → hs.Opcode2 = 0) ∧
    ¬ (hs.Flags &&& HasDisp8 ≠ 0 ∧ hs.Flags &&& HasDisp16 ≠ 0) ∧
    ¬ (hs.Flags &&& HasDisp8 ≠ 0 ∧ hs.Flags &&& HasDisp32 ≠ 0) ∧
    ¬ (hs.Flags &&& HasDisp16 ≠ 0 ∧ hs.Flags &&& HasDisp32 ≠ 0) := by
  obtain ⟨hs0, n, rfl, hl⟩ := (decode_late cf mode code hs none h).1 rfl
  have hz : ∀ {f m k : Nat}, (f &&& m ≠ 0 ↔ f.testBit k = true) → f &&& m = 0 →
      f.testBit k = false := by
    intro f m k hiff h0
    by_contra hb
    exact hiff.mpr (by simpa using hb) h0
  have h6 : ∀ f : Nat, f &&& HasDisp8 ≠ 0 ↔ f.testBit 6 = true :=
    fun f => and_two_pow_ne_zero_iff f 6
  have h7 : ∀ f : Nat, f &&& HasDisp16 ≠ 0 ↔ f.testBit 7 = true :=
    fun f => and_two_pow_ne_zero_iff f 7
  have h8 : ∀ f : Nat, f &&& HasDisp32 ≠ 0 ↔ f.testBit 8 = true :=
    fun f => and_two_pow_ne_zero_iff f 8
  show (hs0.Flags &&& IsSIB ≠ 0 → hs0.Flags &&& IsModRM ≠ 0) ∧
    (hs0.Flags &&& IsModRM = 0 → hs0.ModRM = 0) ∧
    (hs0.Flags &&& IsSIB = 0 → hs0.SIB = 0) ∧
    (hs0.Flags &&& HasREX = 0 → hs0.REX = 0) ∧
    (hs0.Flags &&& HasREX ≠ 0 → hs0.REX &&& 0xf0 = 0x40 ∧ mode.long = true) ∧
    (hs0.Opcode ≠ 0x0f → hs0.Opcode2 = 0) ∧
    ¬ (hs0.Flags &&& HasDisp8 ≠ 0 ∧ hs0.Flags &&& HasDisp16 ≠ 0) ∧
    ¬ (hs0.Flags &&& HasDisp8 ≠ 0 ∧ hs0.Flags &&& HasDisp32 ≠ 0) ∧
    ¬ (hs0.Flags &&& HasDisp16 ≠ 0 ∧ hs0.Flags &&& HasDisp32 ≠ 0)
  refine ⟨?_, ?_, ?_, ?_, ?_, hl.opc, ?_, ?_, ?_⟩
  · intro hsib
    by_contra hm
    have h0 := hz (isModRM_iff _) (by simpa using hm)
    have h1 := (isSIB_iff _).mp hsib
    rw [(hl.noModRM h0).1] at h1
    cases h1
  · intro hm
    exact (hl.noModRM (hz (isModRM_iff _) hm)).2.2.2.2.1
  · intro hsib
    exact hl.noSib (hz (isSIB_iff _) hsib)
  · intro hr
    exact hl.rex.2 (hz (hasREX_iff _) hr)
  · intro hr
    have := hl.rex.1 ((hasREX_iff _).mp hr)
    exact ⟨this.2, this.1⟩
  · rintro ⟨g6, g7⟩
    have g6' := (h6 _).mp g6
    have g7' := (h7 _).mp g7
    by_cases h0 : hs0.Flags.testBit 0 = true
    · have e6 := hl.d8 h0
      have e7 := hl.d16 h0
      rw [e6, decide_eq_true_iff] at g6'
      rw [e7, decide_eq_true_iff] at g7'
      rw [g6'] at g7'
      cases g7'
    · rw [(hl.noModRM (by simpa using h0)).2.1] at g6'
      cases g6'
  · rintro ⟨g6, g8⟩
    have g6' := (h6 _).mp g6
    have g8' := (h8 _).mp g8
    by_cases h0 : hs0.Flags.testBit 0 = true
    · have e6 := hl.d8 h0
      have e8 := hl.d32 h0
      rw [e6, decide_eq_true_iff] at g6'
      rw [e8, decide_eq_true_iff] at g8'
      rw [g6'] at g8'
      cases g8'
    · rw [(hl.noModRM (by simpa using h0)).2.1] at g6'
      cases g6'
  · rintro ⟨g7, g8⟩
    have g7' := (h7 _).mp g7
    have g8' := (h8 _).mp g8
    by_cases h0 : hs0.Flags.testBit 0 = true
    · have e7 := hl.d16 h0
      have e8 := hl.d32 h0
      rw [e7, decide_eq_true_iff] at g7'
      rw [e8, decide_eq_true_iff] at g8'
      rw [g7'] at g8'
      cases g8'
    · rw [(hl.noModRM (by simpa using h0)).2.2.1] at g7'
      cases g7'

theorem presence_flags_consistent_witness :
    Mode.Decode sampleCF (sampleMode true) [0x48, 0x00, 0x04, 0x25, 1, 2, 3, 4] =
      some ({ Flags := 0x10103, Length := 8, Opcode := 0, Opcode2 := 0, REX := 0x48,
              ModRM := 0x04, SIB := 0x25, Imm := ⟨0, 0⟩, Disp := ⟨0x04030201, 32⟩ }, none) ∧
    ((0x10103 : Nat) &&& HasREX ≠ 0 → (0x48 : Nat) &&& 0xf0 = 0x40 ∧ true = true) ∧
    ¬ ((0x10103 : Nat) &&& HasDisp8 ≠ 0 ∧ (0x10103 : Nat) &&& HasDisp32 ≠ 0) :=
  ⟨by decide,
    (presence_flags_consistent sampleCF (sampleMode true)
      [0x48, 0x00, 0x04, 0x25, 1, 2, 3, 4]
      { Flags := 0x10103, Length := 8, Opcode := 0, Opcode2 := 0, REX := 0x48,
        ModRM := 0x04, SIB := 0x25, Imm := ⟨0, 0⟩, Disp := ⟨0x04030201, 32⟩ }
      (by decide)).2.2.2.2.1,
    (presence_flags_consistent sampleCF (sampleMode true)
      [0x48, 0x00, 0x04, 0x25, 1, 2, 3, 4]
      { Flags := 0x10103, Length := 8, Opcode := 0, Opcode2 := 0, REX := 0x48,
        ModRM := 0x04, SIB := 0x25, Imm := ⟨0, 0⟩, Disp := ⟨0x04030201, 32⟩ }
      (by decide)).2.2.2.2.2.2.2.1⟩

theorem take15_append (code ext : List Byte) :
    ∃ more, (code ++ ext).take 15 = code.take 15 ++ more := by
  exact ⟨ext.take (15 - code.length), List.take_append_eq_append_take⟩

/-- Claim C28: only `ErrLength` depends on how much input was supplied. For every
mode and every input on which `Decode` returns `ErrUnknownOpcode`,
`ErrInvalidLock` or `ErrBadOperand`, `Decode` of the input followed by any
further bytes returns the same error, with the same instruction. -/
theorem other_errors_survive_more_input (cf : CFlags) (mode : Mode) (code ext : List Byte)
    (hs : Insn) (e : DecoderError) (h : Mode.Decode cf mode code = some (hs, some e))
    (he : e ≠ DecoderError.ErrLength) :
    Mode.Decode cf mode (code ++ ext) = some (hs, some e) := by
  have hne : code ≠ [] := by
    rintro rfl
    simp only [Mode.Decode, List.length_nil, if_true, Option.some.injEq, Prod.mk.injEq] at h
    exact he h.2.symm
  have hne' : code ++ ext ≠ [] := by simp [hne]
  rw [decode_eq cf mode code hne] at h
  obtain ⟨more, hm⟩ := take15_append code ext
  rw [decode_eq cf mode _ hne', hm]
  cases hb : decodeBody cf mode (code.take 15) with
  | next st p => rw [hb] at h; cases h
  | done hs1 p => rw [hb] at h; cases h
  | panic => rw [hb] at h; cases h
  | fail hs1 e1 =>
    rw [hb] at h
    simp only [Option.some.injEq, Prod.mk.injEq] at h
    obtain ⟨rfl, rfl⟩ := h
    rw [(framed_decodeBody cf mode).fail _ _ _ hb he more]

theorem other_errors_survive_more_input_witness :
    Mode.Decode sampleCF (sampleMode true) [0xf0, 0x01, 0xc8] =
      some ({ Flags := 0x8001, Length := 0, Opcode := 0x01, Opcode2 := 0, REX := 0,
              ModRM := 0xc8, SIB := 0, Imm := ⟨0, 0⟩, Disp := ⟨0, 0⟩ },
            some DecoderError.ErrInvalidLock) ∧
    DecoderError.ErrInvalidLock ≠ DecoderError.ErrLength ∧
    Mode.Decode sampleCF (sampleMode true) ([0xf0, 0x01, 0xc8] ++ [0x90, 0x90]) =
      some ({ Flags := 0x8001, Length := 0, Opcode := 0x01, Opcode2 := 0, REX := 0,
              ModRM := 0xc8, SIB := 0, Imm := ⟨0, 0⟩, Disp := ⟨0, 0⟩ },
            some DecoderError.ErrInvalidLock) :=
  ⟨by decide, by decide,
    other_errors_survive_more_input sampleCF (sampleMode true) [0xf0, 0x01, 0xc8] [0x90, 0x90]
      { Flags := 0x8001, Length := 0, Opcode := 0x01, Opcode2 := 0, REX := 0,
        ModRM := 0xc8, SIB := 0, Imm := ⟨0, 0⟩, Disp := ⟨0, 0⟩ }
      DecoderError.ErrInvalidLock (by decide) (by decide)⟩

/-! ## The segment of a prefix set -/

theorem testBit_and_segMask (p i : Nat) :
    (p &&& psetSegMask).testBit i = (decide (7 ≤ i ∧ i ≤ 12) && p.testBit i) := by
  rw [Nat.testBit_and]
  by_cases hi : i < 16
  · rw [testBit_psetSegMask hi, Bool.and_comm]
  · have h1 : psetSegMask.testBit i = false :=
      Nat.testBit_lt_two_pow (Nat.lt_of_lt_of_le (by decide : psetSegMask < 2 ^ 13)
        (Nat.pow_le_pow_right (by decide) (by omega)))
    have h2 : ¬ (7 ≤ i ∧ i ≤ 12) := by omega
    rw [h1]
    simp [h2]

theorem mem_segmentIDs (s : Nat) : s ∈ segmentIDs ↔ 7 ≤ s ∧ s ≤ 12 := by
  unfold segmentIDs PreSegDS PreSegCS PreSegSS PreSegES PreSegFS PreSegGS
  simp only [List.mem_cons, List.mem_singleton, List.not_mem_nil, or_false]
  omega

theorem segMask_eq_zero (p : Nat) (h : ∀ s ∈ segmentIDs, PrefixSet.Has p s = false) :
    p &&& psetSegMask = 0 := by
  apply Nat.eq_of_testBit_eq
  intro i
  rw [testBit_and_segMask, Nat.zero_testBit]
  by_cases hi : 7 ≤ i ∧ i ≤ 12
  · have := h i ((mem_segmentIDs i).mpr hi)
    rw [has_eq_testBit p (by omega : i < 16)] at this
    rw [this, Bool.and_false]
  · simp [hi]

theorem segMask_eq_pow (p s : Nat) (hs : s ∈ segmentIDs) (h1 : PrefixSet.Has p s = true)
    (h2 : ∀ t ∈ segmentIDs, t ≠ s → PrefixSet.Has p t = false) :
    p &&& psetSegMask = 2 ^ s := by
  have hs' := (mem_segmentIDs s).mp hs
  apply Nat.eq_of_testBit_eq
  intro i
  rw [testBit_and_segMask, Nat.testBit_two_pow]
  by_cases hi : 7 ≤ i ∧ i ≤ 12
  · by_cases his : s = i
    · subst his
      rw [has_eq_testBit p (by omega : s < 16)] at h1
      simp [hi, h1]
    · have := h2 i ((mem_segmentIDs i).mpr hi) (fun e => his e.symm)
      rw [has_eq_testBit p (by omega : i < 16)] at this
      simp [this, his]
  · have : s ≠ i := by omega
    simp [hi, this]

theorem segment_of_pow : ∀ s : Fin 13, 7 ≤ s.val →
    PrefixID.Segment (PrefixSet.FirstPrefix (2 ^ s.val)) = PrefixID.Segment s.val := by
  decide

/-- Claim C25: segment extraction. For every `PrefixSet` `p`: without a segment
bit, `p.Segment()` is `SegNone`; with exactly one segment bit, whatever the
other bits, it is the `Segment` of that bit, which is `SegDS`, `SegCS`, `SegSS`,
`SegES`, `SegFS`, `SegGS` for the six identifiers; and so for every segment
prefix identifier `s`, `p.Add(s).Segment() = s.Segment()`. -/
theorem segment_extraction (p : Nat) :
    ((∀ s ∈ segmentIDs, PrefixSet.Has p s = false) → PrefixSet.Segment p = SegNone) ∧
    (∀ s ∈ segmentIDs, PrefixSet.Has p s = true →
      (∀ t ∈ segmentIDs, t ≠ s → PrefixSet.Has p t = false) →
      PrefixSet.Segment p = PrefixID.Segment s) ∧
    (∀ s ∈ segmentIDs, PrefixSet.Segment (PrefixSet.Add p s) = PrefixID.Segment s) ∧
    (PrefixID.Segment PreSegDS = SegDS ∧ PrefixID.Segment PreSegCS = SegCS ∧
      PrefixID.Segment PreSegSS = SegSS ∧ PrefixID.Segment PreSegES = SegES ∧
      PrefixID.Segment PreSegFS = SegFS ∧ PrefixID.Segment PreSegGS = SegGS) := by
  have hone : ∀ (q s : Nat), s ∈ segmentIDs → PrefixSet.Has q s = true →
      (∀ t ∈ segmentIDs, t ≠ s → PrefixSet.Has q t = false) →
      PrefixSet.Segment q = PrefixID.Segment s := by
    intro q s hs h1 h2
    have hs' := (mem_segmentIDs s).mp hs
    unfold PrefixSet.Segment
    rw [segMask_eq_pow q s hs h1 h2]
    exact segment_of_pow ⟨s, by omega⟩ hs'.1
  refine ⟨?_, hone p, ?_, by decide⟩
  · intro h
    unfold PrefixSet.Segment
    rw [segMask_eq_zero p h]
    rfl
  · intro s hs
    have hs' := (mem_segmentIDs s).mp hs
    refine hone _ s hs ?_ ?_
    · rw [has_eq_testBit _ (by omega : s < 16), testBit_add _ _ (by omega : s < 16)]
      simp
    · intro t ht hts
      have ht' := (mem_segmentIDs t).mp ht
      rw [has_eq_testBit _ (by omega : t < 16), testBit_add _ _ (by omega : t < 16)]
      have h1 : ¬ (s = t) := fun e => hts e.symm
      simp [h1, hs', ht']

theorem segment_extraction_witness :
    PreSegFS ∈ segmentIDs ∧ PrefixSet.Has 0x0829 PreSegFS = true ∧
    (∀ t ∈ segmentIDs, t ≠ PreSegFS → PrefixSet.Has 0x0829 t = false) ∧
    PrefixSet.Segment 0x0829 = SegFS ∧
    PrefixSet.Segment (PrefixSet.Add 0x0829 PreSegCS) = SegCS :=
  ⟨by decide, by decide, by decide,
    ((segment_extraction 0x0829).2.1 PreSegFS (by decide) (by decide) (by decide)).trans
      (by decide),
    ((segment_extraction 0x0829).2.2.1 PreSegCS (by decide)).trans (by decide)⟩

/-! ## The restriction checks of lines 216–249 -/

/-- An input that reaches line 216 goes on from there. -/
theorem decodeBody_of_atOperandCheck (cf : CFlags) (mode : Mode) (code : List Byte) (st : St)
    (p : List Byte) (h : atOperandCheck cf mode code = some (st, p)) :
    decodeBody cf mode code = fromOperandCheck cf mode st p := by
  have hd : decodeBody cf mode code =
      (((((beforeModRM cf mode code).andThen (modrmBlock cf mode)).andThen
        (immP66Phase cf mode)).andThen (imm16Phase cf mode)).andThen (imm8Phase cf)).andThen
        (relPhase cf) := rfl
  rw [hd]
  unfold atOperandCheck at h
  cases hb : beforeModRM cf mode code with
  | done hs p0 => rw [hb] at h; cases h
  | fail hs e => rw [hb] at h; cases h
  | panic => rw [hb] at h; cases h
  | next st0 p0 =>
    rw [hb] at h
    dsimp only at h
    by_cases hm : st0.cflags &&& cf.cfModRM.val ≠ 0
    · rw [if_pos hm] at h
      cases hr : readModRM st0 p0 with
      | done hs p1 => rw [hr] at h; cases h
      | fail hs e => rw [hr] at h; cases h
      | panic => rw [hr] at h; cases h
      | next st1 p1 =>
        rw [hr] at h
        dsimp only at h
        cases he : earlyChecks mode st1 with
        | fail hs e => rw [he] at h; cases h
        | panic => rw [he] at h; cases h
        | cont st2 =>
          rw [he] at h
          simp only [Option.some.injEq, Prod.mk.injEq] at h
          obtain ⟨rfl, rfl⟩ := h
          have hmc : modrmChecks cf mode st1 =
              (earlyChecks mode st1).andThen (fun st =>
                (operandCheck mode st).andThen
                  (fun st => .cont (dispSizeOf (immPromote cf st)))) := rfl
          have hblock : modrmBlock cf mode st0 p0 =
              ((((operandCheck mode st2).andThen
                (fun st => .cont (dispSizeOf (immPromote cf st)))).run p1).andThen
                (sibPhase mode)).andThen dispPhase := by
            unfold modrmBlock
            rw [if_pos hm, hr]
            simp only [Step.andThen]
            rw [hmc, he]
            rfl
          simp only [Step.andThen]
          rw [hblock]
          rfl
    · rw [if_neg hm] at h
      cases h

theorem errLength_sibPhase (mode : Mode) (st : St) (p : List Byte) :
    Step.Sat (fun _ => True) (fun _ => True) (fun _ e => e = .ErrLength)
      (sibPhase mode st p) := by
  unfold sibPhase
  split_ifs
  · exact sat_nextByte p rfl (fun _ _ _ => trivial)
  · trivial
  · trivial

theorem errLength_dispPhase (st : St) (p : List Byte) :
    Step.Sat (fun _ => True) (fun _ => True) (fun _ e => e = .ErrLength)
      (dispPhase st p) := by
  unfold dispPhase
  split_ifs
  all_goals first
    | trivial
    | exact sat_readLit p (fun _ => rfl) (fun _ _ => trivial)

theorem errLength_immP66Phase (cf : CFlags) (mode : Mode) (st : St) (p : List Byte) :
    Step.Sat (fun _ => True) (fun _ => True) (fun _ e => e = .ErrLength)
      (immP66Phase cf mode st p) := by
  unfold immP66Phase
  split_ifs
  all_goals first
    | trivial
    | exact sat_readLit p (fun _ => rfl) (fun _ _ => trivial)

theorem errLength_imm16Phase (cf : CFlags) (mode : Mode) (st : St) (p : List Byte) :
    Step.Sat (fun _ => True) (fun _ => True) (fun _ e => e = .ErrLength)
      (imm16Phase cf mode st p) := by
  unfold imm16Phase
  split_ifs
  all_goals first
    | trivial
    | exact sat_readLit p (fun _ => rfl) (fun _ _ => trivial)

theorem errLength_imm8Phase (cf : CFlags) (st : St) (p : List Byte) :
    Step.Sat (fun _ => True) (fun _ => True) (fun _ e => e = .ErrLength)
      (imm8Phase cf st p) := by
  unfold imm8Phase
  split_ifs
  all_goals first
    | trivial
    | exact sat_readLit p (fun _ => rfl) (fun _ _ => trivial)

theorem errLength_relPhase (cf : CFlags) (st : St) (p : List Byte) :
    Step.Sat (fun _ => True) (fun _ => True) (fun _ e => e = .ErrLength)
      (relPhase cf st p) := by
  unfold relPhase
  split_ifs
  all_goals first
    | trivial
    | exact sat_readLit p (fun _ => rfl) (fun _ _ => trivial)

/-- Past the restriction checks `Decode` fails with `ErrLength` only. -/
theorem errLength_fromOperandCheck (cf : CFlags) (mode : Mode) (st : St) (p : List Byte)
    (E : Insn → DecoderError → Prop) (hE : ∀ hs, E hs .ErrLength)
    (h : Pure.Sat (fun _ => True) E (operandCheck mode st)) :
    Step.Sat (fun _ => True) (fun _ => True) E (fromOperandCheck cf mode st p) := by
  have hw : ∀ {s : Step}, Step.Sat (fun _ => True) (fun _ => True)
      (fun _ e => e = .ErrLength) s → Step.Sat (fun _ => True) (fun _ => True) E s :=
    fun hs => hs.mono (fun _ h => h) (fun _ h => h) (fun hs e he => by rw [he]; exact hE hs)
  unfold fromOperandCheck
  refine sat_andThen (Q := fun _ => True) (sat_andThen (Q := fun _ => True)
    (sat_andThen (Q := fun _ => True) (sat_andThen (Q := fun _ => True)
    (sat_andThen (Q := fun _ => True) (sat_andThen (Q := fun _ => True) ?_ ?_) ?_) ?_) ?_) ?_) ?_
  · apply sat_run
    apply pure_sat_andThen h
    intro st1 _
    trivial
  · intro st1 p1 _; exact hw (errLength_sibPhase mode st1 p1)
  · intro st1 p1 _; exact hw (errLength_dispPhase st1 p1)
  · intro st1 p1 _; exact hw (errLength_immP66Phase cf mode st1 p1)
  · intro st1 p1 _; exact hw (errLength_imm16Phase cf mode st1 p1)
  · intro st1 p1 _; exact hw (errLength_imm8Phase cf st1 p1)
  · intro st1 p1 _; exact hw (errLength_relPhase cf st1 p1)

theorem fromOperandCheck_fail (cf : CFlags) (mode : Mode) (st : St) (p : List Byte)
    (hs : Insn) (e : DecoderError) (h : operandCheck mode st = .fail hs e) :
    fromOperandCheck cf mode st p = .fail hs e := by
  unfold fromOperandCheck
  rw [h]
  rfl

/-- The scan of lines 225–235 returns `ErrBadOperand` only where it stands on a
byte equal to the opcode whose next byte, shifted by `reg`, has bit 7 clear. -/
theorem onlyMemLoop_true (tbl : List Byte) (opcode pref reg : Nat) (endv : Int) (fuel : Nat) :
    ∀ it : Nat, onlyMemLoop tbl opcode pref reg endv fuel it = some true →
      ∃ j u, byteAt tbl j = some opcode ∧ byteAt tbl (j + 1) = some u ∧
        ((u <<< reg) % 256) &&& 0x80 = 0 := by
  induction fuel with
  | zero =>
    intro it h
    simp [onlyMemLoop] at h
  | succ n ih =>
    intro it h
    unfold onlyMemLoop at h
    split_ifs at h with h1
    · cases hv : byteAt tbl it with
      | none => rw [hv] at h; cases h
      | some v =>
        rw [hv] at h
        dsimp only at h
        split_ifs at h with h2
        · simp only [Nat.add_sub_cancel] at h
          rw [hv] at h
          dsimp only at h
          split_ifs at h with h3
          · cases hu : byteAt tbl (it + 1) with
            | none => rw [hu] at h; cases h
            | some u =>
              rw [hu] at h
              dsimp only at h
              split_ifs at h with h4
              · exact ⟨it, u, by rw [hv, h2], hu, h4⟩
              · cases h
          · exact ih _ h
        · exact ih _ h
    · cases h

theorem pre_beforeModRM (cf : CFlags) (mode : Mode) (code : List Byte)
    (hlen : code.length < 16) :
    Step.Sat
      (fun st => Early mode.long ((leadingPrefixes code).foldl PrefixSet.Add 0) st ∧
        (st.hs.Opcode ≠ 0x0f → st.hs.Opcode2 = 0) ∧ st.opcode = effOpcode st.hs)
      (fun _ => False) (fun _ _ => True) (beforeModRM cf mode code) := by
  unfold beforeModRM
  refine sat_andThen
    (Q := fun st => Early mode.long ((leadingPrefixes code).foldl PrefixSet.Add 0) st ∧
      (st.hs.Opcode ≠ 0x0f → st.hs.Opcode2 = 0) ∧ st.c = effOpcode st.hs)
    (sat_andThen
    (Q := fun st => Early mode.long ((leadingPrefixes code).foldl PrefixSet.Add 0) st ∧
      st.hs.Opcode2 = 0)
    (sat_andThen
    (Q := fun st => st.hs = Insn.zero ∧
      st.pref = (leadingPrefixes code).foldl PrefixSet.Add 0) ?_ ?_) ?_) ?_
  · rw [prefixLoop_exact code 16 St.init hlen]
    cases code.dropWhile (fun b => PrefixToID b.val != PreNone) with
    | nil => trivial
    | cons b r => exact ⟨rfl, rfl⟩
  · rintro st p ⟨h0, hp⟩
    have h6 : st.pref.testBit 6 = false := by
      rw [hp, foldl_add_rex _ (leadingPrefixes_ne_rex code) 0, Nat.zero_testBit]
    have h := early_afterPrefixes mode.long st h0 h6
    rw [hp] at h
    exact (early_rexPhase mode _ _ p h).mono (fun _ k => k) (fun _ k => k)
      (fun _ _ _ => trivial)
  · intro st p h
    exact (early_opcodePhase mode mode.long _ st p h).mono (fun _ k => k) (fun _ k => k)
      (fun _ _ _ => trivial)
  · intro st p h
    exact (early_classifyPhase cf mode mode.long _ st p h).mono (fun _ k => k)
      (fun _ k => k) (fun _ _ _ => trivial)

theorem mid_earlyChecks (mode : Mode) (long : Bool) (P : Nat) (st : St)
    (h : Mid long P st ∧ st.mod = ModRM.Mod st.hs.ModRM) :
    Pure.Sat (fun st' => Mid long P st' ∧ st'.mod = effMod st'.hs ∧ RegRangeOk st'.hs)
      (fun _ _ => True) (earlyChecks mode st) := by
  unfold earlyChecks
  refine pure_sat_andThen (Q := fun st' => ∃ tbl, st' = { st with tbl := tbl })
    (pure_sat_andThen (Q := fun st' => ∃ tbl, st' = { st with tbl := tbl })
    (pure_sat_andThen (Q := fun st' => st' = st) ?_ ?_) ?_) ?_
  · exact (groupRegCheck_shape st).weaken (fun _ h => h) (fun _ _ _ => trivial)
  · rintro st1 rfl
    exact (fpuCheck_shape mode st1).weaken (fun _ h => h) (fun _ _ _ => trivial)
  · rintro st1 ⟨t1, rfl⟩
    refine (lockCheck_shape mode _).weaken ?_ (fun _ _ _ => trivial)
    rintro st' ⟨⟨tbl, rfl⟩, -⟩
    exact ⟨tbl, rfl⟩
  · rintro st1 ⟨t1, rfl⟩
    refine (regRangeCheck_exact _).weaken ?_ (fun _ _ _ => trivial)
    rintro st' ⟨e1, e2, e3, e4, e5, e6, e7⟩
    have e0 : st'.hs = st.hs := by rw [e1]
    have hm' : Mid long P st' := by
      refine mid_of_eq h.1 e0 ?_ ?_ ?_ ?_ <;> rw [e1]
    refine ⟨hm', ?_, ?_⟩
    · rw [e0, ← effMod_of_mid h.1]
      by_cases hc : st.hs.Opcode2 ≠ 0 ∧ 0x20 ≤ st.opcode ∧ st.opcode ≤ 0x23
      · rw [if_pos hc]; exact e2 hc
      · rw [if_neg hc, ← h.2]; exact e3 hc
    · rw [e0]
      exact regRangeOk_of_mid h.1 e4 e5 e6 e7

/-- The locals at line 216 in terms of the instruction decoded so far: `opcode`
is the effective opcode, `mod` the effective `mod`, `reg` is `ModRM.Reg()`. -/
theorem atOperandCheck_locals (cf : CFlags) (mode : Mode) (code : List Byte)
    (hlen : code.length < 16) (st : St) (p : List Byte)
    (h : atOperandCheck cf mode code = some (st, p)) :
    st.opcode = effOpcode st.hs ∧ st.mod = effMod st.hs ∧
      st.reg = ModRM.Reg st.hs.ModRM ∧ (st.hs.Opcode ≠ 0x0f → st.hs.Opcode2 = 0) := by
  have h1 := pre_beforeModRM cf mode code hlen
  unfold atOperandCheck at h
  cases hb : beforeModRM cf mode code with
  | done hs p0 => rw [hb] at h; cases h
  | fail hs e => rw [hb] at h; cases h
  | panic => rw [hb] at h; cases h
  | next st0 p0 =>
    rw [hb] at h h1
    dsimp only at h
    by_cases hm : st0.cflags &&& cf.cfModRM.val ≠ 0
    · rw [if_pos hm] at h
      have h2 := mid_readModRM mode.long _ st0 p0 h1
      cases hr : readModRM st0 p0 with
      | done hs p1 => rw [hr] at h; cases h
      | fail hs e => rw [hr] at h; cases h
      | panic => rw [hr] at h; cases h
      | next st1 p1 =>
        rw [hr] at h h2
        dsimp only at h
        have h3 := mid_earlyChecks mode mode.long _ st1 h2
        cases he : earlyChecks mode st1 with
        | fail hs e => rw [he] at h; cases h
        | panic => rw [he] at h; cases h
        | cont st2 =>
          rw [he] at h h3
          simp only [Option.some.injEq, Prod.mk.injEq] at h
          obtain ⟨rfl, rfl⟩ := h
          exact ⟨h3.1.opcode, h3.2.1, h3.1.reg, h3.1.opc⟩
    · rw [if_neg hm] at h
      cases h

theorem decode_of_atOperandCheck (cf : CFlags) (mode : Mode) (code : List Byte) (st : St)
    (p : List Byte) (h : atOperandCheck cf mode (code.take 15) = some (st, p)) :
    Mode.Decode cf mode code =
      match fromOperandCheck cf mode st p with
      | .next st p => some ({ st.hs with Length := ((code.take 15).length - p.length) % 256 }, none)
      | .done hs p => some ({ hs with Length := ((code.take 15).length - p.length) % 256 }, none)
      | .fail hs err => some (hs, some err)
      | .panic => none := by
  have hne : code ≠ [] := by
    rintro rfl
    cases h
  rw [decode_eq cf mode code hne, decodeBody_of_atOperandCheck cf mode _ st p h]

/-- Claim C22 as stated fails: in `regMode` the input `0F C5 C0` reaches the
restriction checks with the two-byte opcode `0xC5` and `ModRM.Mod() = 3`, and
`Decode` returns it with success, not `ErrBadOperand`. -/
theorem inline_cases_pass_register_form :
    (atOperandCheck sampleCF (regMode true) ([0x0f, 0xc5, 0xc0] : List Byte)).map
      (fun r => (r.1.hs.Opcode, r.1.hs.Opcode2, ModRM.Mod r.1.hs.ModRM)) =
        some (0x0f, 0xc5, 3) ∧
    Mode.Decode sampleCF (regMode true) [0x0f, 0xc5, 0xc0] =
      some ({ Flags := 1, Length := 3, Opcode := 0x0f, Opcode2 := 0xc5, REX := 0,
              ModRM := 0xc0, SIB := 0, Imm := ⟨0, 0⟩, Disp := ⟨0, 0⟩ }, none) :=
  ⟨by decide, by decide⟩

/-- Claim C22, amended: the inline restrictions on two-byte opcodes apply to the
memory form. For every mode and every input that reaches the restriction checks
of line 216 with a two-byte opcode and `ModRM.Mod() ≠ 3`, `Decode` returns
`ErrBadOperand` when the opcode is `0xC5`, when it is `0x50`, `0xD7` or `0xF7`
and the active prefix set contains `PreNone` or `PreOpSize`, and when it is
`0xD6` and the active prefix set contains `PreRepNZ` or `PreRep`. -/
theorem inline_restrictions_on_memory_form (cf : CFlags) (mode : Mode) (code : List Byte)
    (st : St) (p : List Byte)
    (hreach : atOperandCheck cf mode (code.take 15) = some (st, p))
    (h2 : st.hs.Opcode = 0x0f) (hmod : ModRM.Mod st.hs.ModRM ≠ 3)
    (hcase : st.hs.Opcode2 = 0xc5 ∨
      ((st.hs.Opcode2 = 0x50 ∨ st.hs.Opcode2 = 0xd7 ∨ st.hs.Opcode2 = 0xf7) ∧
        (PrefixSet.Has st.pref PreNone = true ∨ PrefixSet.Has st.pref PreOpSize = true)) ∨
      (st.hs.Opcode2 = 0xd6 ∧
        (PrefixSet.Has st.pref PreRepNZ = true ∨ PrefixSet.Has st.pref PreRep = true))) :
    Mode.Decode cf mode code = some (st.hs, some DecoderError.ErrBadOperand) := by
  obtain ⟨ho, hm, -, -⟩ := atOperandCheck_locals cf mode _ (take15_length code) st p hreach
  have ho' : st.opcode = st.hs.Opcode2 := by
    rw [ho]; unfold effOpcode; rw [if_pos h2]
  have hne : st.hs.Opcode2 ≠ 0 := by
    rcases hcase with h | ⟨h | h | h, -⟩ | ⟨h, -⟩ <;> rw [h] <;> decide
  have hm' : st.mod ≠ 3 := by
    rw [hm]
    unfold effMod
    have : ¬ (st.hs.Opcode = 0x0f ∧ 0x20 ≤ st.hs.Opcode2 ∧ st.hs.Opcode2 ≤ 0x23) := by
      rintro ⟨-, g1, g2⟩
      rcases hcase with h | ⟨h | h | h, -⟩ | ⟨h, -⟩ <;> rw [h] at g1 g2 <;> omega
    rw [if_neg this]
    exact hmod
  have hfail : operandCheck mode st = .fail st.hs .ErrBadOperand := by
    unfold operandCheck
    rw [if_neg hm', if_pos hne, ho']
    rcases hcase with h | ⟨h, hp⟩ | ⟨h, hp⟩
    · have e1 : ¬ (st.hs.Opcode2 = 0x50 ∨ st.hs.Opcode2 = 0xd7 ∨ st.hs.Opcode2 = 0xf7) := by
        rw [h]; decide
      have e2 : ¬ (st.hs.Opcode2 = 0xd6) := by rw [h]; decide
      rw [if_neg e1, if_neg e2, if_pos h]
    · rw [if_pos h, if_pos hp]
    · have e1 : ¬ (st.hs.Opcode2 = 0x50 ∨ st.hs.Opcode2 = 0xd7 ∨ st.hs.Opcode2 = 0xf7) := by
        rw [h]; decide
      rw [if_neg e1, if_pos h, if_pos hp]
  rw [decode_of_atOperandCheck cf mode code st p hreach,
    fromOperandCheck_fail cf mode st p _ _ hfail]

theorem inline_restrictions_on_memory_form_witness :
    ∃ (st : St) (p : List Byte),
      atOperandCheck sampleCF (regMode true) (([0x0f, 0xc5, 0x00] : List Byte).take 15) =
        some (st, p) ∧
      st.hs.Opcode = 0x0f ∧ st.hs.Opcode2 = 0xc5 ∧ ModRM.Mod st.hs.ModRM = 0 ∧
      Mode.Decode sampleCF (regMode true) [0x0f, 0xc5, 0x00] =
        some (st.hs, some DecoderError.ErrBadOperand) :=
  ⟨_, _, rfl, by decide, by decide, by decide,
    inline_restrictions_on_memory_form sampleCF (regMode true) [0x0f, 0xc5, 0x00] _ _ rfl
      (by decide) (by decide) (Or.inl (by decide))⟩

/-- Claim C23, the code at the failing input: with the restriction tables where
`Decode` expects them the scan of lines 217–234 never runs. In `tailMode` the
one-byte restriction table is the entry `(0xC4, 0xFF, 0xFF)`; the input `C4 C0`
reaches the restriction checks with `mod = 3`, opcode `0xC4`, `reg = 0` and the
active prefix set `{PreNone}`; the prefix mask shares bit 0 with the prefix set
and the reg mask has the bit for `reg = 0` set; and `Decode` returns success,
not `ErrBadOperand`: `it` starts at the offset 142 of the table and `end` is its
length 3, so `it < end` fails at once. In `maskMode`, whose entries
`(0xC4, 0xFF, 0xBF)` and `(0xC5, 0xFF, 0xBF)` have the bit for `reg = 0` set and
the bit for `reg = 1` clear, `C4 C0`, `C4 C8`, `0F C5 C0` and `0F C5 C8` all
decode with success: the scan rejects under neither reading of the mask. -/
theorem restriction_scan_never_runs :
    ((atOperandCheck sampleCF (tailMode true) ([0xc4, 0xc0] : List Byte)).map
      (fun r => (r.1.mod, r.1.hs.Opcode, r.1.hs.Opcode2, ModRM.Reg r.1.hs.ModRM, r.1.pref)) =
        some (3, 0xc4, 0, 0, 1) ∧
     ((tailMode true).table.drop (tailMode true).dtOpOnlyMem).take
        ((tailMode true).dtOp2OnlyMem - (tailMode true).dtOpOnlyMem) = [0xc4, 0xff, 0xff] ∧
     (0xff : Nat) &&& (1 % 256) ≠ 0 ∧ (((0xff : Nat) <<< 0) % 256) &&& 0x80 ≠ 0 ∧
     Mode.Decode sampleCF (tailMode true) [0xc4, 0xc0] =
       some ({ Flags := 1, Length := 2, Opcode := 0xc4, Opcode2 := 0, REX := 0,
               ModRM := 0xc0, SIB := 0, Imm := ⟨0, 0⟩, Disp := ⟨0, 0⟩ }, none)) ∧
    (((maskMode true).table.drop (maskMode true).dtOpOnlyMem).take
        ((maskMode true).dtOp2OnlyMem - (maskMode true).dtOpOnlyMem) = [0xc4, 0xff, 0xbf] ∧
     (maskMode true).table.drop (maskMode true).dtOp2OnlyMem = [0xc5, 0xff, 0xbf] ∧
     (((0xbf : Nat) <<< 0) % 256) &&& 0x80 ≠ 0 ∧ (((0xbf : Nat) <<< 1) % 256) &&& 0x80 = 0 ∧
     (atOperandCheck sampleCF (maskMode true) ([0xc4, 0xc8] : List Byte)).map
      (fun r => (r.1.mod, r.1.hs.Opcode, r.1.hs.Opcode2, ModRM.Reg r.1.hs.ModRM, r.1.pref)) =
        some (3, 0xc4, 0, 1, 1) ∧
     (atOperandCheck sampleCF (maskMode true) ([0x0f, 0xc5, 0xc8] : List Byte)).map
      (fun r => (r.1.mod, r.1.hs.Opcode, r.1.hs.Opcode2, ModRM.Reg r.1.hs.ModRM, r.1.pref)) =
        some (3, 0x0f, 0xc5, 1, 1) ∧
     Mode.Decode sampleCF (maskMode true) [0xc4, 0xc0] =
       some ({ Flags := 1, Length := 2, Opcode := 0xc4, Opcode2 := 0, REX := 0,
               ModRM := 0xc0, SIB := 0, Imm := ⟨0, 0⟩, Disp := ⟨0, 0⟩ }, none) ∧
     Mode.Decode sampleCF (maskMode true) [0xc4, 0xc8] =
       some ({ Flags := 1, Length := 2, Opcode := 0xc4, Opcode2 := 0, REX := 0,
               ModRM := 0xc8, SIB := 0, Imm := ⟨0, 0⟩, Disp := ⟨0, 0⟩ }, none) ∧
     Mode.Decode sampleCF (maskMode true) [0x0f, 0xc5, 0xc0] =
       some ({ Flags := 1, Length := 3, Opcode := 0x0f, Opcode2 := 0xc5, REX := 0,
               ModRM := 0xc0, SIB := 0, Imm := ⟨0, 0⟩, Disp := ⟨0, 0⟩ }, none) ∧
     Mode.Decode sampleCF (maskMode true) [0x0f, 0xc5, 0xc8] =
       some ({ Flags := 1, Length := 3, Opcode := 0x0f, Opcode2 := 0xc5, REX := 0,
               ModRM := 0xc8, SIB := 0, Imm := ⟨0, 0⟩, Disp := ⟨0, 0⟩ }, none)) :=
  ⟨⟨by decide, by decide, by decide, by decide, by decide⟩,
   ⟨by decide, by decide, by decide, by decide, by decide, by decide, by decide, by decide,
    by decide, by decide⟩⟩

/-- Where the scan does run, in `scanMode`, whose one-byte restriction table
`(0xC4, 0xBF, 0xBF)` is at offset 0 of the table, the test of line 227 is
`(mask << reg) & 0x80 == 0`: after the prefix `3E`, `C4 C0` (`reg = 0`, bit set)
decodes with success and `C4 C8` (`reg = 1`, bit clear) gives `ErrBadOperand`. -/
theorem restriction_test_on_clear_bit :
    ((scanMode true).table.drop (scanMode true).dtOpOnlyMem).take
        ((scanMode true).dtOp2OnlyMem - (scanMode true).dtOpOnlyMem) = [0xc4, 0xbf, 0xbf] ∧
    Mode.Decode sampleCF (scanMode true) [0x3e, 0xc4, 0xc0] =
      some ({ Flags := 0x20001, Length := 3, Opcode := 0xc4, Opcode2 := 0, REX := 0,
              ModRM := 0xc0, SIB := 0, Imm := ⟨0, 0⟩, Disp := ⟨0, 0⟩ }, none) ∧
    Mode.Decode sampleCF (scanMode true) [0x3e, 0xc4, 0xc8] =
      some ({ Flags := 0x20001, Length := 0, Opcode := 0xc4, Opcode2 := 0, REX := 0,
              ModRM := 0xc8, SIB := 0, Imm := ⟨0, 0⟩, Disp := ⟨0, 0⟩ },
            some DecoderError.ErrBadOperand) :=
  ⟨by decide, by decide, by decide⟩

/-- Claim C24, the code at the failing input: in `tailMode` the one-byte lock
table is the pair `(0x00, 0x00)` alone, so the one-byte opcode `0xB0` has no
entry in it, and yet `Decode` accepts `F0 B0 00` (LOCK, `mod = 0`): the loop
of lines 176–183 runs for `len(end)` bytes, the length of what follows the
sub-table, and meets the `0xB0` of the two-byte lock table. The opcodes `0x00`
and `0x10` behave as the claim says. -/
theorem lock_scan_leaves_its_table :
    ((tailMode true).table.drop (tailMode true).dtOpLockOk).take
      ((tailMode true).dtOp2LockOk - (tailMode true).dtOpLockOk) = [0x00, 0x00] ∧
    Mode.Decode sampleCF (tailMode true) [0xf0, 0xb0, 0x00] =
      some ({ Flags := 0x8001, Length := 3, Opcode := 0xb0, Opcode2 := 0, REX := 0,
              ModRM := 0x00, SIB := 0, Imm := ⟨0, 0⟩, Disp := ⟨0, 0⟩ }, none) ∧
    Mode.Decode sampleCF (tailMode true) [0xf0, 0x00, 0x00] =
      some ({ Flags := 0x8001, Length := 3, Opcode := 0x00, Opcode2 := 0, REX := 0,
              ModRM := 0x00, SIB := 0, Imm := ⟨0, 0⟩, Disp := ⟨0, 0⟩ }, none) ∧
    Mode.Decode sampleCF (tailMode true) [0xf0, 0x10, 0x00] =
      some ({ Flags := 0x8001, Length := 0, Opcode := 0x10, Opcode2 := 0, REX := 0,
              ModRM := 0x00, SIB := 0, Imm := ⟨0, 0⟩, Disp := ⟨0, 0⟩ },
            some DecoderError.ErrInvalidLock) :=
  ⟨by decide, by decide, by decide, by decide⟩

/-! ## The immediates and the bytes they are read from -/

theorem satC_andThen {code : List Byte} {Q Q' : St → List Byte → Prop}
    {R : Insn → List Byte → Prop} {s : Step} {f : St → List Byte → Step}
    (h : Step.SatC code Q R s)
    (hf : ∀ st c p, code = c ++ p → Q st c → Step.SatC code Q' R (f st p)) :
    Step.SatC code Q' R (s.andThen f) := by
  cases s with
  | next st p =>
    obtain ⟨c, hc, hq⟩ := h
    exact hf st c p hc hq
  | done hs p => exact h
  | fail hs e => trivial
  | panic => trivial

theorem readsLE_read8 : ReadsLE Literal.read8 1 8 := by
  intro lit p h
  cases p with
  | nil => cases h
  | cons b rest =>
    refine ⟨by simp, ?_, rfl⟩
    simp [Literal.read8, littleEndian]

theorem readsLE_read16 : ReadsLE Literal.read16 2 16 := by
  intro lit p h
  have hl := littleEndian_take_lt p 2
  unfold Literal.read16 at h ⊢
  dsimp only at h ⊢
  split_ifs at h ⊢ with hlen
  refine ⟨by omega, ?_, rfl⟩
  rw [Nat.mod_eq_of_lt (by simpa using hl)]

theorem readsLE_read32 : ReadsLE Literal.read32 4 32 := by
  intro lit p h
  have hl := littleEndian_take_lt p 4
  unfold Literal.read32 at h ⊢
  dsimp only at h ⊢
  split_ifs at h ⊢ with hlen
  refine ⟨by omega, ?_, rfl⟩
  rw [Nat.mod_eq_of_lt (by simpa using hl)]

theorem readsLE_read64 : ReadsLE Literal.read64 8 64 := by
  intro lit p h
  have hl := littleEndian_take_lt p 8
  unfold Literal.read64 at h ⊢
  dsimp only at h ⊢
  split_ifs at h ⊢ with hlen
  refine ⟨by omega, ?_, rfl⟩
  rw [Nat.mod_eq_of_lt (by simpa using hl)]

/-- A read on the cursor: the continuation gets the literal of the `n` bytes
`bs` read, which go from the cursor to the bytes consumed. -/
theorem satC_readLit {code : List Byte} {Q : St → List Byte → Prop}
    {R : Insn → List Byte → Prop}
    {rd : Literal → List Byte → Bool × Literal × List Byte} {lit : Literal}
    {put : Literal → Insn} {k : Insn → List Byte → Step} (n w : Nat) (hrd : ReadsLE rd n w)
    (c p : List Byte) (hc : code = c ++ p)
    (hk : ∀ bs p', bs.length = n → code = (c ++ bs) ++ p' →
      Step.SatC code Q R (k (put ⟨littleEndian bs, w⟩) p')) :
    Step.SatC code Q R (readLit rd lit put k p) := by
  unfold readLit
  by_cases h : (rd lit p).1 = false
  · simp only [h, if_true]; trivial
  · simp only [h, if_false]
    obtain ⟨h1, h2, h3⟩ := hrd lit p (by simpa using h)
    rw [h2, h3]
    refine hk (p.take n) (p.drop n) ?_ ?_
    · rw [List.length_take]; omega
    · rw [List.append_assoc, List.take_append_drop]; exact hc

theorem testBit_or_addr (f m i : Nat) (hm : m ||| 0x1c3 = 0x1c3)
    (hi : (2 ≤ i ∧ i ≤ 5) ∨ i = 9) : (f ||| m).testBit i = f.testBit i := by
  have hc : (0x1c3 : Nat).testBit i = false := by
    rcases hi with ⟨h2, h5⟩ | rfl
    · interval_cases i <;> rfl
    · rfl
  have hmi : m.testBit i = false := by
    have := congrArg (fun n => n.testBit i) hm
    simp only [Nat.testBit_or, hc, Bool.or_false] at this
    exact this
  rw [Nat.testBit_or, hmi, Bool.or_false]

theorem noImm_flags {a : Insn} (h : NoImm a) (b : Insn) (m : Nat) (hm : m ||| 0x1c3 = 0x1c3)
    (hf : b.Flags = a.Flags ||| m) (hi : b.Imm = a.Imm) : NoImm b :=
  ⟨hi.trans h.1, fun i hx => by rw [hf, testBit_or_addr _ m i hm hx]; exact h.2 i hx⟩

theorem noImm_sibPhase (mode : Mode) (st : St) (p : List Byte) (h : NoImm st.hs) :
    Step.Sat (fun st' => NoImm st'.hs) (fun _ => False) (fun _ _ => True)
      (sibPhase mode st p) := by
  unfold sibPhase
  split_ifs
  · apply sat_nextByte
    · trivial
    · intro c p' _
      exact noImm_flags h _ IsSIB (by decide) rfl rfl
  · exact h
  · exact h

theorem noImm_dispPhase (st : St) (p : List Byte) (h : NoImm st.hs) :
    Step.Sat (fun st' => NoImm st'.hs) (fun _ => False) (fun _ _ => True)
      (dispPhase st p) := by
  unfold dispPhase
  split_ifs
  · exact sat_readLit p (fun _ => trivial)
      (fun l _ => noImm_flags h _ HasDisp8 (by decide) rfl rfl)
  · exact sat_readLit p (fun _ => trivial)
      (fun l _ => noImm_flags h _ HasDisp16 (by decide) rfl rfl)
  · exact sat_readLit p (fun _ => trivial)
      (fun l _ => noImm_flags h _ HasDisp32 (by decide) rfl rfl)
  · exact h

theorem noImm_modrmBlock (cf : CFlags) (mode : Mode) (st : St) (p : List Byte)
    (h : NoImm st.hs) :
    Step.Sat (fun st' => NoImm st'.hs) (fun _ => False) (fun _ _ => True)
      (modrmBlock cf mode st p) := by
  unfold modrmBlock
  split_ifs
  · refine sat_andThen (Q := fun st' => NoImm st'.hs) (sat_andThen
      (Q := fun st' => NoImm st'.hs) (sat_andThen (Q := fun st' => NoImm st'.hs) ?_ ?_) ?_) ?_
    · refine (readModRM_shape st p).mono ?_ (fun _ k => k) (fun _ _ _ => trivial)
      rintro st' ⟨c, rfl⟩
      exact noImm_flags h _ IsModRM (by decide) rfl rfl
    · intro st1 p1 h1
      apply sat_run
      refine (modrmChecks_shape cf mode st1).weaken ?_ (fun _ _ _ => trivial)
      rintro st' ⟨e, -⟩
      rw [e]; exact h1
    · intro st1 p1 h1
      exact noImm_sibPhase mode st1 p1 h1
    · intro st1 p1 h1
      exact noImm_dispPhase st1 p1 h1
  · trivial
  · exact h

/-- The stretch of `Decode` before the immediates (lines 55–313) never takes the
success exit, and leaves no immediate behind. -/
theorem noImm_beforeImm (cf : CFlags) (mode : Mode) (code : List Byte)
    (hlen : code.length < 16) :
    Step.Sat (fun st => NoImm st.hs) (fun _ => False) (fun _ _ => True)
      ((beforeModRM cf mode code).andThen (modrmBlock cf mode)) := by
  refine sat_andThen (pre_beforeModRM cf mode code hlen) ?_
  rintro st p ⟨he, -, -⟩
  refine noImm_modrmBlock cf mode st p ⟨he.imm, ?_⟩
  intro i hi
  exact he.low i (by omega)

theorem testBit_or_mask (f m i : Nat) : (f ||| m).testBit i = (f.testBit i || m.testBit i) :=
  Nat.testBit_or f m i

/-- The invariant on the aliased bit goes on when more bytes are consumed and
neither bit 5 nor `Disp` changes, `HasImm16` is not cleared and `Imm` does not
get 64 bits in 32-bit mode. -/
theorem immSoFar_grow {long : Bool} {a : Insn} {c : List Byte} (h : ImmSoFar long a c)
    (b : Insn) (bs : List Byte) (h5 : b.Flags.testBit 5 = a.Flags.testBit 5)
    (h3 : a.Flags.testBit 3 = true → b.Flags.testBit 3 = true) (hd : b.Disp = a.Disp)
    (hb : long = false → b.Imm.Bits ≠ 64) : ImmSoFar long b (c ++ bs) := by
  have hone := h.one
  refine ⟨by rw [List.length_append]; omega, ?_, hb, ?_⟩
  · intro hl hq
    rw [h5] at hq
    have := h.wide hl hq
    rw [List.length_append]; omega
  · intro hl hq
    rw [h5] at hq
    obtain ⟨g3, gd, pre, bs0, post, e1, e2, e3⟩ := h.two hl hq
    refine ⟨h3 g3, by rw [hd]; exact gd, pre, bs0, post ++ bs, ?_, e2, by rw [hd]; exact e3⟩
    rw [e1]
    simp only [List.append_assoc]

theorem immSoFar_nil {long : Bool} {a : Insn} {c : List Byte} (h : ImmSoFar long a c)
    (b : Insn) (h5 : b.Flags.testBit 5 = a.Flags.testBit 5)
    (h3 : a.Flags.testBit 3 = true → b.Flags.testBit 3 = true) (hd : b.Disp = a.Disp)
    (hb : long = false → b.Imm.Bits ≠ 64) : ImmSoFar long b c := by
  have := immSoFar_grow h b [] h5 h3 hd hb
  rwa [List.append_nil] at this

/-- Lines 315–358 with the bytes consumed. -/
theorem immSoFar_immP66Phase (cf : CFlags) (mode : Mode) (code : List Byte) (st : St)
    (c p : List Byte) (hc : code = c ++ p) (h : NoImm st.hs) (h1 : 1 ≤ c.length) :
    Step.SatC code
      (fun st' c' => ImmSoFar mode.long st'.hs c' ∧ st'.hs.Flags.testBit 9 = false ∧
        (mode.long = false → st'.hs.Flags.testBit 5 = false))
      (fun hs c' => ImmSoFar mode.long hs c' ∧ RelLast hs c')
      (immP66Phase cf mode st p) := by
  have hz : ∀ i, (2 ≤ i ∧ i ≤ 5) ∨ i = 9 → st.hs.Flags.testBit i = false := h.2
  have hbase : ImmSoFar mode.long st.hs c := by
    refine ⟨h1, ?_, ?_, ?_⟩
    · intro _ hq
      rw [hz 5 (Or.inl ⟨by decide, by decide⟩)] at hq; cases hq
    · intro _
      rw [h.1]; decide
    · intro _ hq
      rw [hz 5 (Or.inl ⟨by decide, by decide⟩)] at hq; cases hq
  have hstay : ∀ st' : St, st'.hs = st.hs →
      ImmSoFar mode.long st'.hs c ∧ st'.hs.Flags.testBit 9 = false ∧
        (mode.long = false → st'.hs.Flags.testBit 5 = false) := by
    intro st' e
    rw [e]
    exact ⟨hbase, hz 9 (Or.inr rfl), fun _ => hz 5 (Or.inl ⟨by decide, by decide⟩)⟩
  have hread : ∀ (m w : Nat) (bs : List Byte), m.testBit 5 = false → m.testBit 9 = false →
      w ≠ 64 →
      ImmSoFar mode.long { st.hs with Flags := st.hs.Flags ||| m, Imm := ⟨littleEndian bs, w⟩ }
          (c ++ bs) ∧
        (st.hs.Flags ||| m).testBit 9 = false ∧
        (mode.long = false → (st.hs.Flags ||| m).testBit 5 = false) := by
    intro m w bs m5 m9 hw
    have e5 : (st.hs.Flags ||| m).testBit 5 = st.hs.Flags.testBit 5 := by
      rw [testBit_or_mask, m5, Bool.or_false]
    refine ⟨immSoFar_grow hbase _ bs e5 ?_ rfl (fun _ => hw), ?_, fun _ => ?_⟩
    · intro g3
      rw [hz 3 (Or.inl ⟨by decide, by decide⟩)] at g3; cases g3
    · rw [testBit_or_mask, m9, hz 9 (Or.inr rfl)]; rfl
    · rw [e5]; exact hz 5 (Or.inl ⟨by decide, by decide⟩)
  have hread64 : ∀ bs : List Byte, bs.length = 8 → mode.long = true →
      ImmSoFar mode.long
          { st.hs with Flags := st.hs.Flags ||| HasImm64, Imm := ⟨littleEndian bs, 64⟩ }
          (c ++ bs) ∧
        (st.hs.Flags ||| HasImm64).testBit 9 = false ∧
        (mode.long = false → (st.hs.Flags ||| HasImm64).testBit 5 = false) := by
    intro bs hn hl
    have hx : ∀ {Q : Prop}, mode.long = false → Q := by
      intro Q hf
      rw [hl] at hf; cases hf
    refine ⟨⟨by rw [List.length_append]; omega, ?_, fun hf => hx hf, fun hf => hx hf⟩, ?_,
      fun hf => hx hf⟩
    · intro _ _
      rw [List.length_append]; omega
    · rw [testBit_or_mask, hz 9 (Or.inr rfl)]; rfl
  have hrel : ∀ bs : List Byte, bs.length = 2 →
      ImmSoFar mode.long { st.hs with Flags := st.hs.Flags ||| (IsRelative ||| HasImm16),
                                      Imm := ⟨littleEndian bs, 16⟩ } (c ++ bs) ∧
        RelLast { st.hs with Flags := st.hs.Flags ||| (IsRelative ||| HasImm16),
                             Imm := ⟨littleEndian bs, 16⟩ } (c ++ bs) := by
    intro bs hn
    have e5 : (st.hs.Flags ||| (IsRelative ||| HasImm16)).testBit 5 =
        st.hs.Flags.testBit 5 := by
      rw [testBit_or_mask]
      have : (IsRelative ||| HasImm16).testBit 5 = false := by decide
      rw [this, Bool.or_false]
    refine ⟨immSoFar_grow hbase _ bs e5 ?_ rfl (fun _ => (by show (16 : Nat) ≠ 64; decide)), ?_⟩
    · intro g3
      rw [hz 3 (Or.inl ⟨by decide, by decide⟩)] at g3; cases g3
    · intro _
      refine ⟨c, bs, rfl, rfl, by rw [hn], Or.inr (Or.inl ⟨hn, ?_⟩)⟩
      show (st.hs.Flags ||| (IsRelative ||| HasImm16)).testBit 3 = true
      rw [testBit_or_mask]
      have : (IsRelative ||| HasImm16).testBit 3 = true := by decide
      rw [this, Bool.or_true]
  unfold immP66Phase
  split_ifs
  all_goals first
    | exact ⟨c, hc, hstay _ rfl⟩
    | (refine satC_readLit 2 16 readsLE_read16 c p hc ?_
       intro bs p' hn hc'
       exact ⟨c ++ bs, hc', hrel bs hn⟩)
    | (refine satC_readLit 8 64 readsLE_read64 c p hc ?_
       intro bs p' hn hc'
       exact ⟨c ++ bs, hc', hread64 bs hn (by assumption)⟩)
    | (refine satC_readLit 2 16 readsLE_read16 c p hc ?_
       intro bs p' hn hc'
       exact ⟨c ++ bs, hc', hread _ 16 bs (by decide) (by decide) (by decide)⟩)
    | (refine satC_readLit 4 32 readsLE_read32 c p hc ?_
       intro bs p' hn hc'
       exact ⟨c ++ bs, hc', hread _ 32 bs (by decide) (by decide) (by decide)⟩)

/-- A read into `Imm` under a flag mask without bit 5 keeps the invariant. -/
theorem immSoFar_readImm {long : Bool} {a : Insn} {c : List Byte} (h : ImmSoFar long a c)
    (m w : Nat) (bs : List Byte) (m5 : m.testBit 5 = false) (hw : w ≠ 64) :
    ImmSoFar long { a with Flags := a.Flags ||| m, Imm := ⟨littleEndian bs, w⟩ } (c ++ bs) := by
  refine immSoFar_grow h _ bs ?_ ?_ rfl (fun _ => hw)
  · show (a.Flags ||| m).testBit 5 = _
    rw [testBit_or_mask, m5, Bool.or_false]
  · intro g3
    show (a.Flags ||| m).testBit 3 = true
    rw [testBit_or_mask, g3, Bool.true_or]

theorem testBit_or_clear (f m i : Nat) (hm : m.testBit i = false) (hf : f.testBit i = false) :
    (f ||| m).testBit i = false := by
  rw [testBit_or_mask, hm, hf]; rfl

/-- Lines 360–380 with the bytes consumed. -/
theorem immSoFar_imm16Phase (cf : CFlags) (mode : Mode) (code : List Byte) (st : St)
    (c p : List Byte) (hc : code = c ++ p)
    (h : ImmSoFar mode.long st.hs c ∧ st.hs.Flags.testBit 9 = false ∧
      (mode.long = false → st.hs.Flags.testBit 5 = false)) :
    Step.SatC code
      (fun st' c' => ImmSoFar mode.long st'.hs c' ∧ st'.hs.Flags.testBit 9 = false)
      (fun hs c' => ImmSoFar mode.long hs c' ∧ RelLast hs c')
      (imm16Phase cf mode st p) := by
  have hImm : ∀ bs : List Byte,
      ImmSoFar mode.long
          { st.hs with Flags := st.hs.Flags ||| HasImm16, Imm := ⟨littleEndian bs, 16⟩ }
          (c ++ bs) ∧
        (st.hs.Flags ||| HasImm16).testBit 9 = false := fun bs =>
    ⟨immSoFar_readImm h.1 _ 16 bs (by decide) (by decide),
      testBit_or_clear _ _ 9 (by decide) h.2.1⟩
  have hDisp : mode.long = false → ∀ bs : List Byte,
      ImmSoFar mode.long
          { st.hs with Flags := st.hs.Flags ||| HasImm16, Disp := ⟨littleEndian bs, 16⟩ }
          (c ++ bs) ∧
        (st.hs.Flags ||| HasImm16).testBit 9 = false := by
    intro hl bs
    have hone := h.1.one
    refine ⟨⟨by rw [List.length_append]; omega, ?_, fun _ => h.1.bits hl, ?_⟩,
      testBit_or_clear _ _ 9 (by decide) h.2.1⟩
    · intro hq
      rw [hl] at hq; cases hq
    · intro _ hq
      have : (st.hs.Flags ||| HasImm16).testBit 5 = false :=
        testBit_or_clear _ _ 5 (by decide) (h.2.2 hl)
      rw [this] at hq; cases hq
  have hTwo : mode.long = false → st.hs.Flags &&& HasImm16 ≠ 0 → ∀ bs : List Byte,
      bs.length = 2 →
      ImmSoFar mode.long
          { st.hs with Flags := st.hs.Flags ||| Has2Imm16, Disp := ⟨littleEndian bs, 16⟩ }
          (c ++ bs) ∧
        (st.hs.Flags ||| Has2Imm16).testBit 9 = false := by
    intro hl h16 bs hn
    have hone := h.1.one
    have g3 : st.hs.Flags.testBit 3 = true := (and_two_pow_ne_zero_iff _ 3).mp h16
    refine ⟨⟨by rw [List.length_append]; omega, ?_, fun _ => h.1.bits hl, ?_⟩,
      testBit_or_clear _ _ 9 (by decide) h.2.1⟩
    · intro hq
      rw [hl] at hq; cases hq
    · intro _ _
      refine ⟨?_, rfl, c, bs, [], by rw [List.append_nil], hn, rfl⟩
      show (st.hs.Flags ||| Has2Imm16).testBit 3 = true
      rw [testBit_or_mask, g3, Bool.true_or]
  unfold imm16Phase
  split_ifs
  all_goals first
    | exact ⟨c, hc, h.1, h.2.1⟩
    | (refine satC_readLit 2 16 readsLE_read16 c p hc ?_
       intro bs p' hn hc'
       exact ⟨c ++ bs, hc', hImm bs⟩)
    | (refine satC_readLit 2 16 readsLE_read16 c p hc ?_
       intro bs p' hn hc'
       exact ⟨c ++ bs, hc', hTwo (by simpa using ‹¬ mode.long = true›) (by assumption) bs hn⟩)
    | (refine satC_readLit 2 16 readsLE_read16 c p hc ?_
       intro bs p' hn hc'
       exact ⟨c ++ bs, hc', hDisp (by simpa using ‹¬ mode.long = true›) bs⟩)

/-- Lines 381–386 with the bytes consumed. -/
theorem immSoFar_imm8Phase (cf : CFlags) (long : Bool) (code : List Byte) (st : St)
    (c p : List Byte) (hc : code = c ++ p)
    (h : ImmSoFar long st.hs c ∧ st.hs.Flags.testBit 9 = false) :
    Step.SatC code
      (fun st' c' => ImmSoFar long st'.hs c' ∧ st'.hs.Flags.testBit 9 = false)
      (fun hs c' => ImmSoFar long hs c' ∧ RelLast hs c')
      (imm8Phase cf st p) := by
  unfold imm8Phase
  split_ifs
  · refine satC_readLit 1 8 readsLE_read8 c p hc ?_
    intro bs p' hn hc'
    exact ⟨c ++ bs, hc', immSoFar_readImm h.1 _ 8 bs (by decide) (by decide),
      testBit_or_clear _ _ 9 (by decide) h.2⟩
  · exact ⟨c, hc, h⟩

/-- Lines 388–399 with the bytes consumed. -/
theorem immSoFar_relPhase (cf : CFlags) (long : Bool) (code : List Byte) (st : St)
    (c p : List Byte) (hc : code = c ++ p)
    (h : ImmSoFar long st.hs c ∧ st.hs.Flags.testBit 9 = false) :
    Step.SatC code
      (fun st' c' => ImmSoFar long st'.hs c' ∧ RelLast st'.hs c')
      (fun hs c' => ImmSoFar long hs c' ∧ RelLast hs c')
      (relPhase cf st p) := by
  unfold relPhase
  split_ifs
  · refine satC_readLit 4 32 readsLE_read32 c p hc ?_
    intro bs p' hn hc'
    refine ⟨c ++ bs, hc', immSoFar_readImm h.1 _ 32 bs (by decide) (by decide), ?_⟩
    intro _
    refine ⟨c, bs, rfl, rfl, by rw [hn], Or.inr (Or.inr ⟨hn, ?_⟩)⟩
    show (st.hs.Flags ||| (IsRelative ||| HasImm32)).testBit 4 = true
    rw [testBit_or_mask]
    have : (IsRelative ||| HasImm32).testBit 4 = true := by decide
    rw [this, Bool.or_true]
  · refine satC_readLit 1 8 readsLE_read8 c p hc ?_
    intro bs p' hn hc'
    refine ⟨c ++ bs, hc', immSoFar_readImm h.1 _ 8 bs (by decide) (by decide), ?_⟩
    intro _
    refine ⟨c, bs, rfl, rfl, by rw [hn], Or.inl ⟨hn, ?_⟩⟩
    show (st.hs.Flags ||| (IsRelative ||| HasImm8)).testBit 2 = true
    rw [testBit_or_mask]
    have : (IsRelative ||| HasImm8).testBit 2 = true := by decide
    rw [this, Bool.or_true]
  · refine ⟨c, hc, h.1, ?_⟩
    intro h9
    rw [h.2] at h9; cases h9

theorem framed_beforeImm (cf : CFlags) (mode : Mode) :
    Framed (fun p => (beforeModRM cf mode p).andThen (modrmBlock cf mode)) := by
  simp only [beforeModRM]
  exact framed_andThen (framed_andThen (framed_andThen (framed_andThen
    (framed_prefixLoop 16 St.init) (fun st => framed_rexPhase mode _))
    (framed_opcodePhase mode)) (framed_classifyPhase cf mode)) (framed_modrmBlock cf mode)

/-- The stretch before the immediates, with the bytes consumed: at least one,
and no immediate read. -/
theorem satC_beforeImm (cf : CFlags) (mode : Mode) (code : List Byte)
    (hlen : code.length < 16) (R : Insn → List Byte → Prop) :
    Step.SatC code (fun st c => NoImm st.hs ∧ 1 ≤ c.length) R
      ((beforeModRM cf mode code).andThen (modrmBlock cf mode)) := by
  have hsat := noImm_beforeImm cf mode code hlen
  cases hg : (beforeModRM cf mode code).andThen (modrmBlock cf mode) with
  | next st p =>
    rw [hg] at hsat
    obtain ⟨c, hc, hall⟩ := (framed_beforeImm cf mode).next code st p hg
    refine ⟨c, hc, hsat, ?_⟩
    cases c with
    | nil =>
      have := hall []
      cases this
    | cons b r => simp
  | done hs p =>
    rw [hg] at hsat
    exact hsat.elim
  | fail hs e => trivial
  | panic => trivial

/-- Along the whole of `Decode`, on an input of at most 15 bytes: at a success
exit the aliased bit and the relative operand stand as `ImmSoFar` and `RelLast`
say, for the bytes consumed. -/
theorem decodeBody_imm (cf : CFlags) (mode : Mode) (code : List Byte)
    (hlen : code.length < 16) :
    Step.SatC code (fun st c => ImmSoFar mode.long st.hs c ∧ RelLast st.hs c)
      (fun hs c => ImmSoFar mode.long hs c ∧ RelLast hs c) (decodeBody cf mode code) := by
  have hd : decodeBody cf mode code =
      (((((beforeModRM cf mode code).andThen (modrmBlock cf mode)).andThen
        (immP66Phase cf mode)).andThen (imm16Phase cf mode)).andThen (imm8Phase cf)).andThen
        (relPhase cf) := rfl
  rw [hd]
  have h0 := satC_beforeImm cf mode code hlen
    (fun hs c => ImmSoFar mode.long hs c ∧ RelLast hs c)
  have h1 : Step.SatC code
      (fun st c => ImmSoFar mode.long st.hs c ∧ st.hs.Flags.testBit 9 = false ∧
        (mode.long = false → st.hs.Flags.testBit 5 = false))
      (fun hs c => ImmSoFar mode.long hs c ∧ RelLast hs c)
      (((beforeModRM cf mode code).andThen (modrmBlock cf mode)).andThen
        (immP66Phase cf mode)) :=
    satC_andThen h0 (fun st c p hc h => immSoFar_immP66Phase cf mode code st c p hc h.1 h.2)
  have h2 : Step.SatC code
      (fun st c => ImmSoFar mode.long st.hs c ∧ st.hs.Flags.testBit 9 = false)
      (fun hs c => ImmSoFar mode.long hs c ∧ RelLast hs c)
      ((((beforeModRM cf mode code).andThen (modrmBlock cf mode)).andThen
        (immP66Phase cf mode)).andThen (imm16Phase cf mode)) :=
    satC_andThen h1 (fun st c p hc h => immSoFar_imm16Phase cf mode code st c p hc h)
  have h3 : Step.SatC code
      (fun st c => ImmSoFar mode.long st.hs c ∧ st.hs.Flags.testBit 9 = false)
      (fun hs c => ImmSoFar mode.long hs c ∧ RelLast hs c)
      (((((beforeModRM cf mode code).andThen (modrmBlock cf mode)).andThen
        (immP66Phase cf mode)).andThen (imm16Phase cf mode)).andThen (imm8Phase cf)) :=
    satC_andThen h2 (fun st c p hc h => immSoFar_imm8Phase cf mode.long code st c p hc h)
  exact satC_andThen h3
    (fun st c p hc h => immSoFar_relPhase cf mode.long code st c p hc h)

/-- The outcome of a successful `Decode` in terms of `ImmSoFar` and `RelLast`:
`Length` is the number of bytes consumed, and these are the first bytes of the
input. -/
theorem decode_imm (cf : CFlags) (mode : Mode) (code : List Byte) (hs : Insn)
    (h : Mode.Decode cf mode code = some (hs, none)) :
    ∃ hs0 c, code.take c.length = c ∧ c.length ≤ 15 ∧ hs = { hs0 with Length := c.length } ∧
      ImmSoFar mode.long hs0 c ∧ RelLast hs0 c := by
  have hne : code ≠ [] := by
    rintro rfl
    simp [Mode.Decode] at h
  have hsat := decodeBody_imm cf mode (code.take 15) (take15_length code)
  have hlen15 : (code.take 15).length ≤ 15 := by
    rw [List.length_take]; omega
  have key : ∀ (hs0 : Insn) (p : List Byte),
      (∃ c, code.take 15 = c ++ p ∧ ImmSoFar mode.long hs0 c ∧ RelLast hs0 c) →
      hs = { hs0 with Length := ((code.take 15).length - p.length) % 256 } →
      ∃ hs0 c, code.take c.length = c ∧ c.length ≤ 15 ∧
        hs = { hs0 with Length := c.length } ∧ ImmSoFar mode.long hs0 c ∧ RelLast hs0 c := by
    rintro hs0 p ⟨c, hc, h1, h2⟩ e
    have hl : (code.take 15).length = c.length + p.length := by
      rw [hc, List.length_append]
    have hc15 : c.length ≤ 15 := by omega
    refine ⟨hs0, c, ?_, hc15, ?_, h1, h2⟩
    · have : code.take c.length = (code.take 15).take c.length := by
        rw [List.take_take, Nat.min_eq_left hc15]
      rw [this, hc, List.take_left']
      rfl
    · rw [e, hl, Nat.add_sub_cancel, Nat.mod_eq_of_lt (by omega)]
  rw [decode_eq cf mode code hne] at h
  cases hb : decodeBody cf mode (code.take 15) with
  | next st p =>
    rw [hb] at h hsat
    simp only [Option.some.injEq, Prod.mk.injEq, and_true] at h
    exact key st.hs p hsat h.symm
  | done hs1 p =>
    rw [hb] at h hsat
    simp only [Option.some.injEq, Prod.mk.injEq, and_true] at h
    exact key hs1 p hsat h.symm
  | fail hs1 e => rw [hb] at h; cases h
  | panic => rw [hb] at h; cases h

/-- A stretch of the bytes consumed is found in the input at its offset. -/
theorem window_of_consumed (code c pre bs post : List Byte)
    (hc : code.take c.length = c) (e : c = pre ++ bs ++ post) :
    (code.drop pre.length).take bs.length = bs ∧ pre.length + bs.length ≤ c.length ∧
      c.length ≤ code.length := by
  obtain ⟨rest, hrest⟩ : ∃ rest, code = c ++ rest :=
    ⟨code.drop c.length, by
      conv_lhs => rw [← List.take_append_drop c.length code]
      rw [hc]⟩
  subst hrest
  subst e
  refine ⟨?_, ?_, ?_⟩
  · rw [List.append_assoc, List.append_assoc, List.drop_left, List.take_left]
  · simp only [List.length_append]; omega
  · simp only [List.length_append]; omega

/-- Claim C21: the aliased flag bit `0x20` (`HasImm64` / `Has2Imm16`) never
carries both meanings. For every successful `Decode` in 32-bit mode,
`Imm.Bits ≠ 64`, and if bit `0x20` is set then `HasImm16` is set as well,
`Disp.Bits = 16` and `Disp.Value` is the little-endian value of two bytes of the
instruction; for every successful `Decode` in 64-bit mode, bit `0x20` is set
only on an instruction of at least nine bytes, the opcode and the eight bytes of
the immediate. -/
theorem aliased_bit_has_one_meaning (cf : CFlags) (mode : Mode) (code : List Byte)
    (hs : Insn) (h : Mode.Decode cf mode code = some (hs, none)) :
    (mode.long = false →
      hs.Imm.Bits ≠ 64 ∧
      (hs.Flags &&& Has2Imm16 ≠ 0 →
        hs.Flags &&& HasImm16 ≠ 0 ∧ hs.Disp.Bits = 16 ∧
        ∃ i, i + 2 ≤ hs.Length ∧ hs.Length ≤ code.length ∧
          hs.Disp.Value = littleEndian ((code.drop i).take 2))) ∧
    (mode.long = true → hs.Flags &&& HasImm64 ≠ 0 → 9 ≤ hs.Length) := by
  obtain ⟨hs0, c, hc, _, rfl, hi, _⟩ := decode_imm cf mode code hs h
  have h3 : ∀ f : Nat, f &&& HasImm16 ≠ 0 ↔ f.testBit 3 = true :=
    fun f => and_two_pow_ne_zero_iff f 3
  have h5 : ∀ f : Nat, f &&& Has2Imm16 ≠ 0 ↔ f.testBit 5 = true :=
    fun f => and_two_pow_ne_zero_iff f 5
  have h5w : ∀ f : Nat, f &&& HasImm64 ≠ 0 ↔ f.testBit 5 = true :=
    fun f => and_two_pow_ne_zero_iff f 5
  refine ⟨fun hl => ⟨hi.bits hl, fun hb => ?_⟩, fun hl hb => hi.wide hl ((h5w _).mp hb)⟩
  obtain ⟨g3, gb, pre, bs, post, e, hn, hv⟩ := hi.two hl ((h5 _).mp hb)
  obtain ⟨w1, w2, w3⟩ := window_of_consumed code c pre bs post hc e
  refine ⟨(h3 _).mpr g3, gb, pre.length, ?_, w3, ?_⟩
  · show pre.length + 2 ≤ c.length
    omega
  · show hs0.Disp.Value = _
    rw [hv, ← hn, w1]

theorem aliased_bit_has_one_meaning_witness :
    (Mode.Decode sampleCF (immMode false) [0x66, 0x00, 0x34, 0x12, 0x78, 0x56] =
      some ({ Flags := 0x2028, Length := 6, Opcode := 0, Opcode2 := 0, REX := 0,
              ModRM := 0, SIB := 0, Imm := ⟨0x1234, 16⟩, Disp := ⟨0x5678, 16⟩ }, none) ∧
      ((0x2028 : Nat) &&& Has2Imm16 ≠ 0 →
        (0x2028 : Nat) &&& HasImm16 ≠ 0 ∧ (16 : Nat) = 16 ∧
        ∃ i, i + 2 ≤ 6 ∧ 6 ≤ ([0x66, 0x00, 0x34, 0x12, 0x78, 0x56] : List Byte).length ∧
          (0x5678 : Nat) = littleEndian
            ((([0x66, 0x00, 0x34, 0x12, 0x78, 0x56] : List Byte).drop i).take 2))) ∧
    (Mode.Decode sampleCF (immMode true) [0x48, 0xb9, 1, 2, 3, 4, 5, 6, 7, 8] =
      some ({ Flags := 0x10020, Length := 10, Opcode := 0xb9, Opcode2 := 0, REX := 0x48,
              ModRM := 0, SIB := 0, Imm := ⟨0x0807060504030201, 64⟩, Disp := ⟨0, 0⟩ }, none) ∧
      ((0x10020 : Nat) &&& HasImm64 ≠ 0 → 9 ≤ 10)) :=
  ⟨⟨by decide,
    ((aliased_bit_has_one_meaning sampleCF (immMode false)
      [0x66, 0x00, 0x34, 0x12, 0x78, 0x56]
      { Flags := 0x2028, Length := 6, Opcode := 0, Opcode2 := 0, REX := 0,
        ModRM := 0, SIB := 0, Imm := ⟨0x1234, 16⟩, Disp := ⟨0x5678, 16⟩ }
      (by decide)).1 rfl).2⟩,
   ⟨by decide,
    (aliased_bit_has_one_meaning sampleCF (immMode true)
      [0x48, 0xb9, 1, 2, 3, 4, 5, 6, 7, 8]
      { Flags := 0x10020, Length := 10, Opcode := 0xb9, Opcode2 := 0, REX := 0x48,
        ModRM := 0, SIB := 0, Imm := ⟨0x0807060504030201, 64⟩, Disp := ⟨0, 0⟩ }
      (by decide)).2 rfl⟩⟩

/-- Claim C26: a relative operand is the last bytes of the instruction. For every
mode and every successful `Decode` with `IsRelative` set, `Imm.Bits` is 8, 16 or
32, the matching flag `HasImm8` / `HasImm16` / `HasImm32` is set, and `Imm.Value`
is the little-endian value of the input bytes at positions
`Length − Imm.Bits/8` up to `Length − 1`. -/
theorem relative_operand_is_last (cf : CFlags) (mode : Mode) (code : List Byte)
    (hs : Insn) (h : Mode.Decode cf mode code = some (hs, none))
    (hr : hs.Flags &&& IsRelative ≠ 0) :
    ((hs.Imm.Bits = 8 ∧ hs.Flags &&& HasImm8 ≠ 0) ∨
      (hs.Imm.Bits = 16 ∧ hs.Flags &&& HasImm16 ≠ 0) ∨
      (hs.Imm.Bits = 32 ∧ hs.Flags &&& HasImm32 ≠ 0)) ∧
    hs.Imm.Bits / 8 ≤ hs.Length ∧ hs.Length ≤ code.length ∧
    hs.Imm.Value =
      littleEndian ((code.drop (hs.Length - hs.Imm.Bits / 8)).take (hs.Imm.Bits / 8)) := by
  obtain ⟨hs0, c, hc, _, rfl, _, hrel⟩ := decode_imm cf mode code hs h
  have h2 : ∀ f : Nat, f &&& HasImm8 ≠ 0 ↔ f.testBit 2 = true :=
    fun f => and_two_pow_ne_zero_iff f 2
  have h3 : ∀ f : Nat, f &&& HasImm16 ≠ 0 ↔ f.testBit 3 = true :=
    fun f => and_two_pow_ne_zero_iff f 3
  have h4 : ∀ f : Nat, f &&& HasImm32 ≠ 0 ↔ f.testBit 4 = true :=
    fun f => and_two_pow_ne_zero_iff f 4
  have h9 : ∀ f : Nat, f &&& IsRelative ≠ 0 ↔ f.testBit 9 = true :=
    fun f => and_two_pow_ne_zero_iff f 9
  obtain ⟨pre, bs, e, hv, hb, hcase⟩ := hrel ((h9 _).mp hr)
  obtain ⟨w1, w2, w3⟩ := window_of_consumed code c pre bs [] hc (by rw [e, List.append_nil])
  have hcl : c.length = pre.length + bs.length := by rw [e, List.length_append]
  have hk : hs0.Imm.Bits / 8 = bs.length := by
    rw [hb]; exact Nat.mul_div_cancel_left _ (by decide)
  show ((hs0.Imm.Bits = 8 ∧ hs0.Flags &&& HasImm8 ≠ 0) ∨
      (hs0.Imm.Bits = 16 ∧ hs0.Flags &&& HasImm16 ≠ 0) ∨
      (hs0.Imm.Bits = 32 ∧ hs0.Flags &&& HasImm32 ≠ 0)) ∧
    hs0.Imm.Bits / 8 ≤ c.length ∧ c.length ≤ code.length ∧
    hs0.Imm.Value =
      littleEndian ((code.drop (c.length - hs0.Imm.Bits / 8)).take (hs0.Imm.Bits / 8))
  refine ⟨?_, ?_, w3, ?_⟩
  · rcases hcase with ⟨hn, hf⟩ | ⟨hn, hf⟩ | ⟨hn, hf⟩
    · exact Or.inl ⟨by rw [hb, hn], (h2 _).mpr hf⟩
    · exact Or.inr (Or.inl ⟨by rw [hb, hn], (h3 _).mpr hf⟩)
    · exact Or.inr (Or.inr ⟨by rw [hb, hn], (h4 _).mpr hf⟩)
  · rw [hk]; omega
  · rw [hk, hcl, Nat.add_sub_cancel, w1, hv]

theorem relative_operand_is_last_witness :
    (Mode.Decode sampleCF (sampleMode true) [0xe8, 0x01, 0x02, 0x03, 0x04, 0x90] =
      some ({ Flags := 0x210, Length := 5, Opcode := 0xe8, Opcode2 := 0, REX := 0,
              ModRM := 0, SIB := 0, Imm := ⟨0x04030201, 32⟩, Disp := ⟨0, 0⟩ }, none) ∧
      (0x210 : Nat) &&& IsRelative ≠ 0 ∧
      (0x04030201 : Nat) = littleEndian
        ((([0xe8, 0x01, 0x02, 0x03, 0x04, 0x90] : List Byte).drop (5 - 32 / 8)).take (32 / 8))) ∧
    (Mode.Decode sampleCF (immMode false) [0x66, 0x02, 0x34, 0x12] =
      some ({ Flags := 0x2208, Length := 4, Opcode := 2, Opcode2 := 0, REX := 0,
              ModRM := 0, SIB := 0, Imm := ⟨0x1234, 16⟩, Disp := ⟨0, 0⟩ }, none) ∧
      (0x2208 : Nat) &&& IsRelative ≠ 0 ∧
      (0x1234 : Nat) = littleEndian
        ((([0x66, 0x02, 0x34, 0x12] : List Byte).drop (4 - 16 / 8)).take (16 / 8))) :=
  ⟨⟨by decide, by decide,
    (relative_operand_is_last sampleCF (sampleMode true)
      [0xe8, 0x01, 0x02, 0x03, 0x04, 0x90]
      { Flags := 0x210, Length := 5, Opcode := 0xe8, Opcode2 := 0, REX := 0,
        ModRM := 0, SIB := 0, Imm := ⟨0x04030201, 32⟩, Disp := ⟨0, 0⟩ }
      (by decide) (by decide)).2.2.2⟩,
   ⟨by decide, by decide,
    (relative_operand_is_last sampleCF (immMode false) [0x66, 0x02, 0x34, 0x12]
      { Flags := 0x2208, Length := 4, Opcode := 2, Opcode2 := 0, REX := 0,
        ModRM := 0, SIB := 0, Imm := ⟨0x1234, 16⟩, Disp := ⟨0, 0⟩ }
      (by decide) (by decide)).2.2.2⟩⟩

/-! ## Inputs that reach the LOCK check and the register-range checks -/

/-- The LOCK bit of a fold of `Add`: set before, or `PreLock` is among the
identifiers. -/
theorem foldl_add_lock (ids : List Nat) : ∀ p : Nat,
    (ids.foldl PrefixSet.Add p).testBit 5 = (p.testBit 5 || decide (5 ∈ ids)) := by
  induction ids with
  | nil => intro p; simp
  | cons a rest ih =>
    intro p
    rw [List.foldl_cons, ih, testBit_add p a (by decide : 5 < 16)]
    by_cases ha : a = 5
    · subst ha; simp
    · have ha' : ¬ (5 = a) := fun e => ha e.symm
      by_cases hr : 5 ∈ rest <;> simp [ha, ha', hr]

theorem lock_of_mem_leading (code : List Byte) (h : (0xf0 : Byte) ∈ leadingPrefixBytes code) :
    ((leadingPrefixes code).foldl PrefixSet.Add 0).testBit 5 = true := by
  have hm : 5 ∈ leadingPrefixes code := List.mem_map.mpr ⟨0xf0, h, by decide⟩
  rw [foldl_add_lock]
  simp [hm]

/-- An input that gets past the prefix loop has its leading prefixes within the
first 15 bytes. -/
theorem leadingPrefixes_of_beforeModRM (cf : CFlags) (mode : Mode) (code : List Byte)
    (st : St) (p : List Byte) (h : beforeModRM cf mode (code.take 15) = .next st p) :
    leadingPrefixes (code.take 15) = leadingPrefixes code := by
  have hd : (code.take 15).dropWhile (fun b => PrefixToID b.val != PreNone) ≠ [] := by
    intro hnil
    have hb := prefixLoop_exact (code.take 15) 16 St.init (take15_length code)
    rw [hnil] at hb
    unfold beforeModRM at h
    rw [hb] at h
    cases h
  unfold leadingPrefixes
  rw [leadingPrefixBytes_take code 15 hd]

/-- A LOCK prefix of the input is in the active prefix set at line 130. -/
theorem has_lock_beforeModRM (cf : CFlags) (mode : Mode) (code : List Byte)
    (st : St) (p : List Byte) (h : beforeModRM cf mode (code.take 15) = .next st p)
    (hl : (0xf0 : Byte) ∈ leadingPrefixBytes code) :
    PrefixSet.Has st.pref PreLock = true := by
  have h1 := pre_beforeModRM cf mode (code.take 15) (take15_length code)
  rw [h, leadingPrefixes_of_beforeModRM cf mode code st p h] at h1
  rw [has_eq_testBit _ (by decide : PreLock < 16)]
  show st.pref.testBit 5 = true
  rw [h1.1.pref 5 (by decide) (by decide) (by decide)]
  exact lock_of_mem_leading code hl

/-- Past the ModRM byte an error of the checks of lines 143–278 is the outcome
of the body. -/
theorem decodeBody_of_checks_fail (cf : CFlags) (mode : Mode) (code : List Byte)
    (st0 st1 : St) (p0 p1 : List Byte) (hs : Insn) (e : DecoderError)
    (hb : beforeModRM cf mode code = .next st0 p0)
    (hm : st0.cflags &&& cf.cfModRM.val ≠ 0)
    (hr : readModRM st0 p0 = .next st1 p1)
    (hc : modrmChecks cf mode st1 = .fail hs e) :
    decodeBody cf mode code = .fail hs e := by
  have hd : decodeBody cf mode code =
      (((((beforeModRM cf mode code).andThen (modrmBlock cf mode)).andThen
        (immP66Phase cf mode)).andThen (imm16Phase cf mode)).andThen (imm8Phase cf)).andThen
        (relPhase cf) := rfl
  have hmb : modrmBlock cf mode st0 p0 = .fail hs e := by
    unfold modrmBlock
    rw [if_pos hm, hr]
    simp only [Step.andThen, hc, Pure.run]
  rw [hd, hb]
  simp only [Step.andThen, hmb]

/-- LOCK on an opcode without a ModRM byte (lines 311–313). -/
theorem decodeBody_lock_no_modrm (cf : CFlags) (mode : Mode) (code : List Byte)
    (st : St) (p : List Byte) (hb : beforeModRM cf mode code = .next st p)
    (hm : st.cflags &&& cf.cfModRM.val = 0)
    (hl : PrefixSet.Has st.pref PreLock = true) :
    decodeBody cf mode code = .fail st.hs .ErrInvalidLock := by
  have hd : decodeBody cf mode code =
      (((((beforeModRM cf mode code).andThen (modrmBlock cf mode)).andThen
        (immP66Phase cf mode)).andThen (imm16Phase cf mode)).andThen (imm8Phase cf)).andThen
        (relPhase cf) := rfl
  have hmb : modrmBlock cf mode st p = .fail st.hs .ErrInvalidLock := by
    unfold modrmBlock
    rw [if_neg (fun hx => hx hm), if_pos hl]
  rw [hd, hb]
  simp only [Step.andThen, hmb]

theorem decode_of_body_fail (cf : CFlags) (mode : Mode) (code : List Byte) (hs : Insn)
    (e : DecoderError) (hne : code ≠ [])
    (h : decodeBody cf mode (code.take 15) = .fail hs e) :
    Mode.Decode cf mode code = some (hs, some e) := by
  rw [decode_eq cf mode code hne, h]

theorem beforeModRM_nil (cf : CFlags) (mode : Mode) :
    beforeModRM cf mode [] = .fail Insn.zero .ErrLength := rfl

/-- What `atLockCheck` stands for: the stretches run so far and the locals. -/
theorem atLockCheck_inv (cf : CFlags) (mode : Mode) (code : List Byte) (st : St)
    (p : List Byte) (h : atLockCheck cf mode code = some (st, p)) :
    ∃ st0 p0 st1, beforeModRM cf mode code = .next st0 p0 ∧
      st0.cflags &&& cf.cfModRM.val ≠ 0 ∧ readModRM st0 p0 = .next st1 p ∧
      (groupRegCheck st1).andThen (fpuCheck mode) = .cont st ∧
      st.pref = st0.pref ∧ st.mod = ModRM.Mod st.hs.ModRM := by
  unfold atLockCheck at h
  cases hb : beforeModRM cf mode code with
  | done hs p0 => rw [hb] at h; cases h
  | fail hs e => rw [hb] at h; cases h
  | panic => rw [hb] at h; cases h
  | next st0 p0 =>
    rw [hb] at h
    dsimp only at h
    by_cases hm : st0.cflags &&& cf.cfModRM.val ≠ 0
    · rw [if_pos hm] at h
      have h2 := readModRM_shape st0 p0
      cases hr : readModRM st0 p0 with
      | done hs p1 => rw [hr] at h; cases h
      | fail hs e => rw [hr] at h; cases h
      | panic => rw [hr] at h; cases h
      | next st1 p1 =>
        rw [hr] at h h2
        dsimp only at h
        obtain ⟨c, hc⟩ := h2
        have h3 : Pure.Sat (fun st' => ∃ tbl, st' = { st1 with tbl := tbl })
            (fun _ _ => True) ((groupRegCheck st1).andThen (fpuCheck mode)) := by
          refine pure_sat_andThen
            ((groupRegCheck_shape st1).weaken (fun _ k => k) (fun _ _ _ => trivial)) ?_
          rintro st' rfl
          exact (fpuCheck_shape mode st').weaken (fun _ k => k) (fun _ _ _ => trivial)
        cases he : (groupRegCheck st1).andThen (fpuCheck mode) with
        | fail hs e => rw [he] at h; cases h
        | panic => rw [he] at h; cases h
        | cont st2 =>
          rw [he] at h h3
          simp only [Option.some.injEq, Prod.mk.injEq] at h
          obtain ⟨rfl, rfl⟩ := h
          obtain ⟨tbl, rfl⟩ := h3
          refine ⟨st0, p0, st1, rfl, hm, hr, he, ?_, ?_⟩
          · rw [hc]
          · rw [hc]
    · rw [if_neg hm] at h
      cases h

theorem modrmChecks_of_lock_fail (cf : CFlags) (mode : Mode) (st1 st2 : St) (hs : Insn)
    (e : DecoderError) (h1 : (groupRegCheck st1).andThen (fpuCheck mode) = .cont st2)
    (h2 : lockCheck mode st2 = .fail hs e) : modrmChecks cf mode st1 = .fail hs e := by
  unfold modrmChecks
  rw [h1]
  simp only [Pure.andThen, h2]

theorem modrmChecks_of_regRange_fail (cf : CFlags) (mode : Mode) (st1 st2 : St) (hs : Insn)
    (e : DecoderError)
    (h1 : ((groupRegCheck st1).andThen (fpuCheck mode)).andThen (lockCheck mode) = .cont st2)
    (h2 : regRangeCheck st2 = .fail hs e) : modrmChecks cf mode st1 = .fail hs e := by
  unfold modrmChecks
  rw [h1]
  simp only [Pure.andThen, h2]

/-- What `atRegRangeCheck` stands for: the stretches run so far and the locals. -/
theorem atRegRangeCheck_inv (cf : CFlags) (mode : Mode) (code : List Byte)
    (hlen : code.length < 16) (st : St) (p : List Byte)
    (h : atRegRangeCheck cf mode code = some (st, p)) :
    ∃ st0 p0 st1, beforeModRM cf mode code = .next st0 p0 ∧
      st0.cflags &&& cf.cfModRM.val ≠ 0 ∧ readModRM st0 p0 = .next st1 p ∧
      ((groupRegCheck st1).andThen (fpuCheck mode)).andThen (lockCheck mode) = .cont st ∧
      Mid mode.long ((leadingPrefixes code).foldl PrefixSet.Add 0) st := by
  have h1 := pre_beforeModRM cf mode code hlen
  unfold atRegRangeCheck at h
  cases hb : beforeModRM cf mode code with
  | done hs p0 => rw [hb] at h; cases h
  | fail hs e => rw [hb] at h; cases h
  | panic => rw [hb] at h; cases h
  | next st0 p0 =>
    rw [hb] at h h1
    dsimp only at h
    by_cases hm : st0.cflags &&& cf.cfModRM.val ≠ 0
    · rw [if_pos hm] at h
      have h2 := mid_readModRM mode.long _ st0 p0 h1
      cases hr : readModRM st0 p0 with
      | done hs p1 => rw [hr] at h; cases h
      | fail hs e => rw [hr] at h; cases h
      | panic => rw [hr] at h; cases h
      | next st1 p1 =>
        rw [hr] at h h2
        dsimp only at h
        have h3 : Pure.Sat (fun st' => ∃ tbl, st' = { st1 with tbl := tbl })
            (fun _ _ => True)
            (((groupRegCheck st1).andThen (fpuCheck mode)).andThen (lockCheck mode)) := by
          refine pure_sat_andThen (Q := fun st' => ∃ tbl, st' = { st1 with tbl := tbl })
            (pure_sat_andThen (Q := fun st' => st' = st1)
            ((groupRegCheck_shape st1).weaken (fun _ k => k) (fun _ _ _ => trivial)) ?_) ?_
          · rintro st' rfl
            exact (fpuCheck_shape mode st').weaken (fun _ k => k) (fun _ _ _ => trivial)
          · rintro st' ⟨t1, rfl⟩
            refine (lockCheck_shape mode _).weaken ?_ (fun _ _ _ => trivial)
            rintro st'' ⟨⟨tbl, rfl⟩, -⟩
            exact ⟨tbl, rfl⟩
        cases he : ((groupRegCheck st1).andThen (fpuCheck mode)).andThen (lockCheck mode) with
        | fail hs e => rw [he] at h; cases h
        | panic => rw [he] at h; cases h
        | cont st2 =>
          rw [he] at h h3
          simp only [Option.some.injEq, Prod.mk.injEq] at h
          obtain ⟨rfl, rfl⟩ := h
          obtain ⟨tbl, rfl⟩ := h3
          exact ⟨st0, p0, st1, rfl, hm, hr, he, mid_of_eq h2.1 rfl rfl rfl rfl rfl⟩
    · rw [if_neg hm] at h
      cases h

/-- The register-range checks of lines 190–214 reject an instruction that breaks
a range, with `ErrBadOperand`. -/
theorem regRangeCheck_of_not_ok {long : Bool} {P : Nat} {st : St} (hmid : Mid long P st)
    (hn : ¬ RegRangeOk st.hs) : regRangeCheck st = .fail st.hs .ErrBadOperand := by
  have h := regRangeCheck_exact st
  cases hr : regRangeCheck st with
  | cont st' =>
    rw [hr] at h
    obtain ⟨-, -, -, e4, e5, e6, e7⟩ := h
    exact absurd (regRangeOk_of_mid hmid e4 e5 e6 e7) hn
  | fail hs e =>
    rw [hr] at h
    obtain ⟨rfl, rfl⟩ := h
    rfl
  | panic =>
    unfold regRangeCheck at hr
    dsimp only at hr
    split_ifs at hr

/-- A LOCK prefix of the input is in the flags of a successful `Decode`. -/
theorem lock_flag_of_prefix (cf : CFlags) (mode : Mode) (code : List Byte) (hs : Insn)
    (h : Mode.Decode cf mode code = some (hs, none))
    (hl : (0xf0 : Byte) ∈ leadingPrefixBytes code) : hs.Flags &&& HasLock ≠ 0 := by
  obtain ⟨hs0, n, rfl, hlate⟩ := (decode_late cf mode code hs none h).1 rfl
  rw [hasLock_iff]
  show hs0.Flags.testBit 15 = true
  rw [hlate.pfx 15 (by decide) (by decide),
    testBit_addPrefixes 0 _ (by decide : 10 ≤ 15) (by decide : 15 < 32), Nat.zero_testBit,
    Bool.false_or]
  exact lock_of_mem_leading code hl

/-- Claim C8: LOCK is accepted only on a memory-operand form. For every mode and
every input: a successful `Decode` with `HasLock` in `Flags` has `IsModRM` set
and `ModRM.Mod() ≠ 3`. And for an input that carries a LOCK prefix (the byte
`0xF0` among its leading prefix bytes): a successful `Decode` has `HasLock` in
`Flags`, hence a ModRM byte with `mod ≠ 3`; if the input passes the opcode
classification and its opcode takes no ModRM byte, `Decode` returns
`ErrInvalidLock`; and if its opcode takes a ModRM byte, the input passes the
opcode classification, the group check and the FPU check, and the ModRM byte has
`mod = 3`, `Decode` returns `ErrInvalidLock`. The instruction returned with the
error is the one decoded so far. -/
theorem lock_only_on_memory_form (cf : CFlags) (mode : Mode) (code : List Byte) :
    (∀ hs, Mode.Decode cf mode code = some (hs, none) → hs.Flags &&& HasLock ≠ 0 →
      hs.Flags &&& IsModRM ≠ 0 ∧ ModRM.Mod hs.ModRM ≠ 3) ∧
    ((0xf0 : Byte) ∈ leadingPrefixBytes code →
      (∀ hs, Mode.Decode cf mode code = some (hs, none) →
        hs.Flags &&& HasLock ≠ 0 ∧ hs.Flags &&& IsModRM ≠ 0 ∧ ModRM.Mod hs.ModRM ≠ 3) ∧
      (∀ st p, beforeModRM cf mode (code.take 15) = .next st p →
        st.cflags &&& cf.cfModRM.val = 0 →
        Mode.Decode cf mode code = some (st.hs, some DecoderError.ErrInvalidLock)) ∧
      (∀ st p, atLockCheck cf mode (code.take 15) = some (st, p) →
        ModRM.Mod st.hs.ModRM = 3 →
        Mode.Decode cf mode code = some (st.hs, some DecoderError.ErrInvalidLock))) := by
  refine ⟨fun hs h hl => lock_success_memory_form cf mode code hs h hl, fun hl => ⟨?_, ?_, ?_⟩⟩
  · intro hs h
    have hf := lock_flag_of_prefix cf mode code hs h hl
    exact ⟨hf, lock_success_memory_form cf mode code hs h hf⟩
  · intro st p hb hm
    have hne : code ≠ [] := by
      rintro rfl
      cases hb
    exact decode_of_body_fail cf mode code _ _ hne
      (decodeBody_lock_no_modrm cf mode _ st p hb hm
        (has_lock_beforeModRM cf mode code st p hb hl))
  · intro st p hr h3
    have hne : code ≠ [] := by
      rintro rfl
      cases hr
    obtain ⟨st0, p0, st1, hb, hm, hrd, hc, hp, hmod⟩ := atLockCheck_inv cf mode _ st p hr
    have hlock : PrefixSet.Has st.pref PreLock = true := by
      rw [hp]
      exact has_lock_beforeModRM cf mode code st0 p0 hb hl
    have hfail : lockCheck mode st = .fail st.hs .ErrInvalidLock := by
      unfold lockCheck
      rw [if_pos hlock, if_pos (hmod.trans h3)]
    exact decode_of_body_fail cf mode code _ _ hne
      (decodeBody_of_checks_fail cf mode _ st0 st1 p0 p _ _ hb hm hrd
        (modrmChecks_of_lock_fail cf mode st1 st _ _ hc hfail))

theorem lock_only_on_memory_form_witness :
    (Mode.Decode sampleCF (sampleMode true) [0xf0, 0x01, 0x00] =
        some ({ Flags := 0x8001, Length := 3, Opcode := 0x01, Opcode2 := 0, REX := 0,
                ModRM := 0x00, SIB := 0, Imm := ⟨0, 0⟩, Disp := ⟨0, 0⟩ }, none) ∧
      (0x8001 : Nat) &&& HasLock ≠ 0 ∧ (0x8001 : Nat) &&& IsModRM ≠ 0 ∧ ModRM.Mod 0x00 ≠ 3) ∧
    (∃ (st : St) (p : List Byte),
      beforeModRM sampleCF (sampleMode true) (([0xf0, 0x90] : List Byte).take 15) =
        .next st p ∧
      st.cflags &&& sampleCF.cfModRM.val = 0 ∧
      st.hs = { Flags := 0x8000, Length := 0, Opcode := 0x90, Opcode2 := 0, REX := 0,
                ModRM := 0, SIB := 0, Imm := ⟨0, 0⟩, Disp := ⟨0, 0⟩ } ∧
      Mode.Decode sampleCF (sampleMode true) [0xf0, 0x90] =
        some (st.hs, some DecoderError.ErrInvalidLock)) ∧
    (∃ (st : St) (p : List Byte),
      atLockCheck sampleCF (sampleMode true) (([0xf0, 0x01, 0xc8] : List Byte).take 15) =
        some (st, p) ∧
      ModRM.Mod st.hs.ModRM = 3 ∧
      st.hs = { Flags := 0x8001, Length := 0, Opcode := 0x01, Opcode2 := 0, REX := 0,
                ModRM := 0xc8, SIB := 0, Imm := ⟨0, 0⟩, Disp := ⟨0, 0⟩ } ∧
      Mode.Decode sampleCF (sampleMode true) [0xf0, 0x01, 0xc8] =
        some (st.hs, some DecoderError.ErrInvalidLock)) :=
  ⟨⟨by decide,
    ((lock_only_on_memory_form sampleCF (sampleMode true) [0xf0, 0x01, 0x00]).2
      (by decide)).1
      { Flags := 0x8001, Length := 3, Opcode := 0x01, Opcode2 := 0, REX := 0,
        ModRM := 0x00, SIB := 0, Imm := ⟨0, 0⟩, Disp := ⟨0, 0⟩ } (by decide)⟩,
   ⟨_, _, rfl, by decide, rfl,
    ((lock_only_on_memory_form sampleCF (sampleMode true) [0xf0, 0x90]).2
      (by decide)).2.1 _ _ rfl (by decide)⟩,
   ⟨_, _, rfl, by decide, rfl,
    ((lock_only_on_memory_form sampleCF (sampleMode true) [0xf0, 0x01, 0xc8]).2
      (by decide)).2.2 _ _ rfl (by decide)⟩⟩

/-- Claim C20: the register ranges of the moves to and from segment, control and
debug registers. For every mode and every input: on a successful `Decode` with
`IsModRM` set, `RegRangeOk` holds (one-byte `0x8C`: `reg ≤ 5`; one-byte `0x8E`:
`reg ∈ {0,2,3,4,5}`; two-byte `0x20`/`0x22`: `reg ∈ {0,2,3,4}`; two-byte
`0x21`/`0x23`: `reg ∉ {4,5}`); and an input that passes the earlier checks (it
reaches the register-range checks of line 190) with an instruction that breaks
a range is rejected with `ErrBadOperand`, the instruction returned being the one
decoded so far. -/
theorem register_range_restrictions (cf : CFlags) (mode : Mode) (code : List Byte) :
    (∀ hs, Mode.Decode cf mode code = some (hs, none) → hs.Flags &&& IsModRM ≠ 0 →
      RegRangeOk hs) ∧
    (∀ st p, atRegRangeCheck cf mode (code.take 15) = some (st, p) → ¬ RegRangeOk st.hs →
      Mode.Decode cf mode code = some (st.hs, some DecoderError.ErrBadOperand)) := by
  constructor
  · intro hs h hm
    obtain ⟨hs0, n, rfl, hl⟩ := (decode_late cf mode code hs none h).1 rfl
    exact regRangeOk_congr (hl.reg ((isModRM_iff _).mp hm)) rfl rfl rfl
  · intro st p hr hn
    have hne : code ≠ [] := by
      rintro rfl
      cases hr
    obtain ⟨st0, p0, st1, hb, hm, hrd, hc, hmid⟩ :=
      atRegRangeCheck_inv cf mode _ (take15_length code) st p hr
    exact decode_of_body_fail cf mode code _ _ hne
      (decodeBody_of_checks_fail cf mode _ st0 st1 p0 p _ _ hb hm hrd
        (modrmChecks_of_regRange_fail cf mode st1 st _ _ hc
          (regRangeCheck_of_not_ok hmid hn)))

theorem register_range_restrictions_witness :
    (Mode.Decode sampleCF (regMode true) [0x8c, 0xe8] =
      some ({ Flags := 1, Length := 2, Opcode := 0x8c, Opcode2 := 0, REX := 0,
              ModRM := 0xe8, SIB := 0, Imm := ⟨0, 0⟩, Disp := ⟨0, 0⟩ }, none) ∧
     ModRM.Reg 0xe8 = 5 ∧
     RegRangeOk { Flags := 1, Length := 2, Opcode := 0x8c, Opcode2 := 0, REX := 0,
                  ModRM := 0xe8, SIB := 0, Imm := ⟨0, 0⟩, Disp := ⟨0, 0⟩ }) ∧
    (∃ (st : St) (p : List Byte),
      atRegRangeCheck sampleCF (regMode false) (([0x0f, 0x20, 0x08] : List Byte).take 15) =
        some (st, p) ∧
      st.hs = { Flags := 1, Length := 0, Opcode := 0x0f, Opcode2 := 0x20, REX := 0,
                ModRM := 0x08, SIB := 0, Imm := ⟨0, 0⟩, Disp := ⟨0, 0⟩ } ∧
      ModRM.Reg st.hs.ModRM = 1 ∧ ¬ RegRangeOk st.hs ∧
      Mode.Decode sampleCF (regMode false) [0x0f, 0x20, 0x08] =
        some (st.hs, some DecoderError.ErrBadOperand)) ∧
    (∃ (st : St) (p : List Byte),
      atRegRangeCheck sampleCF (regMode true) (([0x8e, 0xc8] : List Byte).take 15) =
        some (st, p) ∧
      st.hs = { Flags := 1, Length := 0, Opcode := 0x8e, Opcode2 := 0, REX := 0,
                ModRM := 0xc8, SIB := 0, Imm := ⟨0, 0⟩, Disp := ⟨0, 0⟩ } ∧
      ModRM.Reg st.hs.ModRM = 1 ∧ ¬ RegRangeOk st.hs ∧
      Mode.Decode sampleCF (regMode true) [0x8e, 0xc8] =
        some (st.hs, some DecoderError.ErrBadOperand)) :=
  ⟨⟨by decide, by decide,
     (register_range_restrictions sampleCF (regMode true) [0x8c, 0xe8]).1
       { Flags := 1, Length := 2, Opcode := 0x8c, Opcode2 := 0, REX := 0,
         ModRM := 0xe8, SIB := 0, Imm := ⟨0, 0⟩, Disp := ⟨0, 0⟩ } (by decide) (by decide)⟩,
   ⟨_, _, rfl, rfl, by decide, by decide,
     (register_range_restrictions sampleCF (regMode false) [0x0f, 0x20, 0x08]).2 _ _ rfl
       (by decide)⟩,
   ⟨_, _, rfl, rfl, by decide, by decide,
     (register_range_restrictions sampleCF (regMode true) [0x8e, 0xc8]).2 _ _ rfl
       (by decide)⟩⟩

end Hde
